import Mathlib

/-! Multipart upload assembly: a shallow embedding of `upload/mutlipart_upload.go`.

The Go package `upload` keeps its state in three places: the local filesystem,
a Redis server (string keys, hashes and one sorted set) and the fields of the
`MultipartStorage` receiver.  The embedding passes that state explicitly:

* `World` holds the filesystem, the Redis strings, the Redis hashes and the
  delay queue;
* `MultipartStorage` is the receiver, returned again by every method that
  assigns one of its fields;
* `Deps` holds the functions of imported packages whose code is not part of the
  repository (`encoding/json`, `net/url`, `time.Duration.String`, the iteration
  order of a Go map); `crypto/md5` with `encoding/hex` is `md5Hex`;
* `Config` holds the values read through `configmanager` and `configs.Config`.

Conventions: Redis and the filesystem answer every call (no transport or
permission error, no full disk); what a call answers depends on the state
alone.  Reading a file that does not exist fails, as `ioutil.ReadFile` does;
`os.Create` fails when the directory of the path is not a directory or the path
is one; `os.MkdirAll` fails when it meets a file on its way.  Paths are compared
as texts, the root and the working directory always exist.  `EXPIRE` with a
timeout that is not positive deletes the key; an expiration in force is
recorded and no key reaches its end during the runs considered.  Times are
nanoseconds since the epoch.  Strings are Lean strings, file contents are lists
of bytes.
-/

namespace MultiUpload

/-! ## Bytes, errors, wire types -/

/-- File contents and hash input: a Go byte slice. -/
abbrev Bytes := List UInt8

/-- The conversion `[]byte(s)` of a Go string: its UTF-8 bytes. -/
def strBytes (s : String) : Bytes := s.data.flatMap String.utf8EncodeChar

/-- The gRPC codes the package uses (`codes.InvalidArgument`, `codes.Internal`). -/
inductive Codes where
  | InvalidArgument
  | Internal
deriving DecidableEq, Repr

/-- The error classes passed to `errDef.Errorf` and `errDef.Warnf`. -/
inductive ErrKind where
  | INVALID_REQUEST_ERR
  | INTERNAL_SERVER_ERR
deriving DecidableEq, Repr

/-- An error built by `errDef.Errorf` or `errDef.Warnf`: class, gRPC code and the formatted message. -/
structure MErr where
  kind : ErrKind
  code : Codes
  msg : String
deriving DecidableEq, Repr

/-- The error `errDef.Errorf(SYSTEM_CODE, INTERNAL_SERVER_ERR, codes.Internal, "internal server error")`. -/
def internalServerError : MErr :=
  { kind := ErrKind.INTERNAL_SERVER_ERR, code := Codes.Internal, msg := "internal server error" }

/-- An error `errDef.Errorf(SYSTEM_CODE, INVALID_REQUEST_ERR, codes.InvalidArgument, msg)`. -/
def invalidRequest (msg : String) : MErr :=
  { kind := ErrKind.INVALID_REQUEST_ERR, code := Codes.InvalidArgument, msg := msg }

/-- The verb `%d` of `fmt.Sprintf` on an integer. -/
def fmtD (i : Int) : String := toString i

/-- The message `pb.MultipartUploadStartReq`: the fields the package reads. -/
structure MultipartUploadStartReq where
  Filename : String
  Chunks : Int
  Type_ : Int
deriving DecidableEq, Repr

/-- The message `pb.MultipartUploadReq`. -/
structure MultipartUploadReq where
  UploadId : String
  Chunk : Int
  ContentMd5 : String
  Size : Int
deriving DecidableEq, Repr

/-- The message `pb.MultipartUploadChunkInfo`. -/
structure MultipartUploadChunkInfo where
  UploadId : String
  Chunk : Int
  ContentMd5 : String
  Validity : String
  DownloadPath : String
deriving DecidableEq, Repr

/-- The message `pb.MultipartUploadDoneResp`. -/
structure MultipartUploadDoneResp where
  UploadId : String
  DownloadPath : String
  Validity : String
deriving DecidableEq, Repr

/-- The message `pb.MultipartUploadStartInfo`. -/
structure MultipartUploadStartInfo where
  UploadId : String
deriving DecidableEq, Repr

/-- A `multipart.FileHeader`: the client file name and the part content.  Its `Size` is the
length of the content. -/
structure FileHeader where
  Filename : String
  content : Bytes
deriving DecidableEq, Repr

/-- The field `Size` of a `multipart.FileHeader`. -/
def FileHeader.Size (file : FileHeader) : Int := (file.content.length : Int)

/-- A `multipart.File` opened by `FileHeader.Open`: the content and the read offset. -/
structure OpenFile where
  content : Bytes
  pos : Nat
deriving DecidableEq, Repr

/-- The call `file.Open()`: a reader positioned at offset 0. -/
def FileHeader.Open (file : FileHeader) : OpenFile := { content := file.content, pos := 0 }

/-- Reading a `multipart.File` to the end, as `io.Copy` does with it as source: the bytes from
the current offset on, and the reader left at the end. -/
def OpenFile.readAll (f : OpenFile) : Bytes × OpenFile :=
  (f.content.drop f.pos, { f with pos := f.content.length })

/-! ## `crypto/md5` and `encoding/hex` -/

/-- The sine table of MD5 (RFC 1321). -/
def md5K : List Nat :=
  [3614090360, 3905402710, 606105819, 3250441966, 4118548399, 1200080426, 2821735955, 4249261313,
   1770035416, 2336552879, 4294925233, 2304563134, 1804603682, 4254626195, 2792965006, 1236535329,
   4129170786, 3225465664, 643717713, 3921069994, 3593408605, 38016083, 3634488961, 3889429448,
   568446438, 3275163606, 4107603335, 1163531501, 2850285829, 4243563512, 1735328473, 2368359562,
   4294588738, 2272392833, 1839030562, 4259657740, 2763975236, 1272893353, 4139469664, 3200236656,
   681279174, 3936430074, 3572445317, 76029189, 3654602809, 3873151461, 530742520, 3299628645,
   4096336452, 1126891415, 2878612391, 4237533241, 1700485571, 2399980690, 4293915773, 2240044497,
   1873313359, 4264355552, 2734768916, 1309151649, 4149444226, 3174756917, 718787259, 3951481745]

/-- The rotation amounts of MD5, one per step. -/
def md5Shift : List Nat :=
  [7, 12, 17, 22, 7, 12, 17, 22, 7, 12, 17, 22, 7, 12, 17, 22,
   5, 9, 14, 20, 5, 9, 14, 20, 5, 9, 14, 20, 5, 9, 14, 20,
   4, 11, 16, 23, 4, 11, 16, 23, 4, 11, 16, 23, 4, 11, 16, 23,
   6, 10, 15, 21, 6, 10, 15, 21, 6, 10, 15, 21, 6, 10, 15, 21]

/-- Left rotation of a 32-bit word. -/
def rotl32 (x c : Nat) : Nat := ((x <<< c) ||| (x >>> (32 - c))) % 4294967296

/-- One of the 64 steps of MD5 on the block `m` of 16 words. -/
def md5Step (m : List Nat) (st : Nat × Nat × Nat × Nat) (i : Nat) : Nat × Nat × Nat × Nat :=
  let a := st.1
  let b := st.2.1
  let c := st.2.2.1
  let dd := st.2.2.2
  let f :=
    if i < 16 then (b &&& c) ||| ((b ^^^ 4294967295) &&& dd)
    else if i < 32 then (dd &&& b) ||| ((dd ^^^ 4294967295) &&& c)
    else if i < 48 then (b ^^^ c) ^^^ dd
    else c ^^^ (b ||| (dd ^^^ 4294967295))
  let g :=
    if i < 16 then i
    else if i < 32 then (5 * i + 1) % 16
    else if i < 48 then (3 * i + 5) % 16
    else (7 * i) % 16
  let f2 := (f + a + md5K.getD i 0 + m.getD g 0) % 4294967296
  (dd, (b + rotl32 f2 (md5Shift.getD i 0)) % 4294967296, b, c)

/-- A little-endian 32-bit word from four bytes. -/
def leWord (bs : List Nat) : Nat :=
  bs.getD 0 0 + 256 * bs.getD 1 0 + 65536 * bs.getD 2 0 + 16777216 * bs.getD 3 0

/-- The 16 words of a 64-byte block. -/
def blockWords (block : List Nat) : List Nat :=
  (List.range 16).map (fun j => leWord ((block.drop (4 * j)).take 4))

/-- The compression of one block into the state. -/
def md5Block (st : Nat × Nat × Nat × Nat) (block : List Nat) : Nat × Nat × Nat × Nat :=
  let r := (List.range 64).foldl (md5Step (blockWords block)) st
  ((st.1 + r.1) % 4294967296, (st.2.1 + r.2.1) % 4294967296,
   (st.2.2.1 + r.2.2.1) % 4294967296, (st.2.2.2 + r.2.2.2) % 4294967296)

/-- The little-endian bytes of a number, `n` of them. -/
def leBytes : Nat → Nat → List Nat
  | 0, _ => []
  | n + 1, x => x % 256 :: leBytes n (x / 256)

/-- The padded message: a 1 bit, zeros up to 56 modulo 64, the bit length on 8 bytes. -/
def md5Pad (msg : List Nat) : List Nat :=
  msg ++ [128] ++ List.replicate ((119 - msg.length % 64) % 64) 0 ++ leBytes 8 (8 * msg.length)

/-- The state after the first `n` blocks of the padded message. -/
def md5Blocks : Nat → List Nat → Nat × Nat × Nat × Nat → Nat × Nat × Nat × Nat
  | 0, _, st => st
  | n + 1, bs, st => md5Blocks n (bs.drop 64) (md5Block st (bs.take 64))

/-- Two lowercase hexadecimal digits of a byte. -/
def hexByte (b : Nat) : List Char :=
  let digit := fun (x : Nat) => "0123456789abcdef".data.getD x '0'
  [digit (b / 16), digit (b % 16)]

/-- The digest `hex.EncodeToString(md5.Sum(msg))`. -/
def md5Hex (msg : Bytes) : String :=
  let padded := md5Pad (msg.map UInt8.toNat)
  let st := md5Blocks (padded.length / 64) padded (1732584193, 4023233417, 2562383102, 271733878)
  ⟨(leBytes 4 st.1 ++ leBytes 4 st.2.1 ++ leBytes 4 st.2.2.1 ++ leBytes 4 st.2.2.2).flatMap hexByte⟩

/-! ## Imported packages and configuration -/

/-- The parts of a parsed `url.URL` the package reads: `u.Path`, `u.Query().Get("v")` and
`u.Query().Get("where")`. -/
structure URL where
  Path : String
  v : String
  whereQ : String
deriving DecidableEq, Repr

/-- Functions of imported packages.  `mapRange` is the order in which a `for k := range m`
loop visits the entries of a Go map (any order, each entry once). -/
structure Deps where
  marshalStart : MultipartUploadStartReq → Option String
  unmarshalStart : String → Option MultipartUploadStartReq
  marshalChunk : MultipartUploadChunkInfo → Option String
  unmarshalChunk : String → Option MultipartUploadChunkInfo
  urlParse : String → Option URL
  durationString : Int → String
  mapRange : List (String × String) → List (String × String)
  mapRange_perm : ∀ m, (mapRange m).Perm m

/-- Values read from `configmanager` and `configs.Config`.  `delayDelete` is the result of
`time.ParseDuration` on `storage.delay_delete.duration` (nanoseconds), `none` when it does
not parse. -/
structure Config where
  uploadPath : String
  rootPath : String
  downloadPath : String
  hostname : String
  checkContentEnabled : Bool
  checkSizeEnabled : Bool
  checkSizeMax : Int
  delayDelete : Option Int

/-! ## Paths: `path/filepath` on a Unix host -/

/-- Scan of `filepath.Ext` from the end of the path: `rev` is the unread part, reversed, `acc`
the suffix already passed. -/
def filepathExtAux : List Char → List Char → List Char
  | [], _ => []
  | c :: rest, acc =>
    if c = '/' then [] else if c = '.' then c :: acc else filepathExtAux rest (c :: acc)

/-- The function `filepath.Ext`: the suffix beginning at the final dot in the final element of
the path, empty if there is no dot. -/
def filepathExt (path : String) : String := ⟨filepathExtAux path.data.reverse []⟩

/-- The pieces of a text between the occurrences of a separator. -/
def splitChar (sep : Char) : List Char → List (List Char)
  | [] => [[]]
  | c :: cs =>
    if c = sep then [] :: splitChar sep cs
    else match splitChar sep cs with
      | [] => [[c]]
      | h :: t => (c :: h) :: t

/-- One element of `filepath.Clean`: the stack of kept elements, last one first. -/
def cleanStep (rooted : Bool) (stack : List (List Char)) (comp : List Char) : List (List Char) :=
  if comp = [] ∨ comp = ['.'] then stack
  else if comp = ['.', '.'] then
    match stack with
    | [] => if rooted then [] else [comp]
    | top :: rest => if top = ['.', '.'] then comp :: stack else rest
  else comp :: stack

/-- The function `filepath.Clean`. -/
def filepathClean (path : String) : String :=
  if path = "" then "."
  else
    let rooted : Bool := decide (path.data.head? = some '/')
    let comps := ((splitChar '/' path.data).foldl (cleanStep rooted) []).reverse
    let out : List Char := (if rooted then ['/'] else []) ++ List.intercalate ['/'] comps
    if out = [] then "." else ⟨out⟩

/-- The call `filepath.Join(a, b)`. -/
def filepathJoin (a b : String) : String :=
  if a ≠ "" then filepathClean (a ++ "/" ++ b)
  else if b ≠ "" then filepathClean b
  else ""

/-- The function `filepath.Dir`: the path up to its last separator, cleaned. -/
def filepathDir (path : String) : String :=
  filepathClean ⟨(path.data.reverse.dropWhile (fun c => decide (c ≠ '/'))).reverse⟩

/-- The map `ResourceTypeName`; a key that is not in the map reads as the empty string. -/
def ResourceTypeName (resourceType : Int) : String :=
  if resourceType = 0 then "UNKNOWN"
  else if resourceType = 1 then "/icon"
  else if resourceType = 2 then "/gameitemicon"
  else if resourceType = 3 then "/loading"
  else if resourceType = 4 then "/activity"
  else if resourceType = 5 then "/documents"
  else if resourceType = 6 then "/office_icon"
  else if resourceType = 7 then "/recommendicon"
  else if resourceType = 8 then "/agent_control"
  else if resourceType = 9 then "/currency"
  else if resourceType = 10 then "/gamebrand"
  else if resourceType = 11 then "/tmp"
  else if resourceType = 12 then "/game_hall"
  else if resourceType = 13 then "/game_skin"
  else if resourceType = 14 then "/game_share"
  else if resourceType = 15 then "/brand_hall_icon"
  else ""

/-- The constant `RT_MULTIPART`. -/
def RT_MULTIPART : Int := 11

/-! ## The state outside the process -/

/-- The filesystem, the Redis keys the package uses and the delay queue.  `fs` holds the
regular files, `dirs` the directories other than the root and the working directory; in a
state of a real filesystem no path is both.  A Redis string is stored with the expiration
given to `Set`; a hash is the list of its fields and values (the empty list for a key that
does not exist), `hashTTL` the expiration in force on it, in nanoseconds; in a state of a real
server a key that does not exist has none. -/
structure World where
  fs : String → Option Bytes
  dirs : String → Bool
  kv : String → Option (String × Int)
  hashes : String → List (String × String)
  hashTTL : String → Option Int
  queue : List (String × Int)

/-- The path is a directory; the root and the working directory always are. -/
def World.IsDir (w : World) (path : String) : Bool :=
  decide (path = "/") || decide (path = ".") || w.dirs path

/-- The function `utils.IsExist` of the package `api_mgr/utils`, whose code lies outside this
directory, read as the test that `os.Stat` succeeds: the path is a directory or a file. -/
def World.IsExist (w : World) (path : String) : Bool :=
  w.IsDir path || (w.fs path).isSome

/-- The prefixes of a path that end right before a separator other than its first character,
longest first; `seen` is the part already read, reversed. -/
def parentsAux : List Char → List Char → List String → List String
  | _, [], acc => acc
  | seen, c :: rest, acc =>
    if c = '/' ∧ seen ≠ [] then parentsAux (c :: seen) rest (⟨seen.reverse⟩ :: acc)
    else parentsAux (c :: seen) rest acc

/-- A clean path followed by its parents, nearest first, up to but without the root or the
working directory: the paths `os.MkdirAll` goes through. -/
def pathChain (path : String) : List String := path :: parentsAux [] path.data []

/-- The recursion of `os.MkdirAll` along the chain of a path: a path that is a directory ends
it, a path that is a file fails it, any other path is made with `os.Mkdir` once its parent
is there. -/
def World.mkdirAllChain (w : World) : List String → Option World
  | [] => some w
  | path :: parents =>
    if w.IsDir path = true then some w
    else if (w.fs path).isSome = true then none
    else match w.mkdirAllChain parents with
      | none => none
      | some w1 => some { w1 with dirs := fun q => decide (q = path) || w1.dirs q }

/-- The call `os.MkdirAll(path, perm)` on a clean path; `none` stands for its error, which
leaves the filesystem as it was. -/
def World.MkdirAll (w : World) (path : String) : Option World :=
  w.mkdirAllChain (pathChain path)

/-- The call `os.Create(path)`; `none` stands for its error: the path is empty, its directory
is not a directory, or the path is a directory itself.  Otherwise the file exists afterwards
and is empty. -/
def World.Create (w : World) (path : String) : Option World :=
  if path ≠ "" ∧ w.IsDir (filepathDir path) = true ∧ w.IsDir path = false then
    some { w with fs := fun q => if q = path then some [] else w.fs q }
  else none

/-- A `Write` on the file opened by `os.Create`: the bytes are appended to its content. -/
def World.Write (w : World) (path : String) (data : Bytes) : World :=
  { w with fs := fun q => if q = path then some ((w.fs path).getD [] ++ data) else w.fs q }

/-- The call `ioutil.ReadFile(path)`; `none` stands for its error. -/
def World.ReadFile (w : World) (path : String) : Option Bytes := w.fs path

/-- The call `Set(key, value, expiration)`: the value is stored under the key, together with
the expiration given (go-redis passes none on to Redis when it is not positive). -/
def World.Set (w : World) (key value : String) (expiration : Int) : World :=
  { w with kv := fun k => if k = key then some (value, expiration) else w.kv k }

/-- The command `GET key`; `none` stands for the error `redis.Nil`. -/
def World.Get (w : World) (key : String) : Option String := (w.kv key).map Prod.fst

/-- The fields of a hash after `HSET field value`: one entry for the field, the others kept. -/
def hsetFields (m : List (String × String)) (field value : String) : List (String × String) :=
  (field, value) :: m.filter (fun e => decide (e.1 ≠ field))

/-- The command `HSET key field value`. -/
def World.HSet (w : World) (key field value : String) : World :=
  { w with hashes := fun k => if k = key then hsetFields (w.hashes key) field value else w.hashes k }

/-- The command `HGETALL key`. -/
def World.HGetAll (w : World) (key : String) : List (String × String) := w.hashes key

/-- The command `HGET key field`; `none` stands for the error `redis.Nil`. -/
def World.HGet (w : World) (key field : String) : Option String :=
  ((w.hashes key).find? (fun e => decide (e.1 = field))).map Prod.snd

/-- The command `TTL key` as go-redis returns it: -2 for a key that does not exist, -1 for a
key without expiration, the time left otherwise, which is never negative. -/
def World.TTL (w : World) (key : String) : Int :=
  if w.hashes key = [] then -2
  else match w.hashTTL key with
    | none => -1
    | some d => if d < 0 then 0 else d

/-- The function `formatSec` of go-redis: the whole seconds of a duration, rounded towards
zero, and one second for a positive duration below a second. -/
def formatSec (dur : Int) : Int :=
  if 0 < dur ∧ dur < 1000000000 then 1 else dur.tdiv 1000000000

/-- The call `Expire(key, expiration)` of go-redis, the command `EXPIRE key seconds` with
`formatSec expiration` seconds: nothing happens to a key that does not exist; a timeout that
is not positive deletes the key; a positive one is recorded as the expiration in force. -/
def World.Expire (w : World) (key : String) (expiration : Int) : World :=
  if w.hashes key = [] then w
  else if formatSec expiration ≤ 0 then
    { w with
      hashes := fun k => if k = key then [] else w.hashes k
      hashTTL := fun k => if k = key then none else w.hashTTL k }
  else
    { w with
      hashTTL := fun k => if k = key then some (formatSec expiration * 1000000000) else w.hashTTL k }

/-- The first text begins the second. -/
def startsWith : List Char → List Char → Bool
  | [], _ => true
  | _ :: _, [] => false
  | a :: p, b :: q => decide (a = b) && startsWith p q

/-- The file `q` is the path `path` or lies below it; the empty path covers nothing. -/
def coveredBy (path q : String) : Bool :=
  decide (path ≠ "") && (decide (q = path) || startsWith (path ++ "/").data q.data)

/-- The call `os.RemoveAll(path)`: the file or directory at the path and everything below it
are gone, the empty path removes nothing.  Paths are compared as texts. -/
def World.RemoveAll (w : World) (path : String) : World :=
  { w with
    fs := fun q => if coveredBy path q = true then none else w.fs q
    dirs := fun q => if coveredBy path q = true then false else w.dirs q }

/-- The first text comes before the second in the lexical order. -/
def textLT : List Char → List Char → Bool
  | _, [] => false
  | [], _ :: _ => true
  | a :: p, b :: q => decide (a.toNat < b.toNat) || (decide (a = b) && textLT p q)

/-- The order of a sorted set: by score, members of equal score by their text. -/
def zsetLE (a b : String × Int) : Prop :=
  a.2 < b.2 ∨ (a.2 = b.2 ∧ textLT b.1.data a.1.data = false)

instance zsetLE_decidable : DecidableRel zsetLE := fun a b =>
  inferInstanceAs (Decidable (a.2 < b.2 ∨ (a.2 = b.2 ∧ textLT b.1.data a.1.data = false)))

/-- The command `ZRANGEBYSCORE key min max`: the members whose score lies between the two
bounds, both included, in the order of the sorted set. -/
def zrangeByScore (q : List (String × Int)) (min max : Int) : List String :=
  ((q.filter (fun e => decide (min ≤ e.2 ∧ e.2 ≤ max))).insertionSort zsetLE).map Prod.fst

/-- The command `ZREMRANGEBYSCORE key min max`: the entries outside the two bounds stay. -/
def zremRangeByScore (q : List (String × Int)) (min max : Int) : List (String × Int) :=
  q.filter (fun e => decide (¬ (min ≤ e.2 ∧ e.2 ≤ max)))

/-- The members of a sorted set after `ZADD member score`: one entry for the member. -/
def zaddMembers (q : List (String × Int)) (member : String) (score : Int) : List (String × Int) :=
  (member, score) :: q.filter (fun e => decide (e.1 ≠ member))

/-- The format `MULTIPART_STORAGE_METADATA` applied to an upload id. -/
def metadataKey (uploadId : String) : String :=
  "platform:multipart_storage:" ++ uploadId ++ ":metadata"

/-- The format `MULTIPART_STORAGE_CHUNKS_HASH` applied to an upload id. -/
def chunksHashKey (uploadId : String) : String :=
  "platform:multipart_storage:hash:" ++ uploadId ++ ":chunks"

/-! ## `dely_job.go` -/

/-- The method `StorageDelayJob.delayDuration`, in nanoseconds: the configured duration, ten
minutes when it does not parse. -/
def delayDuration (cfg : Config) : Int :=
  match cfg.delayDelete with
  | some duration => duration
  | none => 10 * (60 * 1000000000)

/-- The method `StorageDelayJob.Add` at time `now` (nanoseconds since the epoch): `ZADD` with
the score `now.Add(delayDuration).Unix()`. -/
def StorageDelayJob.Add (cfg : Config) (now : Int) (w : World) (filePath : String) : World :=
  { w with queue := zaddMembers w.queue filePath ((now + delayDuration cfg) / 1000000000) }

/-- The method `StorageDelayJob.Remove`: `ZREM`. -/
def StorageDelayJob.Remove (w : World) (filePath : String) : World :=
  { w with queue := w.queue.filter (fun e => decide (e.1 ≠ filePath)) }

/-- One round of the loop of `StorageDelayJob.Start` at time `now` (nanoseconds since the
epoch): in one transaction the members with a score from -1 to `now.Unix()` are read and
removed from the queue, then `os.RemoveAll` is called on each of them.  The result is the list
of the paths given to `os.RemoveAll`, in order, and the world after the round. -/
def StorageDelayJob.tick (now : Int) (w : World) : List String × World :=
  let result := zrangeByScore w.queue (-1) (now / 1000000000)
  let w1 : World := { w with queue := zremRangeByScore w.queue (-1) (now / 1000000000) }
  (result, result.foldl World.RemoveAll w1)

/-! ## `upload.go`: the receiver and its paths -/

/-- The struct `MultipartStorage` with the embedded `Storage`.  The field `where` is spelled
`where_`; the delay job of every storage is the one queue of the `World`. -/
structure MultipartStorage where
  cdnPath : String
  uploadPath : String
  version : String
  where_ : String
  resourceType : Int
  resourceId : String
  customeResourceId : Bool
  contentMD5 : String
  size : Int
deriving DecidableEq, Repr

/-- The function `NewMultipartStorage` over `NewStorage`, at time `now`; `uuid` is the value
`uuid.NewString()` would return.  `none` stands for its error. -/
def NewMultipartStorage (cfg : Config) (now : Int) (uuid : String) (resourceType : Int)
    (resourceId : String) : Option MultipartStorage :=
  if resourceType < 0 ∨ 15 < resourceType ∨ resourceType = 0 then none
  else some
    { cdnPath := if resourceType = 5 ∨ resourceType = 8 then cfg.downloadPath else cfg.rootPath
      uploadPath := cfg.uploadPath
      version := fmtD (now / 1000000000)
      where_ := ""
      resourceType := resourceType
      resourceId := if resourceId = "" then uuid ++ "_" ++ cfg.hostname else resourceId
      customeResourceId := decide (resourceId ≠ "")
      contentMD5 := ""
      size := 0 }

/-- The method `Storage.fileName`: `/resourceType/resourceId.suffix`. -/
def fileName (s : MultipartStorage) (name : String) : String :=
  filepathJoin (ResourceTypeName s.resourceType) (s.resourceId ++ filepathExt name)

/-- The method `Storage.uploadFullPathByName`: the full path of the file, and the world after
the directory of the file has been made when nothing was there; a failure of `os.MkdirAll` is
logged only. -/
def uploadFullPathByName (s : MultipartStorage) (w : World) (name : String) : String × World :=
  let filePath := filepathJoin s.uploadPath (fileName s name)
  let fileDir := filepathDir filePath
  if w.IsExist fileDir = false then
    match w.MkdirAll fileDir with
    | none => (filePath, w)
    | some w1 => (filePath, w1)
  else (filePath, w)

/-- The method `Storage.parse`: the path of the parsed URL, with `version` and `where`
assigned from its query; the input itself when it does not parse. -/
def parse (d : Deps) (s : MultipartStorage) (uploadPath : String) : String × MultipartStorage :=
  match d.urlParse uploadPath with
  | some u =>
    (u.Path, { s with version := if u.v ≠ "" then u.v else s.version, where_ := u.whereQ })
  | none => (uploadPath, s)

/-- The download path both `upload` and `Done` return for a file. -/
def downloadPathOf (s : MultipartStorage) (filePath : String) : String :=
  fileName s filePath ++ "?v=" ++ s.version ++ "&where=multi_upload"

/-! ## `mutlipart_upload.go` -/

/-- The method `MultipartStorage.setStart`: the request is stored under the key of the
receiver's resource id, with the delay duration as expiration. -/
def setStart (d : Deps) (cfg : Config) (s : MultipartStorage) (w : World)
    (req : MultipartUploadStartReq) : Except MErr Unit × World :=
  match d.marshalStart req with
  | none => (.error internalServerError, w)
  | some startInfo => (.ok (), w.Set (metadataKey s.resourceId) startInfo (delayDuration cfg))

/-- The method `MultipartStorage.Start`. -/
def Start (d : Deps) (cfg : Config) (s : MultipartStorage) (w : World)
    (req : MultipartUploadStartReq) : Except MErr MultipartUploadStartInfo × World :=
  match setStart d cfg s w req with
  | (.error e, w1) => (.error e, w1)
  | (.ok _, w1) => (.ok { UploadId := s.resourceId }, w1)

/-- The method `MultipartStorage.getStartInfo`. -/
def getStartInfo (d : Deps) (w : World) (uploadId : String) : Except MErr MultipartUploadStartReq :=
  match w.Get (metadataKey uploadId) with
  | none => .error (invalidRequest ("upload '" ++ uploadId ++ "' not found"))
  | some startInfo =>
    if startInfo = "" then .error (invalidRequest ("upload '" ++ uploadId ++ "' not found"))
    else match d.unmarshalStart startInfo with
      | none => .error internalServerError
      | some multiPartUploadStartInfo => .ok multiPartUploadStartInfo

/-- The method `MultipartStorage.setChunk`: `HSET` of the marshalled record under the field
`%d` of its chunk index, then `Expire` with the delay duration when `TTL` answers -1. -/
def setChunk (d : Deps) (cfg : Config) (w : World) (req : MultipartUploadChunkInfo) :
    Except MErr Unit × World :=
  match d.marshalChunk req with
  | none => (.error internalServerError, w)
  | some chunkInfo =>
    let w1 := w.HSet (chunksHashKey req.UploadId) (fmtD req.Chunk) chunkInfo
    let ttl := w1.TTL (chunksHashKey req.UploadId)
    if ttl = -1 then (.ok (), w1.Expire (chunksHashKey req.UploadId) (delayDuration cfg))
    else (.ok (), w1)

/-- The order by chunk index: `a` need not come after `b`, that is, not
`b.Chunk < a.Chunk`. -/
def chunkLE (a b : MultipartUploadChunkInfo) : Prop := a.Chunk ≤ b.Chunk

instance chunkLE_decidable : DecidableRel chunkLE := fun a b => Int.decLe a.Chunk b.Chunk

instance chunkLE_isTotal : IsTotal MultipartUploadChunkInfo chunkLE :=
  ⟨fun a b => Int.le_total a.Chunk b.Chunk⟩

instance chunkLE_isTrans : IsTrans MultipartUploadChunkInfo chunkLE :=
  ⟨fun _ _ _ h1 h2 => Int.le_trans h1 h2⟩

/-- The call `sort.SliceStable` with the comparison `chunkInfos[i].Chunk < chunkInfos[j].Chunk`:
the stable sort by chunk index. -/
def sortSliceStable (chunkInfos : List MultipartUploadChunkInfo) : List MultipartUploadChunkInfo :=
  chunkInfos.insertionSort chunkLE

/-- The loop of `getChunks` over the entries of the hash, in the order given: an empty value is
skipped, a value that does not unmarshal ends the call with an internal error. -/
def getChunksLoop (d : Deps) :
    List (String × String) → List MultipartUploadChunkInfo → Except MErr (List MultipartUploadChunkInfo)
  | [], chunkInfos => .ok chunkInfos
  | (_, v) :: rest, chunkInfos =>
    if v = "" then getChunksLoop d rest chunkInfos
    else match d.unmarshalChunk v with
      | none => .error internalServerError
      | some chunkInfo => getChunksLoop d rest (chunkInfos ++ [chunkInfo])

/-- The method `MultipartStorage.getChunks`. -/
def getChunks (d : Deps) (w : World) (uploadId : String) :
    Except MErr (List MultipartUploadChunkInfo) :=
  let chunkInfoList := w.HGetAll (chunksHashKey uploadId)
  if chunkInfoList.length = 0 then
    .error (invalidRequest ("upload '" ++ uploadId ++ "' chunks redis hash not found"))
  else match getChunksLoop d (d.mapRange chunkInfoList) [] with
    | .error e => .error e
    | .ok chunkInfos => .ok (sortSliceStable chunkInfos)

/-- The method `MultipartStorage.GetMultipartUploadChunks`. -/
def GetMultipartUploadChunks (d : Deps) (w : World) (uploadId : String) :
    Except MErr (List MultipartUploadChunkInfo) :=
  getChunks d w uploadId

/-- The method `MultipartStorage.GetMultipartUploadChunk`. -/
def GetMultipartUploadChunk (d : Deps) (w : World) (uploadId : String) (chunk : Int) :
    Except MErr MultipartUploadChunkInfo :=
  match w.HGet (chunksHashKey uploadId) (fmtD chunk) with
  | none =>
    .error (invalidRequest ("upload '" ++ uploadId ++ "' chunk " ++ fmtD chunk ++ " not found"))
  | some chunkInfo =>
    if chunkInfo = "" then
      .error (invalidRequest ("upload '" ++ uploadId ++ "' chunk " ++ fmtD chunk ++ " not found"))
    else match d.unmarshalChunk chunkInfo with
      | none => .error internalServerError
      | some c => .ok c

/-- The method `MultipartStorage.contentMD5Valid`. -/
def contentMD5Valid (cfg : Config) (s : MultipartStorage) (contentMD5 : String) : Except MErr Unit :=
  if s.contentMD5 ≠ "" ∧ cfg.checkContentEnabled = true then
    if s.contentMD5 ≠ contentMD5 then
      .error (invalidRequest ("upload file content_md5 not equal input '" ++ s.contentMD5 ++
        "', want '" ++ contentMD5 ++ "'"))
    else .ok ()
  else .ok ()

/-- The method `MultipartStorage.contentValid`: when the check runs, the reader is read to its
end by `io.Copy(hash, file)`; the reader is returned as the call leaves it. -/
def contentValid (cfg : Config) (s : MultipartStorage) (file : OpenFile) :
    Except MErr Unit × OpenFile :=
  if s.contentMD5 ≠ "" ∧ cfg.checkContentEnabled = true then
    let md5sum := md5Hex file.readAll.1
    match contentMD5Valid cfg s md5sum with
    | .error e => (.error e, file.readAll.2)
    | .ok _ => (.ok (), file.readAll.2)
  else (.ok (), file)

/-- The method `MultipartStorage.fileSizeValid`. -/
def fileSizeValid (cfg : Config) (s : MultipartStorage) (size : Int) : Except MErr Unit :=
  if s.size ≠ 0 ∧ cfg.checkSizeEnabled = true then
    if s.size ≠ size then
      .error (invalidRequest ("upload file size not equal input " ++ fmtD s.size ++
        ", want " ++ fmtD size))
    else .ok ()
  else .ok ()

/-- The method `MultipartStorage.sizeValid`. -/
def sizeValid (cfg : Config) (s : MultipartStorage) (file : FileHeader) : Except MErr Unit :=
  if s.size ≠ 0 ∧ cfg.checkSizeEnabled = true then
    if file.Size > cfg.checkSizeMax then
      .error (invalidRequest ("request file too large, max size " ++ fmtD cfg.checkSizeMax ++
        " bytes"))
    else fileSizeValid cfg s file.Size
  else .ok ()

/-- The method `MultipartStorage.upload` at time `now`. -/
def upload (cfg : Config) (now : Int) (s : MultipartStorage) (w : World)
    (file : FileHeader) : Except MErr String × World :=
  match sizeValid cfg s file with
  | .error e => (.error e, w)
  | .ok _ =>
    let filePath := (uploadFullPathByName s w file.Filename).1
    let w0 := (uploadFullPathByName s w file.Filename).2
    match w0.Create filePath with
    | none => (.error internalServerError, w0)
    | some w1 =>
      let uploadFile := file.Open
      match contentValid cfg s uploadFile with
      | (.error e, _) => (.error e, w1)
      | (.ok _, uploadFile1) =>
        let w2 := w1.Write filePath uploadFile1.readAll.1
        let w3 := StorageDelayJob.Add cfg now w2 filePath
        (.ok (downloadPathOf s filePath), w3)

/-- The method `MultipartStorage.Upload` at time `now`. -/
def Upload (d : Deps) (cfg : Config) (now : Int) (s : MultipartStorage) (w : World)
    (req : MultipartUploadReq) (file : FileHeader) :
    Except MErr MultipartUploadChunkInfo × MultipartStorage × World :=
  match getStartInfo d w req.UploadId with
  | .error e => (.error e, s, w)
  | .ok _ =>
    let s1 := { s with contentMD5 := req.ContentMd5, size := req.Size }
    match upload cfg now s1 w file with
    | (.error e, w1) => (.error e, s1, w1)
    | (.ok downloadPath, w1) =>
      let chunkInfo : MultipartUploadChunkInfo :=
        { UploadId := req.UploadId
          Chunk := req.Chunk
          ContentMd5 := req.ContentMd5
          Validity := d.durationString (delayDuration cfg)
          DownloadPath := downloadPath }
      match setChunk d cfg w1 chunkInfo with
      | (.error e, w2) => (.error e, s1, w2)
      | (.ok _, w2) => (.ok chunkInfo, s1, w2)

/-- The file `Done` reads for a chunk record: `filepath.Join(s.uploadPath, s.parse(DownloadPath))`. -/
def chunkFilePath (d : Deps) (s : MultipartStorage) (chunk : MultipartUploadChunkInfo) : String :=
  filepathJoin s.uploadPath (parse d s chunk.DownloadPath).1

/-- The merge loop of `Done` over the records, writing to the file at `filePath`: the receiver,
the world and the bytes fed to the hash so far are threaded through; a chunk file that cannot
be read ends the loop with an internal error. -/
def mergeChunks (d : Deps) (filePath : String) :
    List MultipartUploadChunkInfo → MultipartStorage → World → Bytes →
      Except MErr Unit × MultipartStorage × World × Bytes
  | [], s, w, hash => (.ok (), s, w, hash)
  | chunk :: rest, s, w, hash =>
    let s1 := (parse d s chunk.DownloadPath).2
    match w.ReadFile (chunkFilePath d s chunk) with
    | none => (.error internalServerError, s1, w, hash)
    | some chunkFile =>
      mergeChunks d filePath rest s1 (w.Write filePath chunkFile) (hash ++ strBytes chunk.ContentMd5)

/-- The method `MultipartStorage.Done` at time `now`. -/
def Done (d : Deps) (cfg : Config) (now : Int) (s : MultipartStorage) (w : World)
    (uploadId : String) : Except MErr MultipartUploadDoneResp × MultipartStorage × World :=
  match getStartInfo d w uploadId with
  | .error e => (.error e, s, w)
  | .ok startInfo =>
    let s1 := { s with resourceType := startInfo.Type_ }
    match getChunks d w uploadId with
    | .error e => (.error e, s1, w)
    | .ok chunks =>
      if (chunks.length : Int) ≠ startInfo.Chunks then
        (.error (invalidRequest ("upload '" ++ uploadId ++ "' chunks not enough, current " ++
          fmtD chunks.length ++ ", want " ++ fmtD startInfo.Chunks)), s1, w)
      else
        let filePath := (uploadFullPathByName s1 w startInfo.Filename).1
        let w0 := (uploadFullPathByName s1 w startInfo.Filename).2
        match w0.Create filePath with
        | none => (.error internalServerError, s1, w0)
        | some w1 =>
          match mergeChunks d filePath chunks s1 w1 [] with
          | (.error e, s2, w2, _) => (.error e, s2, w2)
          | (.ok _, s2, w2, hash) =>
            match contentMD5Valid cfg s2 (md5Hex hash) with
            | .error e => (.error e, s2, w2)
            | .ok _ =>
              let w3 := StorageDelayJob.Add cfg now w2 filePath
              (.ok { UploadId := uploadId
                     DownloadPath := downloadPathOf s2 filePath
                     Validity := d.durationString (delayDuration cfg) }, s2, w3)

/-! ## A reference instance of the imported packages

Used to replay concrete runs.  The codec stands in for `encoding/json` on the two messages: one
field per line, so a record is read back as it was written when its text fields hold no line
break.  The URL parser covers the download paths `upload` builds for plain resource ids: a
rooted path without escapes or fragment, followed by the query. -/

/-- The decimal value of a text of digits. -/
def parseNatChars (cs : List Char) : Option Nat :=
  if cs = [] ∨ cs.any (fun c => decide (c.toNat < 48 ∨ 57 < c.toNat)) then none
  else some (cs.foldl (fun acc c => acc * 10 + (c.toNat - 48)) 0)

/-- The value of a decimal integer text with an optional minus sign. -/
def parseIntChars : List Char → Option Int
  | '-' :: cs => (parseNatChars cs).map (fun n => -(n : Int))
  | cs => (parseNatChars cs).map (fun n => (n : Int))

/-- The reference encoding of a chunk record. -/
def refMarshalChunk (c : MultipartUploadChunkInfo) : Option String :=
  some (c.UploadId ++ "\n" ++ fmtD c.Chunk ++ "\n" ++ c.ContentMd5 ++ "\n" ++ c.Validity ++ "\n" ++
    c.DownloadPath)

/-- The reference decoding of a chunk record. -/
def refUnmarshalChunk (v : String) : Option MultipartUploadChunkInfo :=
  match splitChar '\n' v.data with
  | [uploadId, chunk, contentMd5, validity, downloadPath] =>
    (parseIntChars chunk).map (fun n =>
      { UploadId := ⟨uploadId⟩, Chunk := n, ContentMd5 := ⟨contentMd5⟩, Validity := ⟨validity⟩,
        DownloadPath := ⟨downloadPath⟩ })
  | _ => none

/-- The reference encoding of a start request. -/
def refMarshalStart (r : MultipartUploadStartReq) : Option String :=
  some (r.Filename ++ "\n" ++ fmtD r.Chunks ++ "\n" ++ fmtD r.Type_)

/-- The reference decoding of a start request. -/
def refUnmarshalStart (v : String) : Option MultipartUploadStartReq :=
  match splitChar '\n' v.data with
  | [filename, chunks, type] =>
    match parseIntChars chunks, parseIntChars type with
    | some n, some t => some { Filename := ⟨filename⟩, Chunks := n, Type_ := t }
    | _, _ => none
  | _ => none

/-- The first value of a key in a query text `k1=v1&k2=v2`. -/
def queryGet (query : List Char) (key : List Char) : String :=
  match ((splitChar '&' query).map (fun kv =>
      (kv.takeWhile (fun c => decide (c ≠ '=')), (kv.dropWhile (fun c => decide (c ≠ '='))).drop 1))).find?
      (fun kv => decide (kv.1 = key)) with
  | some kv => ⟨kv.2⟩
  | none => ""

/-- The reference URL parser: a rooted path that does not begin with two slashes and holds no
escape, fragment, plus sign, semicolon or control character is split at its first question
mark; other texts are not covered and answer `none`. -/
def refUrlParse (rawURL : String) : Option URL :=
  let cs := rawURL.data
  if cs.any (fun c => decide (c = '#' ∨ c = '%' ∨ c = ';' ∨ c = '+' ∨ c.toNat < 32 ∨ c.toNat = 127)) then
    none
  else if cs.head? = some '/' ∧ (cs.drop 1).head? ≠ some '/' then
    let query := (cs.dropWhile (fun c => decide (c ≠ '?'))).drop 1
    some { Path := ⟨cs.takeWhile (fun c => decide (c ≠ '?'))⟩
           v := queryGet query ['v']
           whereQ := queryGet query "where".data }
  else none

/-- The text `time.Duration.String` gives for a whole, non-negative number of seconds
(`10m0s`, `1h0m0s`, `5s`); other durations are not covered and are shown as a count of
nanoseconds. -/
def refDurationString (duration : Int) : String :=
  if 0 ≤ duration ∧ duration % 1000000000 = 0 then
    let sec := duration / 1000000000
    if sec / 3600 ≠ 0 then
      fmtD (sec / 3600) ++ "h" ++ fmtD (sec / 60 % 60) ++ "m" ++ fmtD (sec % 60) ++ "s"
    else if sec / 60 ≠ 0 then fmtD (sec / 60) ++ "m" ++ fmtD (sec % 60) ++ "s"
    else fmtD sec ++ "s"
  else fmtD duration ++ "ns"

/-- The reference instance: the codec, the parser and the duration text above, map entries
visited in stored order. -/
def refDeps : Deps where
  marshalStart := refMarshalStart
  unmarshalStart := refUnmarshalStart
  marshalChunk := refMarshalChunk
  unmarshalChunk := refUnmarshalChunk
  urlParse := refUrlParse
  durationString := refDurationString
  mapRange := fun m => m
  mapRange_perm := fun m => List.Perm.refl m

/-- A configuration with both checks off and the default limits. -/
def refConfig : Config where
  uploadPath := "/up"
  rootPath := "/cdn"
  downloadPath := "/dl"
  hostname := "1"
  checkContentEnabled := false
  checkSizeEnabled := false
  checkSizeMax := 10485760
  delayDelete := none

/-- The world before any request: no file, no directory but the root and the working
directory, no key, an empty queue. -/
def emptyWorld : World where
  fs := fun _ => none
  dirs := fun _ => false
  kv := fun _ => none
  hashes := fun _ => []
  hashTTL := fun _ => none
  queue := []

/-- The storage `NewMultipartStorage(RT_MULTIPART, resourceId)` builds under `refConfig` at
time 0. -/
def refStorage (resourceId : String) : MultipartStorage where
  cdnPath := "/cdn"
  uploadPath := "/up"
  version := "0"
  where_ := ""
  resourceType := 11
  resourceId := resourceId
  customeResourceId := true
  contentMD5 := ""
  size := 0

/-! ## Specification-side definitions -/

/-- The path `uploadFullPathByName` returns for a file name. -/
def fullPath (s : MultipartStorage) (name : String) : String :=
  filepathJoin s.uploadPath (fileName s name)

/-- The world as `uploadFullPathByName` leaves it for a file path: the directory of the file
made when nothing was there and `os.MkdirAll` succeeds. -/
def withDirFor (w : World) (path : String) : World :=
  if w.IsExist (filepathDir path) = false then (w.MkdirAll (filepathDir path)).getD w else w

/-- The call `os.Create` succeeds on the path once `uploadFullPathByName` has seen to its
directory. -/
def creatable (w : World) (path : String) : Prop :=
  ((withDirFor w path).Create path).isSome = true

instance creatable_decidable (w : World) (path : String) : Decidable (creatable w path) :=
  inferInstanceAs (Decidable (((withDirFor w path).Create path).isSome = true))

/-- The world after `uploadFullPathByName` and a successful `os.Create` of the path. -/
def createdAt (w : World) (path : String) : World :=
  { withDirFor w path with fs := fun q => if q = path then some [] else w.fs q }

/-- The paths can be created as files one after the other: none is empty or a directory, and
no directory on the way to one of them is a file or one of the paths. -/
def pathsFree (w : World) (paths : List String) : Prop :=
  (∀ p ∈ paths, p ≠ "" ∧ w.IsDir p = false) ∧
    ∀ q ∈ paths, ∀ a ∈ pathChain (filepathDir q), w.fs a = none ∧ a ∉ paths

instance pathsFree_decidable (w : World) (paths : List String) : Decidable (pathsFree w paths) :=
  inferInstanceAs (Decidable ((∀ p ∈ paths, p ≠ "" ∧ w.IsDir p = false) ∧
    ∀ q ∈ paths, ∀ a ∈ pathChain (filepathDir q), w.fs a = none ∧ a ∉ paths))

/-- The directories `/up` and `/up/tmp`. -/
def upTmpDirs : String → Bool := fun p => decide (p = "/up") || decide (p = "/up/tmp")

/-- The records held by a hash: the decoded values of its fields with a non-empty value, in the
order of the list. -/
def decodedValues (d : Deps) (m : List (String × String)) : List MultipartUploadChunkInfo :=
  (m.filter (fun e => decide (e.2 ≠ ""))).filterMap (fun e => d.unmarshalChunk e.2)

/-- Every non-empty value of the hash unmarshals. -/
def allDecode (d : Deps) (m : List (String × String)) : Prop :=
  ∀ e ∈ m, e.2 ≠ "" → d.unmarshalChunk e.2 ≠ none

/-- A hash holding two records, stored in descending order of their index. -/
def twoChunkWorld : World :=
  { emptyWorld with
    hashes := fun k =>
      if k = chunksHashKey "S1" then
        [("1", "S1\n1\nmd5b\n10m0s\n/tmp/B?v=0&where=multi_upload"),
         ("0", "S1\n0\nmd5a\n10m0s\n/tmp/A?v=0&where=multi_upload")]
      else [] }

/-- A configuration with the content check on. -/
def contentCheckConfig : Config := { refConfig with checkContentEnabled := true }

/-- A configuration with the size check on and a limit of 10 bytes for a chunk. -/
def sizeCheckConfig : Config := { refConfig with checkSizeEnabled := true, checkSizeMax := 10 }

/-- The five bytes of the text `hello`. -/
def helloBytes : Bytes := [104, 101, 108, 108, 111]

/-- A session `S1` that declares two chunks and holds one record, of index 0. -/
def oneOfTwoWorld : World :=
  { emptyWorld with
    kv := fun k => if k = metadataKey "S1" then some ("a.png\n2\n11", 600000000000) else none
    hashes := fun k =>
      if k = chunksHashKey "S1" then [("0", "S1\n0\nmd5a\n10m0s\n/tmp/A?v=0&where=multi_upload")]
      else [] }

/-- The number a text of decimal digits denotes. -/
def decimalValue (cs : List Char) : Nat := cs.foldl (fun acc c => acc * 10 + (c.toNat - 48)) 0

/-- The destination file of `Done`: `uploadFullPathByName(startInfo.Filename)` after the
receiver took the resource type of the session. -/
def destPath (s : MultipartStorage) (startInfo : MultipartUploadStartReq) : String :=
  fullPath { s with resourceType := startInfo.Type_ } startInfo.Filename

/-- The chunk indices of the records a hash holds. -/
def storedIndices (d : Deps) (m : List (String × String)) : List Int :=
  (decodedValues d m).map (fun c => c.Chunk)

/-- A session `S1` of one chunk whose record points at the file that is also the destination of
`Done` for the receiver `S1`: the chunk was uploaded under the name `c.png` by a receiver with
the resource id `S1`, the session names its file `a.png`. -/
def aliasWorld : World :=
  { emptyWorld with
    fs := fun q => if q = "/up/tmp/S1.png" then some [1, 2] else none
    dirs := upTmpDirs
    kv := fun k => if k = metadataKey "S1" then some ("a.png\n1\n11", 600000000000) else none
    hashes := fun k =>
      if k = chunksHashKey "S1" then
        [("0", "S1\n0\nmd5a\n10m0s\n/tmp/S1.png?v=0&where=multi_upload")]
      else [] }

/-- A session `S1` of one chunk, staged at `/up/tmp/A` with the checksum text `md5a`. -/
def oneChunkWorld : World :=
  { emptyWorld with
    fs := fun q => if q = "/up/tmp/A" then some [1, 2] else none
    dirs := upTmpDirs
    kv := fun k => if k = metadataKey "S1" then some ("a.png\n1\n11", 600000000000) else none
    hashes := fun k =>
      if k = chunksHashKey "S1" then [("0", "S1\n0\nmd5a\n10m0s\n/tmp/A?v=0&where=multi_upload")]
      else [] }

/-- The record of `oneChunkWorld`. -/
def oneChunkRecord : MultipartUploadChunkInfo :=
  { UploadId := "S1", Chunk := 0, ContentMd5 := "md5a", Validity := "10m0s",
    DownloadPath := "/tmp/A?v=0&where=multi_upload" }

/-- A session `S1` that declares no chunk and holds none. -/
def zeroChunkWorld : World :=
  { emptyWorld with
    kv := fun k => if k = metadataKey "S1" then some ("a.png\n0\n11", 600000000000) else none }

/-- The receiver as `Upload` leaves it: `contentMD5` and `size` taken from the request. -/
def uploadReceiver (s : MultipartStorage) (req : MultipartUploadReq) : MultipartStorage :=
  { s with contentMD5 := req.ContentMd5, size := req.Size }

/-- The file `upload` stages a chunk at. -/
def stagingPath (s : MultipartStorage) (file : FileHeader) : String :=
  fullPath s file.Filename

/-- The record `Upload` stores and returns for a request. -/
def chunkRecord (d : Deps) (cfg : Config) (s : MultipartStorage) (req : MultipartUploadReq)
    (file : FileHeader) : MultipartUploadChunkInfo :=
  { UploadId := req.UploadId
    Chunk := req.Chunk
    ContentMd5 := req.ContentMd5
    Validity := d.durationString (delayDuration cfg)
    DownloadPath := downloadPathOf (uploadReceiver s req) (stagingPath s file) }

/-- The bytes `upload` writes to the staged file: what `io.Copy(dstFile, uploadFile)` still
finds in the reader after `contentValid`. -/
def stagedBytes (cfg : Config) (s : MultipartStorage) (file : FileHeader) : Bytes :=
  (contentValid cfg s file.Open).2.readAll.1

/-- The world after `Start` of a session `S1` for the file `a.png` with the given number of
chunks, on the receiver `S1`. -/
def startedWorld (chunks : Int) : World :=
  (Start refDeps refConfig (refStorage "S1") emptyWorld
    { Filename := "a.png", Chunks := chunks, Type_ := 11 }).2

/-- The MD5 digest of `helloBytes`, in hexadecimal. -/
def helloDigest : String := "5d41402abc4b2a76b9719d911017c592"

/-- One call of `Upload` by a client: the receiver, the request, the file and the time. -/
structure UploadCall where
  s : MultipartStorage
  req : MultipartUploadReq
  file : FileHeader
  now : Int

/-- The calls of `Upload` in the order given, each on the world the one before left; `none`
when one of them returns an error. -/
def uploadAll (d : Deps) (cfg : Config) : List UploadCall → World → Option World
  | [], w => some w
  | c :: rest, w =>
    match (Upload d cfg c.now c.s w c.req c.file).1 with
    | .ok _ => uploadAll d cfg rest (Upload d cfg c.now c.s w c.req c.file).2.2
    | .error _ => none

/-- The record a call of `Upload` stores. -/
def callRecord (d : Deps) (cfg : Config) (c : UploadCall) : MultipartUploadChunkInfo :=
  chunkRecord d cfg c.s c.req c.file

/-- The file a call of `Upload` stages its chunk at. -/
def callPath (c : UploadCall) : String := stagingPath c.s c.file

/-- The hash field a call of `Upload` writes: the field name and the marshalled record. -/
def callField (d : Deps) (cfg : Config) (c : UploadCall) : String × String :=
  (fmtD c.req.Chunk, (d.marshalChunk (callRecord d cfg c)).getD "")

/-- An extension with a name: a dot followed by at least one character, none of them a dot or
a separator. -/
def properExt (e : List Char) : Prop :=
  ∃ rest, e = '.' :: rest ∧ rest ≠ [] ∧ ∀ c ∈ rest, c ≠ '.' ∧ c ≠ '/'

/-- The function `url.Parse` splits the download path `path?v=version&where=multi_upload` at
its question mark: it returns a URL whose `Path` is `path`. -/
def splitsAtQuery (d : Deps) (path version : String) : Prop :=
  ∃ u, d.urlParse (path ++ "?v=" ++ version ++ "&where=multi_upload") = some u ∧ u.Path = path

/-- The upload of chunk `i` of session `S1` by a receiver of its own (resource id `U` followed
by the index), one byte of content, no checksum and no size declared. -/
def refCall (i : Nat) : UploadCall where
  s := refStorage ("U" ++ toString i)
  req := { UploadId := "S1", Chunk := Int.ofNat i, ContentMd5 := "", Size := 0 }
  file := { Filename := "blob", content := [UInt8.ofNat (65 + i)] }
  now := 0

/-- The upload of chunk 0 (two bytes `A`) and of chunk 1 (one byte `B`) of session `S1`, both by
a receiver with the resource id `S1` and under the file name `blob`. -/
def sameReceiverCalls : List UploadCall :=
  [{ s := refStorage "S1"
     req := { UploadId := "S1", Chunk := 0, ContentMd5 := "md5a", Size := 2 }
     file := { Filename := "blob", content := [65, 65] }
     now := 0 },
   { s := refStorage "S1"
     req := { UploadId := "S1", Chunk := 1, ContentMd5 := "md5b", Size := 1 }
     file := { Filename := "blob", content := [66] }
     now := 0 }]

/-- The world a call of `Upload` leaves. -/
def afterUpload (d : Deps) (cfg : Config) (c : UploadCall) (w : World) : World :=
  (Upload d cfg c.now c.s w c.req c.file).2.2

/-- The first upload of chunk 0 of session `S1`: one byte 1, staged by the receiver `U0`. -/
def firstUpload : UploadCall where
  s := refStorage "U0"
  req := { UploadId := "S1", Chunk := 0, ContentMd5 := "", Size := 0 }
  file := { Filename := "blob", content := [1] }
  now := 0

/-- The second upload of chunk 0 of session `S1`: one byte 2, staged by the receiver `U0`. -/
def secondUpload : UploadCall where
  s := refStorage "U0"
  req := { UploadId := "S1", Chunk := 0, ContentMd5 := "", Size := 0 }
  file := { Filename := "blob", content := [2] }
  now := 0

/-- The record the second upload stores. -/
def secondRecord : MultipartUploadChunkInfo :=
  { UploadId := "S1", Chunk := 0, ContentMd5 := "", Validity := "10m0s",
    DownloadPath := "/tmp/U0?v=0&where=multi_upload" }

/-- The two uploads of chunk 0 of session `S1` by the receiver `S1` under the file name
`c.png`: they are staged at `/up/tmp/S1.png`, the destination of `Done` for `a.png`. -/
def aliasUpload (b : UInt8) : UploadCall where
  s := refStorage "S1"
  req := { UploadId := "S1", Chunk := 0, ContentMd5 := "", Size := 0 }
  file := { Filename := "c.png", content := [b] }
  now := 0

/-- The upload of chunk 0 of session `S1` by a receiver whose resource id `U.0` holds a dot,
under the file name `blob`, which has no extension. -/
def dottedUpload : UploadCall where
  s := refStorage "U.0"
  req := { UploadId := "S1", Chunk := 0, ContentMd5 := "", Size := 0 }
  file := { Filename := "blob", content := [1] }
  now := 0

/-- The session `S1` of one chunk with its record, in a filesystem where `/up/tmp` is a file. -/
def blockedWorld : World :=
  { oneChunkWorld with
    fs := fun q => if q = "/up/tmp" then some [7] else none
    dirs := fun p => decide (p = "/up") }

/-- The session `S1` of one chunk, started, in a filesystem where `/up` is a file. -/
def blockedAboveWorld : World :=
  { startedWorld 1 with fs := fun q => if q = "/up" then some [7] else none }

/-- The session `S1` of one chunk, started, in a filesystem where `/up/tmp/U0` is a
directory. -/
def dirInPlaceWorld : World :=
  { startedWorld 1 with
    dirs := fun p => decide (p = "/up") || decide (p = "/up/tmp") || decide (p = "/up/tmp/U0") }

/-- A step on the delay queue: a round of the background loop, or a call of `Add` or `Remove`
by a request. -/
inductive QueueOp where
  | tick (now : Int)
  | add (filePath : String) (now : Int)
  | remove (filePath : String)
deriving DecidableEq, Repr

/-- One step on the delay queue: the paths given to `os.RemoveAll` and the world after. -/
def QueueOp.run (cfg : Config) : QueueOp → World → List String × World
  | .tick now, w => StorageDelayJob.tick now w
  | .add filePath now, w => ([], StorageDelayJob.Add cfg now w filePath)
  | .remove filePath, w => ([], StorageDelayJob.Remove w filePath)

/-- A sequence of steps on the delay queue: all the paths given to `os.RemoveAll`, in order,
and the world after the last step. -/
def runQueueOps (cfg : Config) : List QueueOp → World → List String × World
  | [], w => ([], w)
  | op :: rest, w =>
    ((op.run cfg w).1 ++ (runQueueOps cfg rest (op.run cfg w).2).1,
      (runQueueOps cfg rest (op.run cfg w).2).2)

/-- A configuration with a retention window of one second. -/
def oneSecondConfig : Config := { refConfig with delayDelete := some 1000000000 }

/-- A configuration with a retention window of zero. -/
def zeroWindowConfig : Config := { refConfig with delayDelete := some 0 }

/-- A configuration with a retention window of one and a half seconds. -/
def shortWindowConfig : Config := { refConfig with delayDelete := some 1500000000 }

/-- A queue that holds one entry, `/old`, with the score -5. -/
def oldEntryWorld : World := { emptyWorld with queue := [("/old", -5)] }

/-- The step leaves alone an entry for `path` that is due at the Unix second `due`: a round of
the loop runs in an earlier second, a call of `Add` or `Remove` names another path. -/
def QueueOp.sparing (path : String) (due : Int) : QueueOp → Prop
  | .tick now => now / 1000000000 < due
  | .add filePath _ => filePath ≠ path
  | .remove filePath => filePath ≠ path

/-- The step is not a call of `Add` for `path`. -/
def QueueOp.notAdding (path : String) : QueueOp → Prop
  | .tick _ => True
  | .add filePath _ => filePath ≠ path
  | .remove _ => True

/-- The world after a sequence of calls of `Upload`, whatever each of them returns. -/
def afterUploads (d : Deps) (cfg : Config) : List UploadCall → World → World
  | [], w => w
  | c :: rest, w => afterUploads d cfg rest (afterUpload d cfg c w)

/-- A hash of session `S1` with one record under the field `0` and an empty value under the
field `1`. -/
def emptyValueWorld : World :=
  { emptyWorld with
    hashes := fun k =>
      if k = chunksHashKey "S1" then
        [("0", "S1\n0\nmd5a\n10m0s\n/tmp/A?v=0&where=multi_upload"), ("1", "")]
      else [] }

/-- A hash of session `S1` with one record under the field `0` and a value that does not
unmarshal under the field `1`. -/
def corruptWorld : World :=
  { emptyWorld with
    hashes := fun k =>
      if k = chunksHashKey "S1" then
        [("0", "S1\n0\nmd5a\n10m0s\n/tmp/A?v=0&where=multi_upload"), ("1", "garbage")]
      else [] }

/-- A request on the upload sessions: `Start`, `Upload` or `Done`, each on a receiver of its
own. -/
inductive SessionOp where
  | start (s : MultipartStorage) (req : MultipartUploadStartReq)
  | upload (c : UploadCall)
  | done (s : MultipartStorage) (uploadId : String) (now : Int)

/-- The world after one request, whatever it returns. -/
def SessionOp.run (d : Deps) (cfg : Config) : SessionOp → World → World
  | .start s req, w => (Start d cfg s w req).2
  | .upload c, w => afterUpload d cfg c w
  | .done s uploadId now, w => (Done d cfg now s w uploadId).2.2

/-- The world after a sequence of requests. -/
def runSessionOps (d : Deps) (cfg : Config) : List SessionOp → World → World
  | [], w => w
  | op :: rest, w => runSessionOps d cfg rest (op.run d cfg w)

/-- The request is not a `Start` on a receiver whose resource id is `uploadId`. -/
def SessionOp.notRestarting (uploadId : String) : SessionOp → Prop
  | .start s _ => s.resourceId ≠ uploadId
  | .upload _ => True
  | .done _ _ _ => True

/-- The error `contentMD5Valid` returns for a checksum that differs from the digest. -/
def checksumMismatch (contentMD5 digest : String) : MErr :=
  invalidRequest ("upload file content_md5 not equal input '" ++ contentMD5 ++ "', want '" ++
    digest ++ "'")

/-- The first eight characters of the message of an error. -/
def leading (e : MErr) : List Char := e.msg.data.take 8

/-! ## The verb `%d` is injective -/

theorem digitChar_value (k : Nat) (hk : k < 10) : (Nat.digitChar k).toNat - 48 = k := by
  interval_cases k <;> rfl

theorem digitChar_ne_minus (k : Nat) (hk : k < 10) : Nat.digitChar k ≠ '-' := by
  interval_cases k <;> decide

theorem toDigitsCore_value (fuel : Nat) :
    ∀ (n : Nat) (ds : List Char), n < fuel →
      (Nat.toDigitsCore 10 fuel n ds).foldl (fun acc c => acc * 10 + (c.toNat - 48)) 0 =
        ds.foldl (fun acc c => acc * 10 + (c.toNat - 48)) n := by
  induction fuel with
  | zero => intro n ds h; omega
  | succ fuel ih =>
    intro n ds h
    simp only [Nat.toDigitsCore]
    by_cases h0 : n / 10 = 0
    · simp only [h0, if_true, List.foldl_cons, Nat.zero_mul, Nat.zero_add]
      rw [digitChar_value _ (Nat.mod_lt _ (by decide))]
      have : n % 10 = n := by omega
      rw [this]
    · simp only [h0, if_false]
      rw [ih (n / 10) _ (by omega)]
      simp only [List.foldl_cons]
      rw [digitChar_value _ (Nat.mod_lt _ (by decide))]
      have : n / 10 * 10 + n % 10 = n := by omega
      rw [this]

theorem toDigitsCore_no_minus (fuel : Nat) :
    ∀ (n : Nat) (ds : List Char), (∀ c ∈ ds, c ≠ '-') →
      ∀ c ∈ Nat.toDigitsCore 10 fuel n ds, c ≠ '-' := by
  induction fuel with
  | zero => intro n ds h c hc; exact h c (by simpa [Nat.toDigitsCore] using hc)
  | succ fuel ih =>
    intro n ds h c hc
    simp only [Nat.toDigitsCore] at hc
    have hds : ∀ c ∈ Nat.digitChar (n % 10) :: ds, c ≠ '-' := by
      intro c hc
      rcases List.mem_cons.mp hc with h1 | h1
      · rw [h1]; exact digitChar_ne_minus _ (Nat.mod_lt _ (by decide))
      · exact h c h1
    by_cases h0 : n / 10 = 0
    · simp only [h0, if_true] at hc
      exact hds c hc
    · simp only [h0, if_false] at hc
      exact ih _ _ hds c hc

theorem natRepr_value (n : Nat) : decimalValue (Nat.repr n).data = n := by
  have := toDigitsCore_value (n + 1) n [] (by omega)
  simpa [decimalValue, Nat.repr, Nat.toDigits, List.asString] using this

theorem natRepr_no_minus (n : Nat) : ∀ c ∈ (Nat.repr n).data, c ≠ '-' := by
  intro c hc
  exact toDigitsCore_no_minus (n + 1) n [] (by simp) c (by simpa [Nat.repr, Nat.toDigits, List.asString] using hc)

theorem fmtD_ofNat (n : Nat) : fmtD (n : Int) = Nat.repr n := rfl

theorem fmtD_negSucc (n : Nat) : fmtD (Int.negSucc n) = "-" ++ Nat.repr (n + 1) := rfl

theorem fmtD_injective (i j : Int) (h : fmtD i = fmtD j) : i = j := by
  cases i with
  | ofNat a =>
    cases j with
    | ofNat b =>
      have h2 : Nat.repr a = Nat.repr b := h
      have := congrArg (fun s => decimalValue s.data) h2
      simp only [natRepr_value] at this
      rw [this]
    | negSucc b =>
      exfalso
      have h2 : Nat.repr a = "-" ++ Nat.repr (b + 1) := h
      have hm : '-' ∈ (Nat.repr a).data := by
        rw [h2]; simp
      exact natRepr_no_minus a '-' hm rfl
  | negSucc a =>
    cases j with
    | ofNat b =>
      exfalso
      have h2 : "-" ++ Nat.repr (a + 1) = Nat.repr b := h
      have hm : '-' ∈ (Nat.repr b).data := by
        rw [← h2]; simp
      exact natRepr_no_minus b '-' hm rfl
    | negSucc b =>
      have h2 : "-" ++ Nat.repr (a + 1) = "-" ++ Nat.repr (b + 1) := h
      have h3 : Nat.repr (a + 1) = Nat.repr (b + 1) := by
        have := congrArg String.data h2
        simp only [String.data_append, List.append_cancel_left_eq] at this
        exact String.ext this
      have := congrArg (fun s => decimalValue s.data) h3
      simp only [natRepr_value] at this
      have : a = b := by omega
      rw [this]

/-! ## The chunk store: `getChunks` -/

theorem getChunksLoop_ok_iff (d : Deps) (m : List (String × String)) :
    ∀ (acc r : List MultipartUploadChunkInfo),
      getChunksLoop d m acc = .ok r ↔ allDecode d m ∧ r = acc ++ decodedValues d m := by
  induction m with
  | nil =>
    intro acc r
    simp [getChunksLoop, allDecode, decodedValues, eq_comm]
  | cons e rest ih =>
    intro acc r
    obtain ⟨k, v⟩ := e
    by_cases hv : v = ""
    · subst hv
      simp [getChunksLoop, ih, allDecode, decodedValues]
    · cases hu : d.unmarshalChunk v with
      | none =>
        simp [getChunksLoop, hv, hu, allDecode]
      | some c =>
        simp [getChunksLoop, hv, hu, ih, allDecode, decodedValues]

theorem getChunksLoop_error (d : Deps) (m : List (String × String)) :
    ∀ (acc : List MultipartUploadChunkInfo) (e : MErr),
      getChunksLoop d m acc = .error e → e = internalServerError := by
  induction m with
  | nil => intro acc e h; simp [getChunksLoop] at h
  | cons x rest ih =>
    intro acc e h
    obtain ⟨k, v⟩ := x
    by_cases hv : v = ""
    · subst hv
      simp only [getChunksLoop, if_true] at h
      exact ih _ _ h
    · cases hu : d.unmarshalChunk v with
      | none =>
        simp [getChunksLoop, hv, hu] at h
        exact h.symm
      | some c =>
        simp only [getChunksLoop, hv, hu, if_false] at h
        exact ih _ _ h

theorem allDecode_perm (d : Deps) {m m2 : List (String × String)} (h : m.Perm m2) :
    allDecode d m ↔ allDecode d m2 := by
  unfold allDecode
  constructor
  · intro H e he; exact H e (h.mem_iff.mpr he)
  · intro H e he; exact H e (h.mem_iff.mp he)

theorem decodedValues_perm (d : Deps) {m m2 : List (String × String)} (h : m.Perm m2) :
    (decodedValues d m).Perm (decodedValues d m2) := by
  unfold decodedValues
  exact (h.filter _).filterMap _

theorem sortSliceStable_sorted (l : List MultipartUploadChunkInfo) :
    (sortSliceStable l).Sorted chunkLE :=
  List.sorted_insertionSort chunkLE l

theorem sortSliceStable_perm (l : List MultipartUploadChunkInfo) :
    (sortSliceStable l).Perm l :=
  List.perm_insertionSort _ l

/-- What `getChunks` answers, in terms of the stored hash. -/
theorem getChunks_ok_iff (d : Deps) (w : World) (uploadId : String)
    (chunks : List MultipartUploadChunkInfo) :
    getChunks d w uploadId = .ok chunks ↔
      w.hashes (chunksHashKey uploadId) ≠ [] ∧
      allDecode d (w.hashes (chunksHashKey uploadId)) ∧
      chunks = sortSliceStable (decodedValues d (d.mapRange (w.hashes (chunksHashKey uploadId)))) := by
  unfold getChunks World.HGetAll
  by_cases hm : w.hashes (chunksHashKey uploadId) = []
  · simp [hm]
  · have hlen : (w.hashes (chunksHashKey uploadId)).length ≠ 0 := by
      simpa [List.length_eq_zero] using hm
    simp only [hlen, if_false]
    cases hl : getChunksLoop d (d.mapRange (w.hashes (chunksHashKey uploadId))) [] with
    | error e =>
      have hno : ¬ allDecode d (w.hashes (chunksHashKey uploadId)) := by
        intro hall
        have := (getChunksLoop_ok_iff d _ [] _).mpr
          ⟨(allDecode_perm d (d.mapRange_perm _)).mpr hall, rfl⟩
        rw [hl] at this
        cases this
      simp [hno]
    | ok r =>
      obtain ⟨hall, hr⟩ := (getChunksLoop_ok_iff d _ [] r).mp hl
      have hall2 := (allDecode_perm d (d.mapRange_perm _)).mp hall
      simp only [List.nil_append] at hr
      subst hr
      constructor
      · intro h
        injection h with h
        exact ⟨hm, hall2, h.symm⟩
      · rintro ⟨_, _, h⟩
        rw [h]

theorem getChunks_perm_decoded (d : Deps) (w : World) (uploadId : String)
    (chunks : List MultipartUploadChunkInfo) (h : getChunks d w uploadId = .ok chunks) :
    chunks.Perm (decodedValues d (w.hashes (chunksHashKey uploadId))) := by
  obtain ⟨_, _, hc⟩ := (getChunks_ok_iff d w uploadId chunks).mp h
  subst hc
  exact (sortSliceStable_perm _).trans (decodedValues_perm d (d.mapRange_perm _))

/-- C4: when `getChunks` returns without error, the list it returns is sorted in ascending
order of the field `Chunk` and is a permutation of the decoded values of all fields of the
hash that hold a non-empty value. -/
theorem getChunks_sorted_perm (d : Deps) (w : World) (uploadId : String)
    (chunks : List MultipartUploadChunkInfo) (h : getChunks d w uploadId = .ok chunks) :
    chunks.Sorted (fun a b => a.Chunk ≤ b.Chunk) ∧
      chunks.Perm (decodedValues d (w.HGetAll (chunksHashKey uploadId))) := by
  obtain ⟨_, _, hc⟩ := (getChunks_ok_iff d w uploadId chunks).mp h
  subst hc
  exact ⟨sortSliceStable_sorted _,
    (sortSliceStable_perm _).trans (decodedValues_perm d (d.mapRange_perm _))⟩

/-- C4 at a hash of two records stored in descending order. -/
theorem getChunks_sorted_perm_witness :
    getChunks refDeps twoChunkWorld "S1" =
        .ok [{ UploadId := "S1", Chunk := 0, ContentMd5 := "md5a", Validity := "10m0s",
               DownloadPath := "/tmp/A?v=0&where=multi_upload" },
             { UploadId := "S1", Chunk := 1, ContentMd5 := "md5b", Validity := "10m0s",
               DownloadPath := "/tmp/B?v=0&where=multi_upload" }] ∧
      List.Perm
        [{ UploadId := "S1", Chunk := 0, ContentMd5 := "md5a", Validity := "10m0s",
           DownloadPath := "/tmp/A?v=0&where=multi_upload" },
         { UploadId := "S1", Chunk := 1, ContentMd5 := "md5b", Validity := "10m0s",
           DownloadPath := "/tmp/B?v=0&where=multi_upload" }]
        (decodedValues refDeps (twoChunkWorld.HGetAll (chunksHashKey "S1"))) :=
  ⟨by rfl, (getChunks_sorted_perm refDeps twoChunkWorld "S1" _ (by rfl)).2⟩

theorem getChunks_length (d : Deps) (w : World) (uploadId : String)
    (chunks : List MultipartUploadChunkInfo) (h : getChunks d w uploadId = .ok chunks) :
    chunks.length = (decodedValues d (w.hashes (chunksHashKey uploadId))).length :=
  (getChunks_perm_decoded d w uploadId chunks h).length_eq

/-! ## Validation helpers -/

/-- C9: the content check of `Upload` on a file opened at its start returns an error, and then
an invalid-request error with code `InvalidArgument`, if and only if content checking is
enabled, the declared checksum (the field `contentMD5`, assigned by `Upload` from the request)
is not empty and the lowercase hexadecimal MD5 digest of the bytes of the file differs from it;
`contentMD5Valid` rejects a digest under the same three conditions; when checking is disabled
or the checksum is empty neither rejects. -/
theorem contentValid_rejects_iff (cfg : Config) (s : MultipartStorage) (file : FileHeader)
    (digest : String) :
    ((∃ e, (contentValid cfg s file.Open).1 = .error e ∧ e.code = Codes.InvalidArgument ∧
          e.kind = ErrKind.INVALID_REQUEST_ERR) ↔
        (cfg.checkContentEnabled = true ∧ s.contentMD5 ≠ "" ∧ md5Hex file.content ≠ s.contentMD5)) ∧
    ((∃ e, contentMD5Valid cfg s digest = .error e ∧ e.code = Codes.InvalidArgument ∧
          e.kind = ErrKind.INVALID_REQUEST_ERR) ↔
        (cfg.checkContentEnabled = true ∧ s.contentMD5 ≠ "" ∧ digest ≠ s.contentMD5)) ∧
    ((cfg.checkContentEnabled = false ∨ s.contentMD5 = "") →
      (contentValid cfg s file.Open).1 = .ok () ∧ contentMD5Valid cfg s digest = .ok ()) ∧
    ((contentValid cfg s file.Open).1 = .ok () ∨
      ∃ e, (contentValid cfg s file.Open).1 = .error e ∧ e.code = Codes.InvalidArgument) := by
  have hread : (FileHeader.Open file).readAll.1 = file.content := by
    simp [FileHeader.Open, OpenFile.readAll]
  by_cases hen : cfg.checkContentEnabled = true
  · by_cases hc : s.contentMD5 = ""
    · simp [contentValid, contentMD5Valid, hc]
    · by_cases hd : s.contentMD5 = md5Hex file.content
      · by_cases hg : s.contentMD5 = digest
        · simp [contentValid, contentMD5Valid, hen, hc, hread, hd.symm, hg.symm]
        · have hg2 : ¬ digest = s.contentMD5 := fun h => hg h.symm
          simp [contentValid, contentMD5Valid, hen, hc, hread, hd.symm, hg, hg2, invalidRequest]
      · have hd2 : ¬ md5Hex file.content = s.contentMD5 := fun h => hd h.symm
        by_cases hg : s.contentMD5 = digest
        · simp [contentValid, contentMD5Valid, hen, hc, hread, hd, hd2, hg.symm, invalidRequest]
        · have hg2 : ¬ digest = s.contentMD5 := fun h => hg h.symm
          simp [contentValid, contentMD5Valid, hen, hc, hread, hd, hd2, hg, hg2, invalidRequest]
  · simp [contentValid, contentMD5Valid, hen]

/-- C9 with checking disabled: a file whose digest differs from the declared checksum passes. -/
theorem contentValid_rejects_iff_witness :
    (refConfig.checkContentEnabled = false ∨ ({ refStorage "S1" with contentMD5 := "abc" }).contentMD5 = "") ∧
      (contentValid refConfig { refStorage "S1" with contentMD5 := "abc" }
          (FileHeader.Open { Filename := "blob", content := helloBytes })).1 = .ok () :=
  ⟨Or.inl rfl,
    ((contentValid_rejects_iff refConfig { refStorage "S1" with contentMD5 := "abc" }
      { Filename := "blob", content := helloBytes } "abc").2.2.1 (Or.inl rfl)).1⟩

/-- C10: with size checking enabled and a non-zero declared size (the field `size`, assigned by
`Upload` from the request), `sizeValid` returns an error, and then an invalid-request error,
exactly when the size of the file exceeds the configured maximum for a chunk or differs from
the declared size, so every declared size above the maximum is rejected; with size checking
disabled or a declared size of 0 it accepts every file; and when it rejects, `upload` and
`Upload` return that error with the world as it was: no staged file is created. -/
theorem sizeValid_rejects_iff (d : Deps) (cfg : Config) (now : Int) (s : MultipartStorage)
    (w : World) (req : MultipartUploadReq) (file : FileHeader) :
    (cfg.checkSizeEnabled = true → s.size ≠ 0 →
      ((∃ e, sizeValid cfg s file = .error e ∧ e.code = Codes.InvalidArgument ∧
            e.kind = ErrKind.INVALID_REQUEST_ERR) ↔
          (file.Size > cfg.checkSizeMax ∨ file.Size ≠ s.size))) ∧
    (cfg.checkSizeEnabled = true → s.size ≠ 0 → s.size > cfg.checkSizeMax →
      ∃ e, sizeValid cfg s file = .error e) ∧
    ((cfg.checkSizeEnabled = false ∨ s.size = 0) → sizeValid cfg s file = .ok ()) ∧
    (∀ e, sizeValid cfg s file = .error e → upload cfg now s w file = (.error e, w)) ∧
    (∀ e, sizeValid cfg { s with contentMD5 := req.ContentMd5, size := req.Size } file = .error e →
      (Upload d cfg now s w req file).2.2 = w ∧
        ∃ e2, (Upload d cfg now s w req file).1 = .error e2) := by
  refine ⟨?_, ?_, ?_, ?_, ?_⟩
  · intro hen hsz
    by_cases hmax : file.Size > cfg.checkSizeMax
    · simp [sizeValid, hen, hsz, hmax, invalidRequest]
    · by_cases heq : s.size = file.Size
      · simp [sizeValid, fileSizeValid, hen, hsz, hmax, heq.symm ▸ hsz, heq]
      · have heq2 : ¬ file.Size = s.size := fun h => heq h.symm
        simp [sizeValid, fileSizeValid, hen, hsz, hmax, heq, heq2, invalidRequest]
  · intro hen hsz hbig
    by_cases hmax : file.Size > cfg.checkSizeMax
    · simp [sizeValid, hen, hsz, hmax]
    · have heq : ¬ s.size = file.Size := by
        intro h
        rw [h] at hbig
        exact hmax hbig
      simp [sizeValid, fileSizeValid, hen, hsz, hmax, heq]
  · rintro (hdis | hz)
    · simp [sizeValid, hdis]
    · simp [sizeValid, hz]
  · intro e he
    simp [upload, he]
  · intro e he
    cases hs : getStartInfo d w req.UploadId with
    | error e1 => simp [Upload, hs]
    | ok info => simp [Upload, hs, upload, he]

/-- C10 at a declared size of 5 bytes for a file of 3 bytes, with a limit of 10 bytes. -/
theorem sizeValid_rejects_iff_witness :
    sizeCheckConfig.checkSizeEnabled = true ∧ ({ refStorage "S1" with size := 5 }).size ≠ 0 ∧
      (FileHeader.Size { Filename := "blob", content := [1, 2, 3] } > sizeCheckConfig.checkSizeMax ∨
        FileHeader.Size { Filename := "blob", content := [1, 2, 3] } ≠
          ({ refStorage "S1" with size := 5 }).size) ∧
      ∃ e, sizeValid sizeCheckConfig { refStorage "S1" with size := 5 }
          { Filename := "blob", content := [1, 2, 3] } = .error e ∧
        e.code = Codes.InvalidArgument ∧ e.kind = ErrKind.INVALID_REQUEST_ERR :=
  ⟨rfl, by decide, Or.inr (by decide),
    ((sizeValid_rejects_iff refDeps sizeCheckConfig 0 { refStorage "S1" with size := 5 } emptyWorld
      { UploadId := "S1", Chunk := 0, ContentMd5 := "", Size := 5 }
      { Filename := "blob", content := [1, 2, 3] }).1 rfl (by decide)).mpr (Or.inr (by decide))⟩

/-! ## The extension of a staged path -/

theorem extAux_shape (rev : List Char) :
    ∀ acc : List Char, (∀ c ∈ acc, c ≠ '.' ∧ c ≠ '/') →
      filepathExtAux rev acc = [] ∨
        ∃ rest, filepathExtAux rev acc = '.' :: rest ∧ ∀ c ∈ rest, c ≠ '.' ∧ c ≠ '/' := by
  induction rev with
  | nil => intro acc _; exact Or.inl rfl
  | cons c rest ih =>
    intro acc hacc
    unfold filepathExtAux
    by_cases h1 : c = '/'
    · rw [if_pos h1]; exact Or.inl rfl
    · rw [if_neg h1]
      by_cases h2 : c = '.'
      · rw [if_pos h2, h2]
        exact Or.inr ⟨acc, rfl, hacc⟩
      · rw [if_neg h2]
        apply ih
        intro x hx
        rcases List.mem_cons.mp hx with h | h
        · rw [h]; exact ⟨h2, h1⟩
        · exact hacc x h

theorem extAux_suffix (l : List Char) (hl : ∀ c ∈ l, c ≠ '.' ∧ c ≠ '/') :
    ∀ (tail acc : List Char), filepathExtAux (l ++ '.' :: tail) acc = '.' :: (l.reverse ++ acc) := by
  induction l with
  | nil => intro tail acc; simp [filepathExtAux]
  | cons c l ih =>
    intro tail acc
    have hc := hl c (List.mem_cons_self _ _)
    rw [List.cons_append, filepathExtAux, if_neg hc.2, if_neg hc.1,
      ih (fun x hx => hl x (List.mem_cons_of_mem _ hx))]
    simp

theorem ext_of_suffix (p : String) (pre rest : List Char) (hp : p.data = pre ++ '.' :: rest)
    (hrest : ∀ c ∈ rest, c ≠ '.' ∧ c ≠ '/') : (filepathExt p).data = '.' :: rest := by
  unfold filepathExt
  rw [hp, List.reverse_append, List.reverse_cons, List.append_assoc, List.singleton_append,
    extAux_suffix rest.reverse (fun c hc => hrest c (List.mem_reverse.mp hc))]
  simp

theorem splitChar_nosep (sep : Char) (e : List Char) (he : ∀ c ∈ e, c ≠ sep) :
    splitChar sep e = [e] := by
  induction e with
  | nil => rfl
  | cons c e ih =>
    rw [splitChar, if_neg (he c (List.mem_cons_self _ _)),
      ih (fun x hx => he x (List.mem_cons_of_mem _ hx))]

theorem splitChar_append (sep : Char) (e : List Char) (he : ∀ c ∈ e, c ≠ sep) (pre : List Char) :
    ∃ init last, splitChar sep (pre ++ e) = init ++ [last ++ e] := by
  induction pre with
  | nil => exact ⟨[], [], by simp [splitChar_nosep sep e he]⟩
  | cons c pre ih =>
    obtain ⟨init, last, h⟩ := ih
    rw [List.cons_append, splitChar]
    by_cases hc : c = sep
    · rw [if_pos hc, h]
      exact ⟨[] :: init, last, rfl⟩
    · rw [if_neg hc, h]
      cases init with
      | nil => exact ⟨[], c :: last, rfl⟩
      | cons a t => exact ⟨(c :: a) :: t, last, rfl⟩

theorem intercalate_snoc (sep : List Char) (l : List (List Char)) (x : List Char) :
    ∃ pre, List.intercalate sep (l ++ [x]) = pre ++ x := by
  induction l with
  | nil => exact ⟨[], by simp [List.intercalate]⟩
  | cons a l ih =>
    obtain ⟨pre, h⟩ := ih
    cases l with
    | nil => exact ⟨a ++ sep, by simp [List.intercalate, List.intersperse]⟩
    | cons b t =>
      refine ⟨a ++ sep ++ pre, ?_⟩
      have hstep : List.intercalate sep (a :: (b :: t ++ [x])) =
          a ++ sep ++ List.intercalate sep (b :: t ++ [x]) := by
        simp [List.intercalate, List.intersperse]
      rw [List.cons_append, hstep, h]
      simp only [List.append_assoc]


theorem clean_suffix (X : String) (pre e : List Char) (hX : X.data = pre ++ e)
    (he : properExt e) : ∃ pre2, (filepathClean X).data = pre2 ++ e := by
  obtain ⟨rest, hrest, hne, hchars⟩ := he
  have hsep : ∀ c ∈ e, c ≠ '/' := by
    intro c hc
    rw [hrest] at hc
    rcases List.mem_cons.mp hc with h | h
    · rw [h]; decide
    · exact (hchars c h).2
  have hXne : X ≠ "" := by
    intro h
    rw [h] at hX
    have : pre ++ e = [] := hX.symm
    rw [hrest] at this
    simp at this
  obtain ⟨init, last, hsplit⟩ := splitChar_append '/' e hsep pre
  unfold filepathClean
  rw [if_neg hXne]
  simp only
  rw [hX, hsplit, List.foldl_append, List.foldl_cons, List.foldl_nil]
  have hnormal : ∀ stack rooted, cleanStep rooted stack (last ++ e) = (last ++ e) :: stack := by
    intro stack rooted
    have h1 : ¬ (last ++ e = [] ∨ last ++ e = ['.']) := by
      rw [hrest]
      rintro (h | h)
      · simp at h
      · have := congrArg List.length h
        simp at this
        have : rest.length = 0 := by omega
        exact hne (List.length_eq_zero.mp this)
    have h2 : ¬ last ++ e = ['.', '.'] := by
      rw [hrest]
      intro h
      cases last with
      | nil =>
        simp at h
        have := (hchars '.' (by rw [h]; simp)).1
        exact this rfl
      | cons a t =>
        have := congrArg List.length h
        simp at this
        have : rest.length = 0 := by omega
        exact hne (List.length_eq_zero.mp this)
    unfold cleanStep
    rw [if_neg h1, if_neg h2]
  rw [hnormal, List.reverse_cons]
  obtain ⟨p2, hp2⟩ := intercalate_snoc ['/'] (List.foldl
    (cleanStep (decide ((pre ++ e).head? = some '/'))) [] init).reverse (last ++ e)
  rw [hp2]
  have hout : ∀ r : List Char, r ++ (p2 ++ (last ++ e)) ≠ [] := by
    intro r h
    rw [hrest] at h
    simp at h
  rw [if_neg (hout _)]
  exact ⟨(if decide ((pre ++ e).head? = some '/') = true then ['/'] else []) ++ p2 ++ last, by simp⟩


theorem join_suffix (a b : String) (pre e : List Char) (hb : b.data = pre ++ e)
    (he : properExt e) : ∃ pre2, (filepathJoin a b).data = pre2 ++ e := by
  unfold filepathJoin
  split
  · exact clean_suffix (a ++ "/" ++ b) (a.data ++ ['/'] ++ pre) e
      (by simp [String.data_append, hb]) he
  · split
    · exact clean_suffix b pre e hb he
    · rename_i hbe
      exfalso
      apply hbe
      intro h
      rw [h] at hb
      obtain ⟨rest, hrest, _, _⟩ := he
      have : pre ++ e = [] := hb.symm
      rw [hrest] at this
      simp at this

theorem properExt_of_ne (name : String) (h1 : filepathExt name ≠ "")
    (h2 : filepathExt name ≠ ".") : properExt (filepathExt name).data := by
  have hshape := extAux_shape name.data.reverse [] (fun c hc => by simp at hc)
  have hdata : (filepathExt name).data = filepathExtAux name.data.reverse [] := rfl
  rcases hshape with h | ⟨rest, h, hchars⟩
  · exfalso
    apply h1
    apply String.ext
    rw [hdata, h]
  · refine ⟨rest, by rw [hdata, h], ?_, hchars⟩
    intro hr
    apply h2
    apply String.ext
    rw [hdata, h, hr]

theorem ext_join_join (up t id name : String) (h1 : filepathExt name ≠ "")
    (h2 : filepathExt name ≠ ".") :
    filepathExt (filepathJoin up (filepathJoin t (id ++ filepathExt name))) = filepathExt name := by
  have he := properExt_of_ne name h1 h2
  obtain ⟨p1, hp1⟩ := join_suffix t (id ++ filepathExt name) id.data _
    (by simp [String.data_append]) he
  obtain ⟨p2, hp2⟩ := join_suffix up _ p1 _ hp1 he
  obtain ⟨rest, hrest, _, hchars⟩ := he
  rw [hrest] at hp2
  apply String.ext
  rw [ext_of_suffix _ p2 rest hp2 hchars, hrest]

/-- The staged path has the extension of the uploaded file name when that extension is a dot
followed by at least one character. -/
theorem filepathExt_staged (s : MultipartStorage) (file : FileHeader)
    (h1 : filepathExt file.Filename ≠ "") (h2 : filepathExt file.Filename ≠ ".") :
    filepathExt (stagingPath s file) = filepathExt file.Filename :=
  ext_join_join s.uploadPath (ResourceTypeName s.resourceType) s.resourceId file.Filename h1 h2

/-! ## Directories and `os.Create` -/

theorem mkdirAllChain_frame (chain : List String) :
    ∀ (w w1 : World), w.mkdirAllChain chain = some w1 →
      w1.fs = w.fs ∧ w1.kv = w.kv ∧ w1.hashes = w.hashes ∧ w1.hashTTL = w.hashTTL ∧
      w1.queue = w.queue ∧ (∀ q, w.dirs q = true → w1.dirs q = true) ∧
      (∀ q, w1.dirs q = true → w.dirs q = true ∨ q ∈ chain) := by
  induction chain with
  | nil =>
    intro w w1 h
    simp only [World.mkdirAllChain, Option.some.injEq] at h
    subst h
    exact ⟨rfl, rfl, rfl, rfl, rfl, fun _ h => h, fun _ h => Or.inl h⟩
  | cons p rest ih =>
    intro w w1 h
    unfold World.mkdirAllChain at h
    by_cases hd : w.IsDir p = true
    · rw [if_pos hd] at h
      injection h with h
      subst h
      exact ⟨rfl, rfl, rfl, rfl, rfl, fun _ h => h, fun _ h => Or.inl h⟩
    · rw [if_neg hd] at h
      by_cases hf : (w.fs p).isSome = true
      · rw [if_pos hf] at h
        cases h
      · rw [if_neg hf] at h
        cases hr : w.mkdirAllChain rest with
        | none =>
          rw [hr] at h
          cases h
        | some w2 =>
          rw [hr] at h
          injection h with h
          subst h
          obtain ⟨h1, h2, h3, h4, h5, h6, h7⟩ := ih w w2 hr
          refine ⟨h1, h2, h3, h4, h5, ?_, ?_⟩
          · intro q hq
            simp [h6 q hq]
          · intro q hq
            simp only [Bool.or_eq_true, decide_eq_true_eq] at hq
            rcases hq with hq | hq
            · right
              rw [hq]
              exact List.mem_cons_self _ _
            · rcases h7 q hq with h | h
              · exact Or.inl h
              · exact Or.inr (List.mem_cons_of_mem _ h)

theorem mkdirAllChain_ok (chain : List String) :
    ∀ w : World, (∀ a ∈ chain, w.fs a = none) →
      ∃ w1, w.mkdirAllChain chain = some w1 ∧ ∀ a, chain.head? = some a → w1.IsDir a = true := by
  induction chain with
  | nil =>
    intro w _
    exact ⟨w, rfl, fun a h => by simp at h⟩
  | cons p rest ih =>
    intro w hfree
    unfold World.mkdirAllChain
    by_cases hd : w.IsDir p = true
    · rw [if_pos hd]
      refine ⟨w, rfl, ?_⟩
      intro a ha
      simp only [List.head?_cons, Option.some.injEq] at ha
      rw [← ha]
      exact hd
    · rw [if_neg hd]
      have hf : ¬ (w.fs p).isSome = true := by
        rw [hfree p (List.mem_cons_self _ _)]
        simp
      rw [if_neg hf]
      obtain ⟨w2, hw2, _⟩ := ih w (fun a ha => hfree a (List.mem_cons_of_mem _ ha))
      rw [hw2]
      refine ⟨_, rfl, ?_⟩
      intro a ha
      simp only [List.head?_cons, Option.some.injEq] at ha
      rw [← ha]
      simp [World.IsDir]

/-- What `uploadFullPathByName` leaves alone, and the directories it can make. -/
theorem withDirFor_frame (w : World) (path : String) :
    (withDirFor w path).fs = w.fs ∧ (withDirFor w path).kv = w.kv ∧
      (withDirFor w path).hashes = w.hashes ∧ (withDirFor w path).hashTTL = w.hashTTL ∧
      (withDirFor w path).queue = w.queue ∧
      (∀ q, w.dirs q = true → (withDirFor w path).dirs q = true) ∧
      (∀ q, (withDirFor w path).dirs q = true →
        w.dirs q = true ∨ q ∈ pathChain (filepathDir path)) := by
  unfold withDirFor
  split
  · cases hm : w.MkdirAll (filepathDir path) with
    | none => exact ⟨rfl, rfl, rfl, rfl, rfl, fun _ h => h, fun _ h => Or.inl h⟩
    | some w1 => exact mkdirAllChain_frame _ w w1 hm
  · exact ⟨rfl, rfl, rfl, rfl, rfl, fun _ h => h, fun _ h => Or.inl h⟩

theorem uploadFullPathByName_eq (s : MultipartStorage) (w : World) (name : String) :
    uploadFullPathByName s w name = (fullPath s name, withDirFor w (fullPath s name)) := by
  unfold uploadFullPathByName withDirFor fullPath
  simp only
  split
  · cases w.MkdirAll (filepathDir (filepathJoin s.uploadPath (fileName s name))) <;> rfl
  · rfl

theorem create_of_creatable (w : World) (path : String) (h : creatable w path) :
    (withDirFor w path).Create path = some (createdAt w path) := by
  unfold creatable World.Create at h
  unfold World.Create createdAt
  split
  · rw [(withDirFor_frame w path).1]
  · rename_i hc
    rw [if_neg hc] at h
    simp at h

theorem create_of_not_creatable (w : World) (path : String) (h : ¬ creatable w path) :
    (withDirFor w path).Create path = none := by
  unfold creatable at h
  cases hc : (withDirFor w path).Create path with
  | none => rfl
  | some w1 =>
    rw [hc] at h
    simp at h

/-- What `uploadFullPathByName` and `os.Create` leave alone. -/
theorem createdAt_frame (w : World) (path : String) :
    (createdAt w path).kv = w.kv ∧ (createdAt w path).hashes = w.hashes ∧
      (createdAt w path).hashTTL = w.hashTTL ∧ (createdAt w path).queue = w.queue ∧
      (createdAt w path).dirs = (withDirFor w path).dirs := by
  obtain ⟨_, h2, h3, h4, h5, _, _⟩ := withDirFor_frame w path
  exact ⟨h2, h3, h4, h5, rfl⟩

theorem createdAt_fs (w : World) (path q : String) :
    (createdAt w path).fs q = if q = path then some [] else w.fs q := rfl

/-- The call `os.Create` succeeds on a path that is not empty and not a directory when no
directory on the way to it is a file or the path itself. -/
theorem creatable_of_free (w : World) (path : String) (hne : path ≠ "")
    (hdir : w.IsDir path = false)
    (hway : ∀ a ∈ pathChain (filepathDir path), w.fs a = none ∧ a ≠ path) :
    creatable w path := by
  have hself : filepathDir path ∈ pathChain (filepathDir path) := List.mem_cons_self _ _
  have hD : (withDirFor w path).IsDir (filepathDir path) = true := by
    unfold withDirFor
    split
    · obtain ⟨w1, hw1, hhead⟩ := mkdirAllChain_ok (pathChain (filepathDir path)) w
        (fun a ha => (hway a ha).1)
      unfold World.MkdirAll
      rw [hw1]
      exact hhead _ rfl
    · rename_i hex
      have hex2 : w.IsExist (filepathDir path) = true := by
        cases h : w.IsExist (filepathDir path) with
        | true => rfl
        | false => exact absurd h hex
      unfold World.IsExist at hex2
      rw [(hway _ hself).1] at hex2
      simpa using hex2
  have hP : (withDirFor w path).IsDir path = false := by
    unfold World.IsDir at hdir ⊢
    simp only [Bool.or_eq_false_iff, decide_eq_false_iff_not] at hdir ⊢
    refine ⟨⟨hdir.1.1, hdir.1.2⟩, ?_⟩
    cases hd : (withDirFor w path).dirs path with
    | false => rfl
    | true =>
      rcases (withDirFor_frame w path).2.2.2.2.2.2 path hd with h | h
      · rw [hdir.2] at h
        cases h
      · exact absurd rfl (hway path h).2
  unfold creatable World.Create
  rw [if_pos ⟨hne, hD, hP⟩]
  rfl

/-! ## `Done`: the count of chunks -/

/-- C6: for a session that declares `n` chunks and whose hash holds `k` loadable records (every
non-empty value unmarshals) with `k ≥ 1` and `k ≠ n`, `Done` returns an invalid-request error
with code `InvalidArgument` whose message contains `chunks not enough, current k, want n`, and
leaves the world as it was: the destination file is neither created nor written and the delay
queue gets no entry. -/
theorem Done_chunks_not_enough (d : Deps) (cfg : Config) (now : Int) (s : MultipartStorage)
    (w : World) (uploadId : String) (startInfo : MultipartUploadStartReq)
    (hstart : getStartInfo d w uploadId = .ok startInfo)
    (hall : allDecode d (w.hashes (chunksHashKey uploadId)))
    (hk : 1 ≤ (decodedValues d (w.hashes (chunksHashKey uploadId))).length)
    (hkn : ((decodedValues d (w.hashes (chunksHashKey uploadId))).length : Int) ≠ startInfo.Chunks) :
    ∃ e, (Done d cfg now s w uploadId).1 = .error e ∧
      e.kind = ErrKind.INVALID_REQUEST_ERR ∧ e.code = Codes.InvalidArgument ∧
      (∃ pre, e.msg = pre ++ ("chunks not enough, current " ++
        fmtD (decodedValues d (w.hashes (chunksHashKey uploadId))).length ++ ", want " ++
        fmtD startInfo.Chunks)) ∧
      (Done d cfg now s w uploadId).2.2 = w := by
  have hne : w.hashes (chunksHashKey uploadId) ≠ [] := by
    intro h0
    rw [h0] at hk
    simp [decodedValues] at hk
  have hget := (getChunks_ok_iff d w uploadId _).mpr ⟨hne, hall, rfl⟩
  have hlen := getChunks_length d w uploadId _ hget
  refine ⟨invalidRequest ("upload '" ++ uploadId ++ "' chunks not enough, current " ++
    fmtD (decodedValues d (w.hashes (chunksHashKey uploadId))).length ++ ", want " ++
    fmtD startInfo.Chunks), ?_, rfl, rfl, ⟨"upload '" ++ uploadId ++ "' ", ?_⟩, ?_⟩
  · simp only [Done, hstart, hget, hlen]
    rw [if_pos hkn]
  · simp only [invalidRequest, String.append_assoc]
    rfl
  · simp only [Done, hstart, hget, hlen]
    rw [if_pos hkn]

/-- C6 at a session that declares two chunks and holds one: the error reads
`chunks not enough, current 1, want 2`. -/
theorem Done_chunks_not_enough_witness :
    getStartInfo refDeps oneOfTwoWorld "S1" = .ok { Filename := "a.png", Chunks := 2, Type_ := 11 } ∧
      (Done refDeps refConfig 0 (refStorage "S1") oneOfTwoWorld "S1").1 =
        .error (invalidRequest "upload 'S1' chunks not enough, current 1, want 2") ∧
      ∃ e, (Done refDeps refConfig 0 (refStorage "S1") oneOfTwoWorld "S1").1 = .error e ∧
        e.kind = ErrKind.INVALID_REQUEST_ERR ∧ e.code = Codes.InvalidArgument ∧
        (∃ pre, e.msg = pre ++ ("chunks not enough, current " ++
          fmtD (decodedValues refDeps (oneOfTwoWorld.hashes (chunksHashKey "S1"))).length ++
          ", want " ++ fmtD (2 : Int))) ∧
        (Done refDeps refConfig 0 (refStorage "S1") oneOfTwoWorld "S1").2.2 = oneOfTwoWorld :=
  ⟨by rfl, by rfl,
    Done_chunks_not_enough refDeps refConfig 0 (refStorage "S1") oneOfTwoWorld "S1"
      { Filename := "a.png", Chunks := 2, Type_ := 11 } (by rfl)
      (by
        intro e he
        have h1 : e = ("0", "S1\n0\nmd5a\n10m0s\n/tmp/A?v=0&where=multi_upload") := by
          have : oneOfTwoWorld.hashes (chunksHashKey "S1") =
              [("0", "S1\n0\nmd5a\n10m0s\n/tmp/A?v=0&where=multi_upload")] := by rfl
          rw [this] at he
          simpa using he
        subst h1
        intro _
        have : refDeps.unmarshalChunk "S1\n0\nmd5a\n10m0s\n/tmp/A?v=0&where=multi_upload" =
            some { UploadId := "S1", Chunk := 0, ContentMd5 := "md5a", Validity := "10m0s",
                   DownloadPath := "/tmp/A?v=0&where=multi_upload" } := by rfl
        rw [this]
        simp)
      (by decide) (by decide)⟩

/-! ## The merge loop of `Done` -/

theorem parse_fst (d : Deps) (s s2 : MultipartStorage) (p : String) :
    (parse d s p).1 = (parse d s2 p).1 := by
  unfold parse
  cases d.urlParse p <;> rfl

theorem parse_fields (d : Deps) (s : MultipartStorage) (p : String) :
    (parse d s p).2.uploadPath = s.uploadPath ∧ (parse d s p).2.contentMD5 = s.contentMD5 ∧
      (parse d s p).2.resourceType = s.resourceType ∧ (parse d s p).2.resourceId = s.resourceId := by
  unfold parse
  cases d.urlParse p <;> simp

theorem chunkFilePath_congr (d : Deps) (s s2 : MultipartStorage) (c : MultipartUploadChunkInfo)
    (h : s2.uploadPath = s.uploadPath) : chunkFilePath d s2 c = chunkFilePath d s c := by
  unfold chunkFilePath
  rw [h, parse_fst d s2 s]

theorem flatMap_ext {α β : Type} (l : List α) (f g : α → List β) (h : ∀ x ∈ l, f x = g x) :
    l.flatMap f = l.flatMap g := by
  induction l with
  | nil => rfl
  | cons a l ih =>
    rw [List.flatMap_cons, List.flatMap_cons, h a (List.mem_cons_self a l),
      ih (fun x hx => h x (List.mem_cons_of_mem a hx))]

/-- What the merge loop leaves alone: Redis, the queue, every file but the destination, and
the fields of the receiver that `parse` does not assign. -/
theorem mergeChunks_frame (d : Deps) (filePath : String) (chunks : List MultipartUploadChunkInfo) :
    ∀ (s : MultipartStorage) (w : World) (hash : Bytes),
      (mergeChunks d filePath chunks s w hash).2.2.1.queue = w.queue ∧
      (mergeChunks d filePath chunks s w hash).2.2.1.kv = w.kv ∧
      (mergeChunks d filePath chunks s w hash).2.2.1.hashes = w.hashes ∧
      (mergeChunks d filePath chunks s w hash).2.2.1.hashTTL = w.hashTTL ∧
      (∀ q, q ≠ filePath → (mergeChunks d filePath chunks s w hash).2.2.1.fs q = w.fs q) ∧
      (w.fs filePath ≠ none → (mergeChunks d filePath chunks s w hash).2.2.1.fs filePath ≠ none) ∧
      (mergeChunks d filePath chunks s w hash).2.1.uploadPath = s.uploadPath ∧
      (mergeChunks d filePath chunks s w hash).2.1.contentMD5 = s.contentMD5 ∧
      (mergeChunks d filePath chunks s w hash).2.1.resourceType = s.resourceType ∧
      (mergeChunks d filePath chunks s w hash).2.1.resourceId = s.resourceId := by
  induction chunks with
  | nil => intro s w hash; simp [mergeChunks]
  | cons c rest ih =>
    intro s w hash
    obtain ⟨hp1, hp2, hp3, hp4⟩ := parse_fields d s c.DownloadPath
    cases hread : w.ReadFile (chunkFilePath d s c) with
    | none =>
      simp [mergeChunks, hread, hp1, hp2, hp3, hp4]
    | some b =>
      simp only [mergeChunks, hread]
      obtain ⟨h1, h2, h3, h4, h5, h6, h7, h8, h9, h10⟩ :=
        ih (parse d s c.DownloadPath).2 (w.Write filePath b) (hash ++ strBytes c.ContentMd5)
      refine ⟨h1, h2, h3, h4, ?_, ?_, h7.trans hp1, h8.trans hp2, h9.trans hp3, h10.trans hp4⟩
      · intro q hq
        rw [h5 q hq]
        simp [World.Write, hq]
      · intro _
        apply h6
        simp [World.Write]

/-- The merge loop succeeds when every chunk file exists. -/
theorem mergeChunks_succeeds (d : Deps) (filePath : String) (chunks : List MultipartUploadChunkInfo) :
    ∀ (s : MultipartStorage) (w : World) (hash : Bytes),
      (∀ c ∈ chunks, w.fs (chunkFilePath d s c) ≠ none) →
      (mergeChunks d filePath chunks s w hash).1 = .ok () ∧
      (mergeChunks d filePath chunks s w hash).2.2.2 =
        hash ++ chunks.flatMap (fun c => strBytes c.ContentMd5) := by
  induction chunks with
  | nil => intro s w hash _; simp [mergeChunks]
  | cons c rest ih =>
    intro s w hash hex
    cases hread : w.ReadFile (chunkFilePath d s c) with
    | none => exact absurd hread (hex c (List.mem_cons_self c rest))
    | some b =>
      simp only [mergeChunks, hread]
      have hrest : ∀ c2 ∈ rest,
          (w.Write filePath b).fs (chunkFilePath d (parse d s c.DownloadPath).2 c2) ≠ none := by
        intro c2 hc2
        rw [chunkFilePath_congr d s _ c2 (parse_fields d s c.DownloadPath).1]
        have := hex c2 (List.mem_cons_of_mem c hc2)
        simp only [World.Write]
        split
        · simp
        · exact this
      obtain ⟨h1, h2⟩ := ih (parse d s c.DownloadPath).2 (w.Write filePath b)
        (hash ++ strBytes c.ContentMd5) hrest
      refine ⟨h1, ?_⟩
      rw [h2, List.flatMap_cons, List.append_assoc]

/-- The merge loop when no chunk file is the destination file: if it succeeds, every chunk file
existed and the destination holds what it held, followed by the contents of the chunk files in
the order of the records. -/
theorem mergeChunks_content (d : Deps) (filePath : String) (chunks : List MultipartUploadChunkInfo) :
    ∀ (s : MultipartStorage) (w : World) (hash : Bytes) (cur : Bytes),
      w.fs filePath = some cur →
      (∀ c ∈ chunks, chunkFilePath d s c ≠ filePath) →
      (mergeChunks d filePath chunks s w hash).1 = .ok () →
      (∀ c ∈ chunks, w.fs (chunkFilePath d s c) ≠ none) ∧
      (mergeChunks d filePath chunks s w hash).2.2.1.fs filePath =
        some (cur ++ chunks.flatMap (fun c => (w.fs (chunkFilePath d s c)).getD [])) := by
  induction chunks with
  | nil => intro s w hash cur hcur _ _; simp [mergeChunks, hcur]
  | cons c rest ih =>
    intro s w hash cur hcur hne hok
    cases hread : w.ReadFile (chunkFilePath d s c) with
    | none =>
      simp [mergeChunks, hread] at hok
    | some b =>
      simp only [mergeChunks, hread] at hok ⊢
      have hb : w.fs (chunkFilePath d s c) = some b := hread
      have hpath : ∀ c2 ∈ rest,
          chunkFilePath d (parse d s c.DownloadPath).2 c2 = chunkFilePath d s c2 :=
        fun c2 _ => chunkFilePath_congr d s _ c2 (parse_fields d s c.DownloadPath).1
      have hcur2 : (w.Write filePath b).fs filePath = some (cur ++ b) := by
        simp [World.Write, hcur]
      have hne2 : ∀ c2 ∈ rest, chunkFilePath d (parse d s c.DownloadPath).2 c2 ≠ filePath := by
        intro c2 hc2
        rw [hpath c2 hc2]
        exact hne c2 (List.mem_cons_of_mem c hc2)
      have hfs : ∀ c2 ∈ rest,
          (w.Write filePath b).fs (chunkFilePath d (parse d s c.DownloadPath).2 c2) =
            w.fs (chunkFilePath d s c2) := by
        intro c2 hc2
        rw [hpath c2 hc2]
        simp [World.Write, hne c2 (List.mem_cons_of_mem c hc2)]
      obtain ⟨h1, h2⟩ := ih (parse d s c.DownloadPath).2 (w.Write filePath b)
        (hash ++ strBytes c.ContentMd5) (cur ++ b) hcur2 hne2 hok
      constructor
      · intro c2 hc2
        rcases List.mem_cons.mp hc2 with h | h
        · rw [h, hb]; simp
        · rw [← hfs c2 h]; exact h1 c2 h
      · rw [h2, List.flatMap_cons, hb]
        simp only [Option.getD_some, List.append_assoc]
        rw [flatMap_ext rest _ (fun c => (w.fs (chunkFilePath d s c)).getD [])
          (fun c2 hc2 => by rw [hfs c2 hc2])]

/-! ## `Done` after the count check -/

/-- The run of `Done` once the session and its chunks are loaded and the count matches. -/
theorem Done_unfold (d : Deps) (cfg : Config) (now : Int) (s : MultipartStorage) (w : World)
    (uploadId : String) (startInfo : MultipartUploadStartReq)
    (chunks : List MultipartUploadChunkInfo)
    (hstart : getStartInfo d w uploadId = .ok startInfo)
    (hchunks : getChunks d w uploadId = .ok chunks)
    (hlen : (chunks.length : Int) = startInfo.Chunks)
    (hcreate : creatable w (destPath s startInfo)) :
    Done d cfg now s w uploadId =
      match (mergeChunks d (destPath s startInfo) chunks { s with resourceType := startInfo.Type_ }
          (createdAt w (destPath s startInfo)) []).1 with
      | .error e =>
        (.error e,
          (mergeChunks d (destPath s startInfo) chunks { s with resourceType := startInfo.Type_ }
            (createdAt w (destPath s startInfo)) []).2.1,
          (mergeChunks d (destPath s startInfo) chunks { s with resourceType := startInfo.Type_ }
            (createdAt w (destPath s startInfo)) []).2.2.1)
      | .ok _ =>
        match contentMD5Valid cfg
            (mergeChunks d (destPath s startInfo) chunks { s with resourceType := startInfo.Type_ }
              (createdAt w (destPath s startInfo)) []).2.1
            (md5Hex (mergeChunks d (destPath s startInfo) chunks
              { s with resourceType := startInfo.Type_ } (createdAt w (destPath s startInfo)) []).2.2.2) with
        | .error e =>
          (.error e,
            (mergeChunks d (destPath s startInfo) chunks { s with resourceType := startInfo.Type_ }
              (createdAt w (destPath s startInfo)) []).2.1,
            (mergeChunks d (destPath s startInfo) chunks { s with resourceType := startInfo.Type_ }
              (createdAt w (destPath s startInfo)) []).2.2.1)
        | .ok _ =>
          (.ok { UploadId := uploadId
                 DownloadPath := downloadPathOf
                   (mergeChunks d (destPath s startInfo) chunks
                     { s with resourceType := startInfo.Type_ } (createdAt w (destPath s startInfo)) []).2.1
                   (destPath s startInfo)
                 Validity := d.durationString (delayDuration cfg) },
            (mergeChunks d (destPath s startInfo) chunks { s with resourceType := startInfo.Type_ }
              (createdAt w (destPath s startInfo)) []).2.1,
            StorageDelayJob.Add cfg now
              (mergeChunks d (destPath s startInfo) chunks { s with resourceType := startInfo.Type_ }
                (createdAt w (destPath s startInfo)) []).2.2.1 (destPath s startInfo)) := by
  have hc := create_of_creatable w _ hcreate
  unfold Done
  simp only [hstart, hchunks, hlen, ne_eq, not_true_eq_false, if_false, uploadFullPathByName_eq]
  change (match (withDirFor w (destPath s startInfo)).Create (destPath s startInfo) with
    | none => _
    | some w1 => _) = _
  rw [hc]
  have hd : fullPath { s with resourceType := startInfo.Type_ } startInfo.Filename =
      destPath s startInfo := rfl
  simp only [hd]
  rcases hm : mergeChunks d (destPath s startInfo) chunks { s with resourceType := startInfo.Type_ }
      (createdAt w (destPath s startInfo)) [] with ⟨r, s2, w2, h2⟩
  cases r with
  | error e => rfl
  | ok u =>
    simp only

/-- The run of `Done` when `os.Create` fails on the destination. -/
theorem Done_not_creatable (d : Deps) (cfg : Config) (now : Int) (s : MultipartStorage) (w : World)
    (uploadId : String) (startInfo : MultipartUploadStartReq)
    (chunks : List MultipartUploadChunkInfo)
    (hstart : getStartInfo d w uploadId = .ok startInfo)
    (hchunks : getChunks d w uploadId = .ok chunks)
    (hlen : (chunks.length : Int) = startInfo.Chunks)
    (hcreate : ¬ creatable w (destPath s startInfo)) :
    Done d cfg now s w uploadId =
      (.error internalServerError, { s with resourceType := startInfo.Type_ },
        withDirFor w (destPath s startInfo)) := by
  have hc := create_of_not_creatable w _ hcreate
  unfold Done
  simp only [hstart, hchunks, hlen, ne_eq, not_true_eq_false, if_false, uploadFullPathByName_eq]
  change (match (withDirFor w (destPath s startInfo)).Create (destPath s startInfo) with
    | none => _
    | some w1 => _) = _
  rw [hc]
  rfl

/-- When `Done` succeeds `os.Create` succeeded on the destination. -/
theorem Done_ok_creatable (d : Deps) (cfg : Config) (now : Int) (s : MultipartStorage) (w : World)
    (uploadId : String) (startInfo : MultipartUploadStartReq)
    (chunks : List MultipartUploadChunkInfo) (resp : MultipartUploadDoneResp)
    (hstart : getStartInfo d w uploadId = .ok startInfo)
    (hchunks : getChunks d w uploadId = .ok chunks)
    (hlen : (chunks.length : Int) = startInfo.Chunks)
    (hdone : (Done d cfg now s w uploadId).1 = .ok resp) :
    creatable w (destPath s startInfo) := by
  by_contra hcreate
  rw [Done_not_creatable d cfg now s w uploadId startInfo chunks hstart hchunks hlen hcreate] at hdone
  cases hdone

/-- When `Done` succeeds the count matched. -/
theorem Done_ok_length (d : Deps) (cfg : Config) (now : Int) (s : MultipartStorage) (w : World)
    (uploadId : String) (startInfo : MultipartUploadStartReq)
    (chunks : List MultipartUploadChunkInfo) (resp : MultipartUploadDoneResp)
    (hstart : getStartInfo d w uploadId = .ok startInfo)
    (hchunks : getChunks d w uploadId = .ok chunks)
    (hdone : (Done d cfg now s w uploadId).1 = .ok resp) :
    (chunks.length : Int) = startInfo.Chunks := by
  by_contra hne
  unfold Done at hdone
  simp [hstart, hchunks, hne] at hdone

theorem Create_fs_ne_none (w : World) (p q : String) (h : w.fs q ≠ none) :
    (createdAt w p).fs q ≠ none := by
  rw [createdAt_fs]
  split
  · simp
  · exact h

theorem contentMD5Valid_skip (cfg : Config) (s : MultipartStorage) (digest : String)
    (h : s.contentMD5 = "" ∨ cfg.checkContentEnabled = false) :
    contentMD5Valid cfg s digest = .ok () := by
  rcases h with h | h <;> simp [contentMD5Valid, h]

/-- The destination after a successful `Done` when no chunk file is the destination. -/
theorem Done_fs_of_ok (d : Deps) (cfg : Config) (now : Int) (s : MultipartStorage)
    (w : World) (uploadId : String) (startInfo : MultipartUploadStartReq)
    (chunks : List MultipartUploadChunkInfo) (resp : MultipartUploadDoneResp)
    (hstart : getStartInfo d w uploadId = .ok startInfo)
    (hchunks : getChunks d w uploadId = .ok chunks)
    (hdone : (Done d cfg now s w uploadId).1 = .ok resp)
    (hne : ∀ c ∈ chunks, chunkFilePath d s c ≠ destPath s startInfo) :
    (∀ c ∈ chunks, w.fs (chunkFilePath d s c) ≠ none) ∧
      (Done d cfg now s w uploadId).2.2.fs (destPath s startInfo) =
        some (chunks.flatMap (fun c => (w.fs (chunkFilePath d s c)).getD [])) := by
  have hlen := Done_ok_length d cfg now s w uploadId startInfo chunks resp hstart hchunks hdone
  have hcreate := Done_ok_creatable d cfg now s w uploadId startInfo chunks resp hstart hchunks
    hlen hdone
  have hpath : ∀ c, chunkFilePath d { s with resourceType := startInfo.Type_ } c =
      chunkFilePath d s c := fun c => chunkFilePath_congr d s _ c rfl
  have hcont := mergeChunks_content d (destPath s startInfo) chunks
    { s with resourceType := startInfo.Type_ } (createdAt w (destPath s startInfo)) [] []
    (by simp [createdAt_fs]) (fun c hc => by rw [hpath c]; exact hne c hc)
  rw [Done_unfold d cfg now s w uploadId startInfo chunks hstart hchunks hlen hcreate] at hdone ⊢
  revert hdone hcont
  rcases mergeChunks d (destPath s startInfo) chunks { s with resourceType := startInfo.Type_ }
      (createdAt w (destPath s startInfo)) [] with ⟨r, s2, w2, h2⟩
  intro hdone hcont
  cases r with
  | error e => simp at hdone
  | ok u =>
    simp only at hdone hcont ⊢
    obtain ⟨hex, hfs⟩ := hcont trivial
    have hcreate : ∀ c ∈ chunks,
        (createdAt w (destPath s startInfo)).fs (chunkFilePath d { s with resourceType := startInfo.Type_ } c) =
          w.fs (chunkFilePath d s c) := by
      intro c hc
      rw [hpath c]
      simp [createdAt_fs, hne c hc]
    refine ⟨?_, ?_⟩
    · intro c hc
      rw [← hcreate c hc]
      exact hex c hc
    · cases hv : contentMD5Valid cfg s2 (md5Hex h2) with
      | error e => simp [hv] at hdone
      | ok u2 =>
        simp only [StorageDelayJob.Add]
        rw [hfs, List.nil_append, flatMap_ext chunks _ _ (fun c hc => by rw [hcreate c hc])]

/-- C2, amended: when `Done` succeeds and no record's chunk file (`uploadPath` joined with the
parsed `DownloadPath`) is the destination file itself, the records returned by `getChunks` are
in ascending order of their chunk index, each of their chunk files existed when `Done` was
called, and the destination file holds the concatenation, in that order, of the bytes those
files held when `Done` was called. -/
theorem Done_destination_content (d : Deps) (cfg : Config) (now : Int) (s : MultipartStorage)
    (w : World) (uploadId : String) (startInfo : MultipartUploadStartReq)
    (chunks : List MultipartUploadChunkInfo) (resp : MultipartUploadDoneResp)
    (hstart : getStartInfo d w uploadId = .ok startInfo)
    (hchunks : getChunks d w uploadId = .ok chunks)
    (hdone : (Done d cfg now s w uploadId).1 = .ok resp)
    (hne : ∀ c ∈ chunks, chunkFilePath d s c ≠ destPath s startInfo) :
    chunks.Sorted (fun a b => a.Chunk ≤ b.Chunk) ∧
      (∀ c ∈ chunks, w.fs (chunkFilePath d s c) ≠ none) ∧
      (Done d cfg now s w uploadId).2.2.fs (destPath s startInfo) =
        some (chunks.flatMap (fun c => (w.fs (chunkFilePath d s c)).getD [])) := by
  refine ⟨?_, Done_fs_of_ok d cfg now s w uploadId startInfo chunks resp hstart hchunks hdone hne⟩
  obtain ⟨_, _, hc⟩ := (getChunks_ok_iff d w uploadId chunks).mp hchunks
  rw [hc]
  exact sortSliceStable_sorted _

/-- C2 in a session of one chunk staged apart from the destination. -/
theorem Done_destination_content_witness :
    getStartInfo refDeps oneChunkWorld "S1" = .ok { Filename := "a.png", Chunks := 1, Type_ := 11 } ∧
      getChunks refDeps oneChunkWorld "S1" = .ok [oneChunkRecord] ∧
      destPath (refStorage "S1") { Filename := "a.png", Chunks := 1, Type_ := 11 } = "/up/tmp/S1.png" ∧
      (Done refDeps refConfig 0 (refStorage "S1") oneChunkWorld "S1").2.2.fs
          (destPath (refStorage "S1") { Filename := "a.png", Chunks := 1, Type_ := 11 }) =
        some ([oneChunkRecord].flatMap
          (fun c => (oneChunkWorld.fs (chunkFilePath refDeps (refStorage "S1") c)).getD [])) :=
  ⟨by rfl, by rfl, by decide,
    (Done_destination_content refDeps refConfig 0 (refStorage "S1") oneChunkWorld "S1"
      { Filename := "a.png", Chunks := 1, Type_ := 11 } [oneChunkRecord]
      { UploadId := "S1", DownloadPath := "/tmp/S1.png?v=0&where=multi_upload",
        Validity := "10m0s" }
      (by rfl) (by rfl) (by rfl)
      (by
        intro c hc
        rw [List.mem_singleton.mp hc]
        decide)).2.2⟩

/-- C2 fails when a record's chunk file is the destination file: here the file held the bytes
1, 2 when `Done` was called, `Done` succeeds, and the destination is left empty, because
`os.Create` truncates it before the loop reads it. -/
theorem Done_destination_alias_counterexample :
    getChunks refDeps aliasWorld "S1" =
        .ok [{ UploadId := "S1", Chunk := 0, ContentMd5 := "md5a", Validity := "10m0s",
               DownloadPath := "/tmp/S1.png?v=0&where=multi_upload" }] ∧
      chunkFilePath refDeps (refStorage "S1")
          { UploadId := "S1", Chunk := 0, ContentMd5 := "md5a", Validity := "10m0s",
            DownloadPath := "/tmp/S1.png?v=0&where=multi_upload" } = "/up/tmp/S1.png" ∧
      aliasWorld.fs "/up/tmp/S1.png" = some [1, 2] ∧
      (Done refDeps refConfig 0 (refStorage "S1") aliasWorld "S1").1 =
        .ok { UploadId := "S1", DownloadPath := "/tmp/S1.png?v=0&where=multi_upload",
              Validity := "10m0s" } ∧
      destPath (refStorage "S1") { Filename := "a.png", Chunks := 1, Type_ := 11 } = "/up/tmp/S1.png" ∧
      (Done refDeps refConfig 0 (refStorage "S1") aliasWorld "S1").2.2.fs "/up/tmp/S1.png" = some [] ∧
      (Done refDeps refConfig 0 (refStorage "S1") aliasWorld "S1").2.2.fs "/up/tmp/S1.png" ≠
        some [1, 2] :=
  ⟨by rfl, by decide, by rfl, by rfl, by decide, by rfl, by decide⟩

/-- C7, amended: when content checking is enabled and the checksum `Done` compares against (the
field `contentMD5` of the receiver) is not empty and differs from the MD5 hexadecimal digest of
the concatenated checksum texts of the records, `Done` (the count matching and every chunk file
being readable) returns an invalid-request error with code `InvalidArgument` once `os.Create`
has succeeded on the destination; the destination file has been created, and
`StorageDelayJob.Add` is not called: the delay queue is as it was before the call.  When
`os.Create` fails on the destination, `Done` returns the internal server error before any
comparison, and neither a file nor the delay queue has changed. -/
theorem Done_checksum_mismatch (d : Deps) (cfg : Config) (now : Int) (s : MultipartStorage)
    (w : World) (uploadId : String) (startInfo : MultipartUploadStartReq)
    (chunks : List MultipartUploadChunkInfo)
    (hstart : getStartInfo d w uploadId = .ok startInfo)
    (hchunks : getChunks d w uploadId = .ok chunks)
    (hlen : (chunks.length : Int) = startInfo.Chunks)
    (hfs : ∀ c ∈ chunks, w.fs (chunkFilePath d s c) ≠ none)
    (hen : cfg.checkContentEnabled = true)
    (hc : s.contentMD5 ≠ "")
    (hdiff : md5Hex (chunks.flatMap (fun c => strBytes c.ContentMd5)) ≠ s.contentMD5) :
    (creatable w (destPath s startInfo) →
      ∃ e, (Done d cfg now s w uploadId).1 = .error e ∧
        e.kind = ErrKind.INVALID_REQUEST_ERR ∧ e.code = Codes.InvalidArgument ∧
        (Done d cfg now s w uploadId).2.2.queue = w.queue ∧
        (Done d cfg now s w uploadId).2.2.fs (destPath s startInfo) ≠ none) ∧
    (¬ creatable w (destPath s startInfo) →
      (Done d cfg now s w uploadId).1 = .error internalServerError ∧
        (Done d cfg now s w uploadId).2.2.queue = w.queue ∧
        (Done d cfg now s w uploadId).2.2.fs = w.fs) := by
  refine ⟨fun hcreate => ?_, fun hcreate => ?_⟩
  swap
  · rw [Done_not_creatable d cfg now s w uploadId startInfo chunks hstart hchunks hlen hcreate]
    exact ⟨rfl, (withDirFor_frame w _).2.2.2.2.1, (withDirFor_frame w _).1⟩
  have hpath : ∀ c, chunkFilePath d { s with resourceType := startInfo.Type_ } c =
      chunkFilePath d s c := fun c => chunkFilePath_congr d s _ c rfl
  have hsucc := mergeChunks_succeeds d (destPath s startInfo) chunks
    { s with resourceType := startInfo.Type_ } (createdAt w (destPath s startInfo)) []
    (fun c hc => by rw [hpath c]; exact Create_fs_ne_none w _ _ (hfs c hc))
  have hframe := mergeChunks_frame d (destPath s startInfo) chunks
    { s with resourceType := startInfo.Type_ } (createdAt w (destPath s startInfo)) []
  rw [(createdAt_frame w (destPath s startInfo)).2.2.2.1] at hframe
  rw [Done_unfold d cfg now s w uploadId startInfo chunks hstart hchunks hlen hcreate]
  revert hsucc hframe
  rcases mergeChunks d (destPath s startInfo) chunks { s with resourceType := startInfo.Type_ }
      (createdAt w (destPath s startInfo)) [] with ⟨r, s2, w2, h2⟩
  intro hsucc hframe
  obtain ⟨hr, hh⟩ := hsucc
  obtain ⟨hq, _, _, _, _, hdest, _, hmd5, _, _⟩ := hframe
  simp only at hr hh hq hdest hmd5
  subst hr
  have hmd5s : s2.contentMD5 = s.contentMD5 := hmd5
  have hne2 : s2.contentMD5 ≠ md5Hex h2 := by
    rw [hmd5s, hh, List.nil_append]
    exact fun h => hdiff h.symm
  have hc2 : s2.contentMD5 ≠ "" := by rw [hmd5s]; exact hc
  refine ⟨invalidRequest ("upload file content_md5 not equal input '" ++ s2.contentMD5 ++
    "', want '" ++ md5Hex h2 ++ "'"), ?_, rfl, rfl, ?_, ?_⟩
  · simp [contentMD5Valid, hc2, hen, hne2]
  · simp only [contentMD5Valid, hc2, hen, hne2, ne_eq, not_false_eq_true, and_self, if_true]
    exact hq
  · simp only [contentMD5Valid, hc2, hen, hne2, ne_eq, not_false_eq_true, and_self, if_true]
    exact hdest (by simp [createdAt_fs])

/-- C7 at a session of one chunk with the checksum text `md5a`, on a receiver whose `contentMD5`
is `abc`. -/
theorem Done_checksum_mismatch_witness :
    md5Hex ([oneChunkRecord].flatMap (fun c => strBytes c.ContentMd5)) ≠ "abc" ∧
      creatable oneChunkWorld (destPath { refStorage "S1" with contentMD5 := "abc" }
        { Filename := "a.png", Chunks := 1, Type_ := 11 }) ∧
      ∃ e, (Done refDeps contentCheckConfig 0 { refStorage "S1" with contentMD5 := "abc" }
            oneChunkWorld "S1").1 = .error e ∧
        e.kind = ErrKind.INVALID_REQUEST_ERR ∧ e.code = Codes.InvalidArgument ∧
        (Done refDeps contentCheckConfig 0 { refStorage "S1" with contentMD5 := "abc" }
            oneChunkWorld "S1").2.2.queue = oneChunkWorld.queue ∧
        (Done refDeps contentCheckConfig 0 { refStorage "S1" with contentMD5 := "abc" }
            oneChunkWorld "S1").2.2.fs
          (destPath { refStorage "S1" with contentMD5 := "abc" }
            { Filename := "a.png", Chunks := 1, Type_ := 11 }) ≠ none :=
  ⟨by
      set_option maxRecDepth 100000 in decide,
    by decide,
    (Done_checksum_mismatch refDeps contentCheckConfig 0 { refStorage "S1" with contentMD5 := "abc" }
      oneChunkWorld "S1" { Filename := "a.png", Chunks := 1, Type_ := 11 } [oneChunkRecord]
      (by rfl) (by rfl) (by rfl)
      (by
        intro c hc
        rw [List.mem_singleton.mp hc]
        decide)
      rfl (by decide)
      (by
        set_option maxRecDepth 100000 in decide)).1 (by decide)⟩

/-- C7 fails as stated: content checking is enabled and the digest of the checksum texts differs
from the checksum of the receiver, `Done` returns the invalid-request error, and the delay queue
is empty afterwards: the destination file, created and written, is not registered. -/
theorem Done_checksum_mismatch_counterexample :
    contentCheckConfig.checkContentEnabled = true ∧
      md5Hex (strBytes "md5a") = "515fdf0b1400eb5c75beab724c2f907d" ∧
      (Done refDeps contentCheckConfig 0 { refStorage "S1" with contentMD5 := "abc" }
          oneChunkWorld "S1").1 =
        .error (invalidRequest
          "upload file content_md5 not equal input 'abc', want '515fdf0b1400eb5c75beab724c2f907d'") ∧
      (Done refDeps contentCheckConfig 0 { refStorage "S1" with contentMD5 := "abc" }
          oneChunkWorld "S1").2.2.fs "/up/tmp/S1.png" = some [1, 2] ∧
      (Done refDeps contentCheckConfig 0 { refStorage "S1" with contentMD5 := "abc" }
          oneChunkWorld "S1").2.2.queue = [] := by
  set_option maxRecDepth 100000 in
  exact ⟨rfl, by decide, by rfl, by rfl, by rfl⟩

/-- `Done` succeeds when the count matches, the destination can be created, every chunk file
exists and the aggregate checksum is not compared. -/
theorem Done_ok_of_files (d : Deps) (cfg : Config) (now : Int) (s : MultipartStorage)
    (w : World) (uploadId : String) (startInfo : MultipartUploadStartReq)
    (chunks : List MultipartUploadChunkInfo)
    (hstart : getStartInfo d w uploadId = .ok startInfo)
    (hchunks : getChunks d w uploadId = .ok chunks)
    (hlen : (chunks.length : Int) = startInfo.Chunks)
    (hfs : ∀ c ∈ chunks, w.fs (chunkFilePath d s c) ≠ none)
    (hmd5 : s.contentMD5 = "" ∨ cfg.checkContentEnabled = false)
    (hcreate : creatable w (destPath s startInfo)) :
    ∃ resp, (Done d cfg now s w uploadId).1 = .ok resp := by
  have hpath : ∀ c, chunkFilePath d { s with resourceType := startInfo.Type_ } c =
      chunkFilePath d s c := fun c => chunkFilePath_congr d s _ c rfl
  have hsucc := mergeChunks_succeeds d (destPath s startInfo) chunks
    { s with resourceType := startInfo.Type_ } (createdAt w (destPath s startInfo)) []
    (fun c hc => by
      rw [hpath c]
      exact Create_fs_ne_none w _ _ (hfs c hc))
  have hframe := mergeChunks_frame d (destPath s startInfo) chunks
    { s with resourceType := startInfo.Type_ } (createdAt w (destPath s startInfo)) []
  rw [Done_unfold d cfg now s w uploadId startInfo chunks hstart hchunks hlen hcreate]
  revert hsucc hframe
  rcases mergeChunks d (destPath s startInfo) chunks
      { s with resourceType := startInfo.Type_ } (createdAt w (destPath s startInfo)) []
    with ⟨r, s2, w2, h2⟩
  intro hsucc hframe
  obtain ⟨hr, _⟩ := hsucc
  obtain ⟨_, _, _, _, _, _, _, hmd5s, _, _⟩ := hframe
  simp only at hr hmd5s
  subst hr
  have hskip : contentMD5Valid cfg s2 (md5Hex h2) = .ok () := by
    apply contentMD5Valid_skip
    rcases hmd5 with h | h
    · left; rw [hmd5s]; exact h
    · right; exact h
  simp only [hskip]
  exact ⟨_, rfl⟩

/-- C1, amended: for a session that declares `n` chunks, when every stored value unmarshals, the
stored records have pairwise distinct chunk indices, every chunk file can be read and the
aggregate checksum is not compared (the receiver's `contentMD5` is empty or content checking is
disabled), `Done` succeeds if and only if the hash of the session holds at least one field, the
number of distinct stored chunk indices equals `n` and `os.Create` succeeds on the destination
file; with no field stored it fails, also when `n = 0`. -/
theorem Done_succeeds_iff (d : Deps) (cfg : Config) (now : Int) (s : MultipartStorage)
    (w : World) (uploadId : String) (startInfo : MultipartUploadStartReq)
    (hstart : getStartInfo d w uploadId = .ok startInfo)
    (hall : allDecode d (w.hashes (chunksHashKey uploadId)))
    (hnodup : (storedIndices d (w.hashes (chunksHashKey uploadId))).Nodup)
    (hfs : ∀ c ∈ decodedValues d (w.hashes (chunksHashKey uploadId)),
      w.fs (chunkFilePath d s c) ≠ none)
    (hmd5 : s.contentMD5 = "" ∨ cfg.checkContentEnabled = false) :
    (∃ resp, (Done d cfg now s w uploadId).1 = .ok resp) ↔
      (w.hashes (chunksHashKey uploadId) ≠ [] ∧
        ((storedIndices d (w.hashes (chunksHashKey uploadId))).dedup.length : Int) =
          startInfo.Chunks ∧
        creatable w (destPath s startInfo)) := by
  rw [hnodup.dedup]
  have hcount : (storedIndices d (w.hashes (chunksHashKey uploadId))).length =
      (decodedValues d (w.hashes (chunksHashKey uploadId))).length := by
    simp [storedIndices]
  rw [hcount]
  by_cases hne : w.hashes (chunksHashKey uploadId) = []
  · have hget : getChunks d w uploadId =
        .error (invalidRequest ("upload '" ++ uploadId ++ "' chunks redis hash not found")) := by
      simp [getChunks, World.HGetAll, hne]
    constructor
    · rintro ⟨resp, hresp⟩
      simp [Done, hstart, hget] at hresp
    · rintro ⟨h, _⟩
      exact absurd hne h
  · have hget := (getChunks_ok_iff d w uploadId _).mpr ⟨hne, hall, rfl⟩
    have hperm := getChunks_perm_decoded d w uploadId _ hget
    have hlen := getChunks_length d w uploadId _ hget
    constructor
    · rintro ⟨resp, hresp⟩
      have hn := Done_ok_length d cfg now s w uploadId startInfo _ resp hstart hget hresp
      refine ⟨hne, ?_, Done_ok_creatable d cfg now s w uploadId startInfo _ resp hstart hget hn
        hresp⟩
      rw [← hlen]
      exact hn
    · rintro ⟨_, hn, hcreate⟩
      rw [← hlen] at hn
      exact Done_ok_of_files d cfg now s w uploadId startInfo _ hstart hget hn
        (fun c hc => hfs c (hperm.mem_iff.mp hc)) hmd5 hcreate

/-- C1 at a session of one chunk that holds its one record. -/
theorem Done_succeeds_iff_witness :
    oneChunkWorld.hashes (chunksHashKey "S1") ≠ [] ∧
      ((storedIndices refDeps (oneChunkWorld.hashes (chunksHashKey "S1"))).dedup.length : Int) = 1 ∧
      creatable oneChunkWorld
        (destPath (refStorage "S1") { Filename := "a.png", Chunks := 1, Type_ := 11 }) ∧
      ∃ resp, (Done refDeps refConfig 0 (refStorage "S1") oneChunkWorld "S1").1 = .ok resp :=
  have hfields : oneChunkWorld.hashes (chunksHashKey "S1") =
      [("0", "S1\n0\nmd5a\n10m0s\n/tmp/A?v=0&where=multi_upload")] := by rfl
  have hdec : decodedValues refDeps (oneChunkWorld.hashes (chunksHashKey "S1")) =
      [oneChunkRecord] := by rfl
  have hidx : storedIndices refDeps (oneChunkWorld.hashes (chunksHashKey "S1")) = [0] := by rfl
  ⟨by rw [hfields]; simp, by rw [hidx]; decide, by decide,
    (Done_succeeds_iff refDeps refConfig 0 (refStorage "S1") oneChunkWorld "S1"
      { Filename := "a.png", Chunks := 1, Type_ := 11 } (by rfl)
      (by
        intro e he
        rw [hfields] at he
        rw [List.mem_singleton.mp he]
        intro _
        have : refDeps.unmarshalChunk "S1\n0\nmd5a\n10m0s\n/tmp/A?v=0&where=multi_upload" =
            some oneChunkRecord := by rfl
        rw [this]
        simp)
      (by rw [hidx]; simp)
      (by
        intro c hc
        rw [hdec] at hc
        rw [List.mem_singleton.mp hc]
        decide)
      (Or.inl rfl)).mpr ⟨by rw [hfields]; simp, by rw [hidx]; decide, by decide⟩⟩

/-- C1 fails at `n = 0`: the session declares no chunk and none is stored, so the number of
distinct stored indices equals the declared count, and `Done` returns the not-found error of
`getChunks`. -/
theorem Done_zero_chunks_counterexample :
    getStartInfo refDeps zeroChunkWorld "S1" = .ok { Filename := "a.png", Chunks := 0, Type_ := 11 } ∧
      ((storedIndices refDeps (zeroChunkWorld.hashes (chunksHashKey "S1"))).dedup.length : Int) = 0 ∧
      (Done refDeps refConfig 0 (refStorage "S1") zeroChunkWorld "S1").1 =
        .error (invalidRequest "upload 'S1' chunks redis hash not found") :=
  ⟨by rfl, by rfl, by rfl⟩

/-! ## `Upload` -/

theorem stagedBytes_unchecked (cfg : Config) (s : MultipartStorage) (file : FileHeader)
    (h : s.contentMD5 = "" ∨ cfg.checkContentEnabled = false) :
    stagedBytes cfg s file = file.content ∧ (contentValid cfg s file.Open).1 = .ok () := by
  rcases h with h | h <;> simp [stagedBytes, contentValid, h, OpenFile.readAll, FileHeader.Open]

theorem stagedBytes_checked (cfg : Config) (s : MultipartStorage) (file : FileHeader)
    (h1 : s.contentMD5 ≠ "") (h2 : cfg.checkContentEnabled = true) :
    stagedBytes cfg s file = [] := by
  unfold stagedBytes contentValid
  simp only [h1, h2, ne_eq, not_false_eq_true, and_self, if_true]
  cases contentMD5Valid cfg s (md5Hex (FileHeader.Open file).readAll.1) <;>
    simp [OpenFile.readAll]

theorem create_write_fs (w : World) (p : String) (b : Bytes) :
    ((createdAt w p).Write p b).fs = fun q => if q = p then some b else w.fs q := by
  funext q
  by_cases h : q = p <;> simp [World.Write, createdAt_fs, h]

/-- The run of `upload` when both checks pass and `os.Create` succeeds. -/
theorem upload_ok (cfg : Config) (now : Int) (s : MultipartStorage) (w : World) (file : FileHeader)
    (hsize : sizeValid cfg s file = .ok ())
    (hcontent : (contentValid cfg s file.Open).1 = .ok ())
    (hcreate : creatable w (fullPath s file.Filename)) :
    upload cfg now s w file =
      (.ok (downloadPathOf s (fullPath s file.Filename)),
        StorageDelayJob.Add cfg now
          (((createdAt w (fullPath s file.Filename)).Write
            (fullPath s file.Filename) (stagedBytes cfg s file)))
          (fullPath s file.Filename)) := by
  have hc := create_of_creatable w _ hcreate
  unfold upload stagedBytes
  simp only [hsize, uploadFullPathByName_eq]
  rw [hc]
  simp only
  revert hcontent
  rcases contentValid cfg s file.Open with ⟨r, f2⟩
  intro hcontent
  simp only at hcontent
  subst hcontent
  rfl

/-- The run of `upload` when the size check passes and `os.Create` fails. -/
theorem upload_not_creatable (cfg : Config) (now : Int) (s : MultipartStorage) (w : World)
    (file : FileHeader) (hsize : sizeValid cfg s file = .ok ())
    (hcreate : ¬ creatable w (fullPath s file.Filename)) :
    upload cfg now s w file =
      (.error internalServerError, withDirFor w (fullPath s file.Filename)) := by
  have hc := create_of_not_creatable w _ hcreate
  unfold upload
  simp only [hsize, uploadFullPathByName_eq]
  rw [hc]

theorem formatSec_pos (dur : Int) (h : 0 < dur) : 0 < formatSec dur := by
  unfold formatSec
  split
  · decide
  · rename_i hlt
    have hge : 1000000000 ≤ dur := by
      by_contra hcon
      exact hlt ⟨h, by omega⟩
    rw [Int.tdiv_eq_ediv (by omega) (by decide)]
    omega

/-- The run of `setChunk` when the record marshals: what it leaves alone. -/
theorem setChunk_ok (d : Deps) (cfg : Config) (w : World) (c : MultipartUploadChunkInfo)
    (v : String) (hv : d.marshalChunk c = some v) :
    (setChunk d cfg w c).1 = .ok () ∧
      (setChunk d cfg w c).2.kv = w.kv ∧
      (setChunk d cfg w c).2.fs = w.fs ∧
      (setChunk d cfg w c).2.queue = w.queue ∧
      (setChunk d cfg w c).2.dirs = w.dirs := by
  unfold setChunk
  simp only [hv]
  split
  · unfold World.Expire
    split
    · simp [World.HSet]
    · split <;> simp [World.HSet]
  · simp [World.HSet]

/-- The hash after `setChunk` of a record that marshals, when the delay duration is positive:
the field of the chunk index holds the record, the other fields are kept. -/
theorem setChunk_hashes (d : Deps) (cfg : Config) (w : World) (c : MultipartUploadChunkInfo)
    (v : String) (hv : d.marshalChunk c = some v) (hpos : 0 < delayDuration cfg) :
    (setChunk d cfg w c).2.hashes =
      (fun k => if k = chunksHashKey c.UploadId then
        hsetFields (w.hashes (chunksHashKey c.UploadId)) (fmtD c.Chunk) v
        else w.hashes k) := by
  have hsec : ¬ formatSec (delayDuration cfg) ≤ 0 := by
    have := formatSec_pos _ hpos
    omega
  unfold setChunk
  simp only [hv]
  split
  · unfold World.Expire
    split
    · simp [World.HSet]
    · simp [World.HSet, hsec]
  · simp [World.HSet]

/-- The run of `Upload` when the session exists, both checks pass, `os.Create` succeeds and the
record marshals. -/
theorem Upload_ok (d : Deps) (cfg : Config) (now : Int) (s : MultipartStorage) (w : World)
    (req : MultipartUploadReq) (file : FileHeader) (info : MultipartUploadStartReq) (v : String)
    (hstart : getStartInfo d w req.UploadId = .ok info)
    (hsize : sizeValid cfg (uploadReceiver s req) file = .ok ())
    (hcontent : (contentValid cfg (uploadReceiver s req) file.Open).1 = .ok ())
    (hcreate : creatable w (stagingPath s file))
    (hv : d.marshalChunk (chunkRecord d cfg s req file) = some v) :
    (Upload d cfg now s w req file).1 = .ok (chunkRecord d cfg s req file) ∧
      (Upload d cfg now s w req file).2.2.kv = w.kv ∧
      (Upload d cfg now s w req file).2.2.fs =
        (fun q => if q = stagingPath s file then some (stagedBytes cfg (uploadReceiver s req) file)
          else w.fs q) ∧
      (Upload d cfg now s w req file).2.2.queue =
        zaddMembers w.queue (stagingPath s file) ((now + delayDuration cfg) / 1000000000) ∧
      (Upload d cfg now s w req file).2.2.dirs = (withDirFor w (stagingPath s file)).dirs ∧
      (0 < delayDuration cfg →
        (Upload d cfg now s w req file).2.2.hashes =
          (fun k => if k = chunksHashKey req.UploadId then
            hsetFields (w.hashes (chunksHashKey req.UploadId)) (fmtD req.Chunk) v
            else w.hashes k)) := by
  have hpath : fullPath (uploadReceiver s req) file.Filename = stagingPath s file := rfl
  have hup := upload_ok cfg now (uploadReceiver s req) w file hsize hcontent
    (by rw [hpath]; exact hcreate)
  rw [hpath] at hup
  have hset := setChunk_ok d cfg
    (StorageDelayJob.Add cfg now (((createdAt w (stagingPath s file)).Write (stagingPath s file)
      (stagedBytes cfg (uploadReceiver s req) file))) (stagingPath s file))
    (chunkRecord d cfg s req file) v hv
  have hhash := setChunk_hashes d cfg
    (StorageDelayJob.Add cfg now (((createdAt w (stagingPath s file)).Write (stagingPath s file)
      (stagedBytes cfg (uploadReceiver s req) file))) (stagingPath s file))
    (chunkRecord d cfg s req file) v hv
  have hU : Upload d cfg now s w req file =
      match setChunk d cfg
        (StorageDelayJob.Add cfg now (((createdAt w (stagingPath s file)).Write (stagingPath s file)
          (stagedBytes cfg (uploadReceiver s req) file))) (stagingPath s file))
        (chunkRecord d cfg s req file) with
      | (.error e, w2) => (.error e, uploadReceiver s req, w2)
      | (.ok _, w2) => (.ok (chunkRecord d cfg s req file), uploadReceiver s req, w2) := by
    unfold Upload
    simp only [hstart]
    unfold uploadReceiver at hup
    simp only [hup]
    rfl
  obtain ⟨_, hk, hh, hq, hd⟩ := createdAt_frame w (stagingPath s file)
  rw [hU]
  revert hset hhash
  rcases setChunk d cfg
      (StorageDelayJob.Add cfg now (((createdAt w (stagingPath s file)).Write (stagingPath s file)
        (stagedBytes cfg (uploadReceiver s req) file))) (stagingPath s file))
      (chunkRecord d cfg s req file) with ⟨r, w2⟩
  rintro ⟨h1, h2, h3, h4, h5⟩ hhash
  simp only at h1 h2 h3 h4 h5 hhash
  subst h1
  refine ⟨rfl, ?_, ?_, ?_, ?_, ?_⟩
  · show w2.kv = _
    rw [h2]
    exact (createdAt_frame w (stagingPath s file)).1
  · show w2.fs = _
    rw [h3]
    exact create_write_fs w _ _
  · show w2.queue = _
    rw [h4]
    show zaddMembers (createdAt w (stagingPath s file)).queue _ _ = _
    rw [hq]
  · show w2.dirs = _
    rw [h5]
    rfl
  · intro hpos
    show w2.hashes = _
    rw [hhash hpos]
    show (fun k => if k = chunksHashKey req.UploadId then
      hsetFields ((createdAt w (stagingPath s file)).hashes (chunksHashKey req.UploadId))
        (fmtD req.Chunk) v else (createdAt w (stagingPath s file)).hashes k) = _
    rw [hk]

/-- A successful `Upload` passed every step. -/
theorem Upload_ok_inv (d : Deps) (cfg : Config) (now : Int) (s : MultipartStorage) (w : World)
    (req : MultipartUploadReq) (file : FileHeader) (r : MultipartUploadChunkInfo)
    (h : (Upload d cfg now s w req file).1 = .ok r) :
    ∃ info v, getStartInfo d w req.UploadId = .ok info ∧
      sizeValid cfg (uploadReceiver s req) file = .ok () ∧
      (contentValid cfg (uploadReceiver s req) file.Open).1 = .ok () ∧
      d.marshalChunk (chunkRecord d cfg s req file) = some v ∧
      r = chunkRecord d cfg s req file ∧
      creatable w (stagingPath s file) := by
  cases hstart : getStartInfo d w req.UploadId with
  | error e => simp [Upload, hstart] at h
  | ok info =>
    cases hsize : sizeValid cfg (uploadReceiver s req) file with
    | error e =>
      unfold uploadReceiver at hsize
      simp [Upload, hstart, upload, hsize] at h
    | ok u =>
      by_cases hcreate : creatable w (stagingPath s file)
      swap
      · exfalso
        have hup := upload_not_creatable cfg now (uploadReceiver s req) w file hsize hcreate
        unfold uploadReceiver at hup
        simp [Upload, hstart, hup] at h
      cases hcontent : (contentValid cfg (uploadReceiver s req) file.Open).1 with
      | error e =>
        exfalso
        have hc := create_of_creatable w _ hcreate
        have hpath : fullPath { s with contentMD5 := req.ContentMd5, size := req.Size }
            file.Filename = stagingPath s file := rfl
        unfold uploadReceiver at hsize hcontent
        revert hcontent h
        simp only [Upload, hstart, upload, hsize, uploadFullPathByName_eq, hpath, hc]
        rcases contentValid cfg { s with contentMD5 := req.ContentMd5, size := req.Size }
          file.Open with ⟨r2, f2⟩
        intro h hcontent
        have hr2 : r2 = .error e := hcontent
        subst hr2
        simp at h
      | ok u2 =>
        cases hv : d.marshalChunk (chunkRecord d cfg s req file) with
        | none =>
          exfalso
          have hup := upload_ok cfg now (uploadReceiver s req) w file hsize hcontent hcreate
          unfold uploadReceiver at hup
          have hv2 : d.marshalChunk
              (MultipartUploadChunkInfo.mk req.UploadId req.Chunk req.ContentMd5
                (d.durationString (delayDuration cfg))
                (downloadPathOf { s with contentMD5 := req.ContentMd5, size := req.Size }
                  (fullPath { s with contentMD5 := req.ContentMd5, size := req.Size }
                    file.Filename))) = none := hv
          simp [Upload, hstart, hup, setChunk, hv2] at h
        | some v =>
          have hok := (Upload_ok d cfg now s w req file info v hstart hsize hcontent hcreate hv).1
          rw [hok] at h
          injection h with h
          exact ⟨info, v, rfl, rfl, rfl, rfl, h.symm, hcreate⟩

/-- The staged file after a successful `Upload`: the bytes of the uploaded file when the content
check did not run, nothing when it ran. -/
theorem Upload_staged_file (d : Deps) (cfg : Config) (now : Int) (s : MultipartStorage)
    (w : World) (req : MultipartUploadReq) (file : FileHeader) (r : MultipartUploadChunkInfo)
    (h : (Upload d cfg now s w req file).1 = .ok r) :
    (Upload d cfg now s w req file).2.2.fs (stagingPath s file) =
      some (if req.ContentMd5 ≠ "" ∧ cfg.checkContentEnabled = true then [] else file.content) := by
  obtain ⟨info, v, hstart, hsize, hcontent, hv, _, hcreate⟩ :=
    Upload_ok_inv d cfg now s w req file r h
  obtain ⟨_, _, hfs, _, _, _⟩ :=
    Upload_ok d cfg now s w req file info v hstart hsize hcontent hcreate hv
  rw [hfs]
  simp only [if_true]
  by_cases hc : req.ContentMd5 ≠ "" ∧ cfg.checkContentEnabled = true
  · rw [if_pos hc, stagedBytes_checked cfg (uploadReceiver s req) file hc.1 hc.2]
  · rw [if_neg hc]
    have : (uploadReceiver s req).contentMD5 = "" ∨ cfg.checkContentEnabled = false := by
      by_cases h1 : req.ContentMd5 = ""
      · exact Or.inl h1
      · right
        cases h2 : cfg.checkContentEnabled with
        | false => rfl
        | true => exact absurd ⟨h1, h2⟩ hc
    rw [(stagedBytes_unchecked cfg (uploadReceiver s req) file this).1]

/-- C8 fails on the code: with content checking enabled and the right checksum declared,
`Upload` of the five bytes of `hello` succeeds and the staged file `/up/tmp/S1` is empty.
`contentValid` reads the opened file to its end to hash it, and `io.Copy(dstFile, uploadFile)`
then copies from that offset on. -/
theorem Upload_checked_stages_nothing :
    md5Hex helloBytes = helloDigest ∧
      (Upload refDeps contentCheckConfig 0 (refStorage "S1") (startedWorld 1)
          { UploadId := "S1", Chunk := 0, ContentMd5 := helloDigest, Size := 5 }
          { Filename := "blob", content := helloBytes }).1 =
        .ok { UploadId := "S1", Chunk := 0, ContentMd5 := helloDigest,
              Validity := "10m0s", DownloadPath := "/tmp/S1?v=0&where=multi_upload" } ∧
      stagingPath (refStorage "S1") { Filename := "blob", content := helloBytes } = "/up/tmp/S1" ∧
      (Upload refDeps contentCheckConfig 0 (refStorage "S1") (startedWorld 1)
          { UploadId := "S1", Chunk := 0, ContentMd5 := helloDigest, Size := 5 }
          { Filename := "blob", content := helloBytes }).2.2.fs "/up/tmp/S1" = some [] ∧
      (Upload refDeps refConfig 0 (refStorage "S1") (startedWorld 1)
          { UploadId := "S1", Chunk := 0, ContentMd5 := helloDigest, Size := 5 }
          { Filename := "blob", content := helloBytes }).2.2.fs "/up/tmp/S1" = some helloBytes := by
  set_option maxRecDepth 100000 in
  exact ⟨by decide, by rfl, by decide, by rfl, by rfl⟩

/-! ## A sequence of uploads -/

theorem getStartInfo_congr (d : Deps) (w w2 : World) (uploadId : String) (h : w2.kv = w.kv) :
    getStartInfo d w2 uploadId = getStartInfo d w uploadId := by
  unfold getStartInfo World.Get
  rw [h]

theorem hsetFields_fresh (m : List (String × String)) (f v : String)
    (h : ∀ e ∈ m, e.1 ≠ f) : hsetFields m f v = (f, v) :: m := by
  unfold hsetFields
  congr 1
  exact List.filter_eq_self.mpr (fun e he => by simpa using h e he)

theorem flatMap_map_eq {α β γ : Type} (l : List α) (g : α → β) (f : β → List γ) :
    (l.map g).flatMap f = l.flatMap (fun x => f (g x)) := by
  induction l with
  | nil => rfl
  | cons a l ih => rw [List.map_cons, List.flatMap_cons, List.flatMap_cons, ih]

/-- A list of records sorted by chunk index that is a permutation of the records of the
indices `0 .. n-1` is the list of those records in the order of the indices. -/
theorem sorted_perm_range (n : Nat) (rec : Nat → MultipartUploadChunkInfo)
    (hrec : ∀ i < n, (rec i).Chunk = Int.ofNat i) (l : List MultipartUploadChunkInfo)
    (hsorted : l.Sorted chunkLE) (hperm : l.Perm ((List.range n).map rec)) :
    l = (List.range n).map rec := by
  have hmem : ∀ c ∈ l, ∃ i, i < n ∧ rec i = c := by
    intro c hc
    have := hperm.mem_iff.mp hc
    obtain ⟨i, hi, hic⟩ := List.mem_map.mp this
    exact ⟨i, List.mem_range.mp hi, hic⟩
  have hidx : (List.range n).map (fun i => (rec i).Chunk) = (List.range n).map Int.ofNat :=
    List.map_congr_left (fun i hi => hrec i (List.mem_range.mp hi))
  have hchunks : l.map (fun c => c.Chunk) = (List.range n).map Int.ofNat := by
    apply List.eq_of_perm_of_sorted (r := fun (a b : Int) => a ≤ b)
    · have := hperm.map (fun c => c.Chunk)
      rw [List.map_map] at this
      exact this.trans (by rw [← hidx]; rfl)
    · exact List.pairwise_map.mpr hsorted
    · refine List.pairwise_map.mpr ?_
      exact (List.sorted_le_range n).imp (fun h => Int.ofNat_le.mpr h)
  have hself : l = l.map (fun c => rec c.Chunk.toNat) := by
    conv_lhs => rw [← List.map_id l]
    apply List.map_congr_left
    intro c hc
    obtain ⟨i, hi, hic⟩ := hmem c hc
    rw [← hic, hrec i hi]
    simp
  rw [hself]
  have : l.map (fun c => rec c.Chunk.toNat) =
      (l.map (fun c => c.Chunk)).map (fun z => rec z.toNat) := by
    rw [List.map_map]
    rfl
  rw [this, hchunks, List.map_map]
  apply List.map_congr_left
  intro i _
  simp

theorem decodedValues_fields (d : Deps) (cfg : Config) (call : Nat → UploadCall) (l : List Nat)
    (hcodec : ∀ i ∈ l, ∃ v, d.marshalChunk (callRecord d cfg (call i)) = some v ∧ v ≠ "" ∧
      d.unmarshalChunk v = some (callRecord d cfg (call i))) :
    decodedValues d (l.map (fun i => callField d cfg (call i))) =
        l.map (fun i => callRecord d cfg (call i)) ∧
      allDecode d (l.map (fun i => callField d cfg (call i))) := by
  induction l with
  | nil => simp [decodedValues, allDecode]
  | cons i l ih =>
    obtain ⟨ih1, ih2⟩ := ih (fun j hj => hcodec j (List.mem_cons_of_mem i hj))
    obtain ⟨v, hv, hne, hu⟩ := hcodec i (List.mem_cons_self i l)
    have hfield : callField d cfg (call i) = (fmtD (call i).req.Chunk, v) := by
      simp [callField, hv]
    constructor
    · unfold decodedValues at ih1 ⊢
      rw [List.map_cons, hfield]
      simp only [List.filter_cons, hne, ne_eq, not_false_eq_true, decide_True, if_true,
        List.filterMap_cons, hu]
      rw [ih1]
      rfl
    · intro e he
      rw [List.map_cons, hfield] at he
      rcases List.mem_cons.mp he with h | h
      · rw [h]
        intro _
        simp [hu]
      · exact ih2 e h

theorem pathsFree_creatable (w : World) (paths : List String) (p : String)
    (h : pathsFree w paths) (hp : p ∈ paths) : creatable w p :=
  creatable_of_free w p (h.1 p hp).1 (h.1 p hp).2
    (fun a ha => ⟨(h.2 p hp a ha).1, fun heq => (h.2 p hp a ha).2 (by rw [heq]; exact hp)⟩)

/-- The paths stay free after a file has been created and written at one of them. -/
theorem pathsFree_step (w w2 : World) (paths : List String) (p : String) (b : Bytes)
    (h : pathsFree w paths) (hp : p ∈ paths)
    (hfs : w2.fs = fun q => if q = p then some b else w.fs q)
    (hdirs : w2.dirs = (withDirFor w p).dirs) : pathsFree w2 paths := by
  refine ⟨fun q hq => ⟨(h.1 q hq).1, ?_⟩, fun q hq a ha => ⟨?_, (h.2 q hq a ha).2⟩⟩
  · have hd := (h.1 q hq).2
    unfold World.IsDir at hd ⊢
    simp only [Bool.or_eq_false_iff, decide_eq_false_iff_not] at hd ⊢
    refine ⟨hd.1, ?_⟩
    cases hc : w2.dirs q with
    | false => rfl
    | true =>
      rw [hdirs] at hc
      rcases (withDirFor_frame w p).2.2.2.2.2.2 q hc with h1 | h1
      · rw [hd.2] at h1
        cases h1
      · exact absurd hq (h.2 p hp q h1).2
  · rw [hfs]
    have hne : a ≠ p := fun heq => (h.2 q hq a ha).2 (by rw [heq]; exact hp)
    simp only [hne, if_false]
    exact (h.2 q hq a ha).1

/-- The file `Done` on the receiver `sD` reads for the record of a call of `Upload` is the file
the call staged, when both receivers have one upload path, the staged path has the extension of
the uploaded file name and `url.Parse` splits the download path at its question mark. -/
theorem chunkFilePath_callRecord (d : Deps) (cfg : Config) (sD : MultipartStorage) (c : UploadCall)
    (hroot : c.s.uploadPath = sD.uploadPath)
    (hext : filepathExt (callPath c) = filepathExt c.file.Filename)
    (hparse : splitsAtQuery d (fileName c.s (callPath c)) c.s.version) :
    chunkFilePath d sD (callRecord d cfg c) = callPath c := by
  obtain ⟨u, hu, hp⟩ := hparse
  have hu2 : d.urlParse (callRecord d cfg c).DownloadPath = some u := hu
  unfold chunkFilePath parse
  rw [hu2]
  simp only
  rw [hp, ← hroot]
  unfold fileName
  rw [hext]
  rfl

/-- The uploads of a list of distinct indices, each staged at its own path that can be created,
with the size check passing, the content check not running and a positive delay duration: all
succeed, the hash gains one field per index and each staged file holds the bytes of its
upload. -/
theorem uploadAll_inv (d : Deps) (cfg : Config) (n : Nat) (call : Nat → UploadCall)
    (uploadId : String) (startInfo : MultipartUploadStartReq) (w0 : World) (paths : List String)
    (hstart : getStartInfo d w0 uploadId = .ok startInfo)
    (hid : ∀ i < n, (call i).req.UploadId = uploadId ∧ (call i).req.Chunk = Int.ofNat i)
    (hsize : ∀ i < n, sizeValid cfg (uploadReceiver (call i).s (call i).req) (call i).file = .ok ())
    (hcheck : ∀ i < n, (call i).req.ContentMd5 = "" ∨ cfg.checkContentEnabled = false)
    (hmarshal : ∀ i < n, ∃ v, d.marshalChunk (callRecord d cfg (call i)) = some v)
    (hwindow : 0 < delayDuration cfg)
    (hdistinct : ∀ i < n, ∀ j < n, i ≠ j → callPath (call i) ≠ callPath (call j))
    (hin : ∀ i < n, callPath (call i) ∈ paths) :
    ∀ (order done : List Nat) (w : World),
      (∀ i ∈ order, i < n) → order.Nodup → (∀ i ∈ order, i ∉ done) → (∀ i ∈ done, i < n) →
      w.kv = w0.kv →
      w.hashes (chunksHashKey uploadId) = done.map (fun i => callField d cfg (call i)) →
      (∀ i ∈ done, w.fs (callPath (call i)) = some (call i).file.content) →
      pathsFree w paths →
      ∃ wU, uploadAll d cfg (order.map call) w = some wU ∧ wU.kv = w0.kv ∧
        wU.hashes (chunksHashKey uploadId) =
          (order.reverse ++ done).map (fun i => callField d cfg (call i)) ∧
        (∀ i ∈ order.reverse ++ done, wU.fs (callPath (call i)) = some (call i).file.content) ∧
        pathsFree wU paths := by
  intro order
  induction order with
  | nil =>
    intro done w _ _ _ _ hkv hh hf hfree
    exact ⟨w, rfl, hkv, by simpa using hh, by simpa using hf, hfree⟩
  | cons i rest ih =>
    intro done w hlt hnd hfresh hdone hkv hh hf hfree
    have hi : i < n := hlt i (List.mem_cons_self i rest)
    obtain ⟨hu, hc⟩ := hid i hi
    obtain ⟨v, hv⟩ := hmarshal i hi
    have hst : getStartInfo d w (call i).req.UploadId = .ok startInfo := by
      rw [hu, getStartInfo_congr d w0 w uploadId hkv]
      exact hstart
    have hunch := stagedBytes_unchecked cfg (uploadReceiver (call i).s (call i).req) (call i).file
      (hcheck i hi)
    have hcreate : creatable w (stagingPath (call i).s (call i).file) :=
      pathsFree_creatable w paths _ hfree (hin i hi)
    obtain ⟨h1, h2, h4, _, h5, h3⟩ := Upload_ok d cfg (call i).now (call i).s w (call i).req
      (call i).file startInfo v hst (hsize i hi) hunch.2 hcreate hv
    have h3 := h3 hwindow
    have hstep : uploadAll d cfg ((i :: rest).map call) w =
        uploadAll d cfg (rest.map call)
          (Upload d cfg (call i).now (call i).s w (call i).req (call i).file).2.2 := by
      simp only [List.map_cons, uploadAll, h1]
    have hni : i ∉ done := hfresh i (List.mem_cons_self i rest)
    have hfield : callField d cfg (call i) = (fmtD (call i).req.Chunk, v) := by
      simp [callField, hv]
    have hhash : (Upload d cfg (call i).now (call i).s w (call i).req (call i).file).2.2.hashes
        (chunksHashKey uploadId) = (i :: done).map (fun i => callField d cfg (call i)) := by
      rw [h3, hu]
      simp only [if_true]
      rw [hh, List.map_cons, hfield]
      apply hsetFields_fresh
      intro e he
      obtain ⟨j, hj, hje⟩ := List.mem_map.mp he
      rw [← hje]
      simp only [callField]
      intro heq
      have hjn := (hid j (hdone j hj)).2
      rw [hjn, hc] at heq
      have := fmtD_injective _ _ heq
      have hji : j = i := by
        injection this
      exact hni (hji ▸ hj)
    have hfs : ∀ j ∈ i :: done,
        (Upload d cfg (call i).now (call i).s w (call i).req (call i).file).2.2.fs
          (callPath (call j)) = some (call j).file.content := by
      intro j hj
      rw [h4]
      rcases List.mem_cons.mp hj with hji | hjd
      · rw [hji]
        simp only [callPath, if_true]
        rw [hunch.1]
      · have hne : j ≠ i := fun h => hni (h ▸ hjd)
        have hp := hdistinct j (hdone j hjd) i hi hne
        simp only [callPath] at hp ⊢
        rw [if_neg hp]
        exact hf j hjd
    have hfree2 : pathsFree
        (Upload d cfg (call i).now (call i).s w (call i).req (call i).file).2.2 paths :=
      pathsFree_step w _ paths (stagingPath (call i).s (call i).file) _ hfree (hin i hi) h4 h5
    obtain ⟨wU, hU, hk, hH, hF, hP⟩ := ih (i :: done)
      (Upload d cfg (call i).now (call i).s w (call i).req (call i).file).2.2
      (fun j hj => hlt j (List.mem_cons_of_mem i hj))
      (List.nodup_cons.mp hnd).2
      (fun j hj hmem => by
        rcases List.mem_cons.mp hmem with h | h
        · exact (List.nodup_cons.mp hnd).1 (h ▸ hj)
        · exact hfresh j (List.mem_cons_of_mem i hj) h)
      (fun j hj => by
        rcases List.mem_cons.mp hj with h | h
        · rw [h]; exact hi
        · exact hdone j h)
      (h2.trans hkv) hhash hfs hfree2
    have hlist : (i :: rest).reverse ++ done = rest.reverse ++ (i :: done) := by
      simp [List.reverse_cons, List.append_assoc]
    rw [hstep, hlist]
    exact ⟨wU, hU, hk, hH, hF, hP⟩

/-- C3, amended: for a session that declares `n ≥ 1` chunks and holds none yet, uploading every
index `0 .. n-1` exactly once with `Upload`, in any arrival order, and then calling `Done`
succeeds and leaves the destination file equal to `b_0 ++ b_1 ++ ... ++ b_(n-1)`, provided that
the delay duration is positive, each upload passes the size check and its content check does
not run (no checksum declared or checking disabled), each record marshals to a non-empty value
that unmarshals to it, the receivers of the uploads and of `Done` have one upload path, each
staged path has the extension of the uploaded file name, `url.Parse` splits each download path
at its question mark, the staging paths of the uploads are pairwise distinct and differ from
the destination path, all these paths can be created as files (none is empty or a directory,
and no directory on the way to one of them is a file or one of the paths), and `Done` does not
compare the aggregate checksum.  The retention window does not run out in between: the model
lets no key reach the end of its expiration. -/
theorem uploads_then_Done (d : Deps) (cfg : Config) (n : Nat) (call : Nat → UploadCall)
    (order : List Nat) (uploadId : String) (startInfo : MultipartUploadStartReq)
    (sD : MultipartStorage) (nowD : Int) (w0 : World)
    (hn : 0 < n)
    (horder : order.Perm (List.range n))
    (hstart : getStartInfo d w0 uploadId = .ok startInfo)
    (hdecl : startInfo.Chunks = Int.ofNat n)
    (hempty : w0.hashes (chunksHashKey uploadId) = [])
    (hid : ∀ i < n, (call i).req.UploadId = uploadId ∧ (call i).req.Chunk = Int.ofNat i)
    (hsize : ∀ i < n, sizeValid cfg (uploadReceiver (call i).s (call i).req) (call i).file = .ok ())
    (hcheck : ∀ i < n, (call i).req.ContentMd5 = "" ∨ cfg.checkContentEnabled = false)
    (hcodec : ∀ i < n, ∃ v, d.marshalChunk (callRecord d cfg (call i)) = some v ∧ v ≠ "" ∧
      d.unmarshalChunk v = some (callRecord d cfg (call i)))
    (hwindow : 0 < delayDuration cfg)
    (hroot : ∀ i < n, (call i).s.uploadPath = sD.uploadPath)
    (hext : ∀ i < n, filepathExt (callPath (call i)) = filepathExt (call i).file.Filename)
    (hparse : ∀ i < n, splitsAtQuery d (fileName (call i).s (callPath (call i))) (call i).s.version)
    (hdistinct : ∀ i < n, ∀ j < n, i ≠ j → callPath (call i) ≠ callPath (call j))
    (hdest : ∀ i < n, callPath (call i) ≠ destPath sD startInfo)
    (hfree : pathsFree w0
      (destPath sD startInfo :: (List.range n).map (fun i => callPath (call i))))
    (hmd5 : sD.contentMD5 = "" ∨ cfg.checkContentEnabled = false) :
    ∃ wU, uploadAll d cfg (order.map call) w0 = some wU ∧
      (∃ resp, (Done d cfg nowD sD wU uploadId).1 = .ok resp) ∧
      (Done d cfg nowD sD wU uploadId).2.2.fs (destPath sD startInfo) =
        some ((List.range n).flatMap (fun i => (call i).file.content)) := by
  have hlt : ∀ i ∈ order, i < n := fun i hi => List.mem_range.mp (horder.mem_iff.mp hi)
  have hnd : order.Nodup := horder.nodup_iff.mpr (List.nodup_range n)
  have hresolve : ∀ i < n, chunkFilePath d sD (callRecord d cfg (call i)) = callPath (call i) :=
    fun i hi => chunkFilePath_callRecord d cfg sD (call i) (hroot i hi) (hext i hi) (hparse i hi)
  obtain ⟨wU, hU, hkv, hH, hF, hP⟩ := uploadAll_inv d cfg n call uploadId startInfo w0
    (destPath sD startInfo :: (List.range n).map (fun i => callPath (call i))) hstart hid
    hsize hcheck (fun i hi => (hcodec i hi).imp (fun v hv => hv.1)) hwindow hdistinct
    (fun i hi => List.mem_cons_of_mem _
      (List.mem_map.mpr ⟨i, List.mem_range.mpr hi, rfl⟩))
    order [] w0 hlt hnd
    (fun _ _ h => by simp at h) (fun _ h => by simp at h) rfl (by simpa using hempty)
    (fun _ h => by simp at h) hfree
  rw [List.append_nil] at hH hF
  have hcreate : creatable wU (destPath sD startInfo) :=
    pathsFree_creatable wU _ _ hP (List.mem_cons_self _ _)
  have hrevlt : ∀ i ∈ order.reverse, i < n := fun i hi => hlt i (List.mem_reverse.mp hi)
  obtain ⟨hdec, hall⟩ := decodedValues_fields d cfg call order.reverse
    (fun i hi => hcodec i (hrevlt i hi))
  rw [← hH] at hdec hall
  have hne : wU.hashes (chunksHashKey uploadId) ≠ [] := by
    rw [hH]
    intro h0
    have hlen := congrArg List.length h0
    rw [List.length_map, List.length_reverse, horder.length_eq, List.length_range] at hlen
    simp at hlen
    omega
  have hget := (getChunks_ok_iff d wU uploadId _).mpr ⟨hne, hall, rfl⟩
  have hperm := getChunks_perm_decoded d wU uploadId _ hget
  rw [hdec] at hperm
  have hperm2 : (sortSliceStable (decodedValues d (d.mapRange (wU.hashes (chunksHashKey uploadId))))).Perm
      ((List.range n).map (fun i => callRecord d cfg (call i))) :=
    hperm.trans (((List.reverse_perm order).trans horder).map _)
  have hchunks := sorted_perm_range n (fun i => callRecord d cfg (call i))
    (fun i hi => (hid i hi).2) _ (sortSliceStable_sorted _) hperm2
  rw [hchunks] at hget
  have hstartU : getStartInfo d wU uploadId = .ok startInfo := by
    rw [getStartInfo_congr d w0 wU uploadId hkv]
    exact hstart
  have hmemF : ∀ i < n, wU.fs (callPath (call i)) = some (call i).file.content := by
    intro i hi
    apply hF i
    exact List.mem_reverse.mpr (horder.mem_iff.mpr (List.mem_range.mpr hi))
  have hfiles : ∀ c ∈ (List.range n).map (fun i => callRecord d cfg (call i)),
      wU.fs (chunkFilePath d sD c) ≠ none := by
    intro c hc
    obtain ⟨i, hi, hic⟩ := List.mem_map.mp hc
    rw [← hic, hresolve i (List.mem_range.mp hi), hmemF i (List.mem_range.mp hi)]
    simp
  have hnoalias : ∀ c ∈ (List.range n).map (fun i => callRecord d cfg (call i)),
      chunkFilePath d sD c ≠ destPath sD startInfo := by
    intro c hc
    obtain ⟨i, hi, hic⟩ := List.mem_map.mp hc
    rw [← hic, hresolve i (List.mem_range.mp hi)]
    exact hdest i (List.mem_range.mp hi)
  have hlen : (((List.range n).map (fun i => callRecord d cfg (call i))).length : Int) =
      startInfo.Chunks := by
    rw [hdecl, List.length_map, List.length_range]
    rfl
  obtain ⟨resp, hresp⟩ := Done_ok_of_files d cfg nowD sD wU uploadId startInfo _ hstartU hget hlen
    hfiles hmd5 hcreate
  refine ⟨wU, hU, ⟨resp, hresp⟩, ?_⟩
  rw [(Done_fs_of_ok d cfg nowD sD wU uploadId startInfo _ resp hstartU hget hresp hnoalias).2,
    flatMap_map_eq]
  congr 1
  apply flatMap_ext
  intro i hi
  rw [hresolve i (List.mem_range.mp hi), hmemF i (List.mem_range.mp hi)]
  rfl

/-- C3 for three chunks that arrive in the order 2, 0, 1, each uploaded by a receiver of its
own: the destination holds the three bytes in the order of the indices. -/
theorem uploads_then_Done_witness :
    [2, 0, 1].Perm (List.range 3) ∧
      (List.range 3).flatMap (fun i => (refCall i).file.content) = [65, 66, 67] ∧
      ∃ wU, uploadAll refDeps refConfig ([2, 0, 1].map refCall) (startedWorld 3) = some wU ∧
        (∃ resp, (Done refDeps refConfig 0 (refStorage "S1") wU "S1").1 = .ok resp) ∧
        (Done refDeps refConfig 0 (refStorage "S1") wU "S1").2.2.fs
            (destPath (refStorage "S1") { Filename := "a.png", Chunks := 3, Type_ := 11 }) =
          some ((List.range 3).flatMap (fun i => (refCall i).file.content)) :=
  ⟨by decide, by decide,
    uploads_then_Done refDeps refConfig 3 refCall [2, 0, 1] "S1"
      { Filename := "a.png", Chunks := 3, Type_ := 11 } (refStorage "S1") 0 (startedWorld 3)
      (by decide) (by decide) (by rfl) rfl (by rfl)
      (fun _ _ => ⟨rfl, rfl⟩)
      (fun _ _ => by simp [sizeValid, uploadReceiver, refCall])
      (fun _ _ => Or.inl rfl)
      (by
        intro i hi
        interval_cases i
        · exact ⟨_, rfl, by decide, by rfl⟩
        · exact ⟨_, rfl, by decide, by rfl⟩
        · exact ⟨_, rfl, by decide, by rfl⟩)
      (by decide)
      (fun _ _ => rfl)
      (by
        intro i hi
        interval_cases i <;> decide)
      (by
        intro i hi
        interval_cases i
        · exact ⟨_, by rfl, by decide⟩
        · exact ⟨_, by rfl, by decide⟩
        · exact ⟨_, by rfl, by decide⟩)
      (by
        intro i hi j hj hne
        interval_cases i <;> interval_cases j <;> first | exact absurd rfl hne | decide)
      (by
        intro i hi
        interval_cases i <;> decide)
      (by decide)
      (Or.inl rfl)⟩

/-- A download path that does not lead back to the staged file.  The receiver `U.0` stages the
file `blob` at `/up/tmp/U.0`; `upload` builds the download path from the extension of that
path, `.0`, so the record reads `/tmp/U.0.0`; `Done` then looks for the chunk file at
`/up/tmp/U.0.0`, finds none and returns the internal server error, although the one chunk of
the session was uploaded. -/
theorem dotted_id_example :
    filepathExt (callPath dottedUpload) = ".0" ∧ filepathExt dottedUpload.file.Filename = "" ∧
      (Upload refDeps refConfig 0 (refStorage "U.0") (startedWorld 1) dottedUpload.req
          dottedUpload.file).1 =
        .ok { UploadId := "S1", Chunk := 0, ContentMd5 := "", Validity := "10m0s",
              DownloadPath := "/tmp/U.0.0?v=0&where=multi_upload" } ∧
      (afterUpload refDeps refConfig dottedUpload (startedWorld 1)).fs "/up/tmp/U.0" = some [1] ∧
      chunkFilePath refDeps (refStorage "S1")
          { UploadId := "S1", Chunk := 0, ContentMd5 := "", Validity := "10m0s",
            DownloadPath := "/tmp/U.0.0?v=0&where=multi_upload" } = "/up/tmp/U.0.0" ∧
      (Done refDeps refConfig 0 (refStorage "S1")
          (afterUpload refDeps refConfig dottedUpload (startedWorld 1)) "S1").1 =
        .error internalServerError :=
  ⟨by decide, by decide, by rfl, by rfl, by decide, by rfl⟩

/-- The call `os.Create` under a file: `/up/tmp` is a file, so `os.MkdirAll` is not called for
it, `os.Create` fails on `/up/tmp/U0` and on `/up/tmp/S1.png`, and `Upload` and `Done` return
the internal server error and leave the files as they were.  When `/up` is a file,
`os.MkdirAll` fails on `/up/tmp` and makes no directory, and `os.Create` fails again; when
`/up/tmp/U0` is a directory, `os.Create` fails on it.  In the empty filesystem `os.MkdirAll`
makes `/up` and `/up/tmp` and `Upload` succeeds. -/
theorem create_under_file_example :
    ¬ creatable blockedWorld "/up/tmp/U0" ∧ ¬ creatable blockedWorld "/up/tmp/S1.png" ∧
      (Upload refDeps refConfig 0 (refStorage "U0") blockedWorld firstUpload.req
          firstUpload.file).1 = .error internalServerError ∧
      (Upload refDeps refConfig 0 (refStorage "U0") blockedWorld firstUpload.req
          firstUpload.file).2.2.fs "/up/tmp/U0" = none ∧
      (Done refDeps refConfig 0 (refStorage "S1") blockedWorld "S1").1 =
        .error internalServerError ∧
      (Done refDeps refConfig 0 (refStorage "S1") blockedWorld "S1").2.2.fs "/up/tmp/S1.png" =
        none ∧
      blockedAboveWorld.MkdirAll "/up/tmp" = none ∧
      (Upload refDeps refConfig 0 (refStorage "U0") blockedAboveWorld firstUpload.req
          firstUpload.file).1 = .error internalServerError ∧
      (Upload refDeps refConfig 0 (refStorage "U0") blockedAboveWorld firstUpload.req
          firstUpload.file).2.2.dirs "/up/tmp" = false ∧
      ¬ creatable dirInPlaceWorld "/up/tmp/U0" ∧
      (Upload refDeps refConfig 0 (refStorage "U0") dirInPlaceWorld firstUpload.req
          firstUpload.file).1 = .error internalServerError ∧
      (afterUpload refDeps refConfig firstUpload (startedWorld 1)).dirs "/up" = true ∧
      (afterUpload refDeps refConfig firstUpload (startedWorld 1)).dirs "/up/tmp" = true ∧
      (afterUpload refDeps refConfig firstUpload (startedWorld 1)).fs "/up/tmp/U0" = some [1] :=
  ⟨by decide, by decide, by rfl, by rfl, by rfl, by rfl, by rfl, by rfl, by rfl, by decide,
    by rfl, by rfl, by rfl, by rfl⟩

/-- C3 fails when the chunks are staged by receivers with one resource id: chunk 0 (bytes
`AA`) and chunk 1 (byte `B`) are uploaded once each, in this order, under the file name `blob`
by receivers with the resource id `S1`; both are staged at `/up/tmp/S1`, so the second upload
replaces the first, `Done` succeeds, and the destination holds `BB`, not `AAB`. -/
theorem uploads_same_receiver_counterexample :
    (uploadAll refDeps refConfig sameReceiverCalls (startedWorld 2)).map
        (fun wU => (Done refDeps refConfig 0 (refStorage "S1") wU "S1").1) =
      some (.ok { UploadId := "S1", DownloadPath := "/tmp/S1.png?v=0&where=multi_upload",
                  Validity := "10m0s" }) ∧
    (uploadAll refDeps refConfig sameReceiverCalls (startedWorld 2)).map
        (fun wU => (Done refDeps refConfig 0 (refStorage "S1") wU "S1").2.2.fs "/up/tmp/S1.png") =
      some (some [66, 66]) ∧
    destPath (refStorage "S1") { Filename := "a.png", Chunks := 2, Type_ := 11 } = "/up/tmp/S1.png" ∧
    ([66, 66] : Bytes) ≠ [65, 65] ++ [66] :=
  ⟨by rfl, by rfl, by decide, by decide⟩

/-! ## Uploading an index again -/

theorem mem_decodedValues (d : Deps) (m : List (String × String)) (c : MultipartUploadChunkInfo) :
    c ∈ decodedValues d m ↔ ∃ e ∈ m, e.2 ≠ "" ∧ d.unmarshalChunk e.2 = some c := by
  simp only [decodedValues, List.mem_filterMap, List.mem_filter, decide_eq_true_eq]
  constructor
  · rintro ⟨e, ⟨he, hne⟩, hu⟩
    exact ⟨e, he, hne, hu⟩
  · rintro ⟨e, he, hne, hu⟩
    exact ⟨e, ⟨he, hne⟩, hu⟩

theorem hsetFields_twice (m : List (String × String)) (f v1 v2 : String) :
    hsetFields (hsetFields m f v1) f v2 = (f, v2) :: m.filter (fun e => decide (e.1 ≠ f)) := by
  simp [hsetFields, List.filter_filter]

theorem filter_field_hset (m : List (String × String)) (f v : String) :
    ((f, v) :: m.filter (fun e => decide (e.1 ≠ f))).filter (fun e => decide (e.1 = f)) =
      [(f, v)] := by
  simp only [List.filter_cons, decide_True, if_true, List.filter_filter]
  congr 1
  apply List.filter_eq_nil_iff.mpr
  intro e _
  by_cases h : e.1 = f <;> simp [h]

/-- C5, amended: with a positive delay duration, when chunk index `i` of a session is uploaded
twice and both uploads succeed, the hash holds exactly one field for `i`, with the record of
the second upload, and as many fields as after the first upload.  When moreover the content
check of the second upload did not run, its staged file holds exactly the bytes of the second
upload; and whenever `Done` then succeeds on a store whose records sit under the field of their
own index, the second record surviving the JSON round trip, the receivers of the second upload
and of `Done` having one upload path, the staged path having the extension of the uploaded file
name, `url.Parse` splitting the download path at its question mark and no chunk file being the
destination, the record of the second upload is the only record of index `i` that `Done` merges
and the bytes merged for it are those of the second upload. -/
theorem reupload_last_wins (d : Deps) (cfg : Config) (c1 c2 : UploadCall) (w : World)
    (r1 r2 : MultipartUploadChunkInfo) (v2 : String)
    (hid : c2.req.UploadId = c1.req.UploadId) (hidx : c2.req.Chunk = c1.req.Chunk)
    (h1 : (Upload d cfg c1.now c1.s w c1.req c1.file).1 = .ok r1)
    (h2 : (Upload d cfg c2.now c2.s (afterUpload d cfg c1 w) c2.req c2.file).1 = .ok r2)
    (hv2 : d.marshalChunk r2 = some v2)
    (hwindow : 0 < delayDuration cfg) :
    ((afterUpload d cfg c2 (afterUpload d cfg c1 w)).hashes (chunksHashKey c1.req.UploadId)).filter
        (fun e => decide (e.1 = fmtD c1.req.Chunk)) = [(fmtD c1.req.Chunk, v2)] ∧
      ((afterUpload d cfg c2 (afterUpload d cfg c1 w)).hashes (chunksHashKey c1.req.UploadId)).length =
        ((afterUpload d cfg c1 w).hashes (chunksHashKey c1.req.UploadId)).length ∧
      ((c2.req.ContentMd5 = "" ∨ cfg.checkContentEnabled = false) →
        (afterUpload d cfg c2 (afterUpload d cfg c1 w)).fs (callPath c2) = some c2.file.content ∧
        ∀ (startInfo : MultipartUploadStartReq) (sD : MultipartStorage) (nowD : Int)
          (chunks : List MultipartUploadChunkInfo) (resp : MultipartUploadDoneResp),
          v2 ≠ "" → d.unmarshalChunk v2 = some r2 →
          (∀ e ∈ w.hashes (chunksHashKey c1.req.UploadId), ∀ c,
            d.unmarshalChunk e.2 = some c → e.1 = fmtD c.Chunk) →
          getStartInfo d (afterUpload d cfg c2 (afterUpload d cfg c1 w)) c1.req.UploadId =
            .ok startInfo →
          getChunks d (afterUpload d cfg c2 (afterUpload d cfg c1 w)) c1.req.UploadId =
            .ok chunks →
          (Done d cfg nowD sD (afterUpload d cfg c2 (afterUpload d cfg c1 w))
            c1.req.UploadId).1 = .ok resp →
          c2.s.uploadPath = sD.uploadPath →
          filepathExt (callPath c2) = filepathExt c2.file.Filename →
          splitsAtQuery d (fileName c2.s (callPath c2)) c2.s.version →
          (∀ c ∈ chunks, chunkFilePath d sD c ≠ destPath sD startInfo) →
          ∃ pre post, chunks = pre ++ r2 :: post ∧
            (∀ c ∈ pre ++ post, c.Chunk ≠ c1.req.Chunk) ∧
            (Done d cfg nowD sD (afterUpload d cfg c2 (afterUpload d cfg c1 w))
                c1.req.UploadId).2.2.fs (destPath sD startInfo) =
              some (pre.flatMap (fun c =>
                  ((afterUpload d cfg c2 (afterUpload d cfg c1 w)).fs
                    (chunkFilePath d sD c)).getD []) ++
                c2.file.content ++
                post.flatMap (fun c =>
                  ((afterUpload d cfg c2 (afterUpload d cfg c1 w)).fs
                    (chunkFilePath d sD c)).getD []))) := by
  obtain ⟨info1, v1, hs1, hz1, hc1, hm1, _, hcr1⟩ :=
    Upload_ok_inv d cfg c1.now c1.s w c1.req c1.file r1 h1
  obtain ⟨_, _, _, _, _, hH1⟩ :=
    Upload_ok d cfg c1.now c1.s w c1.req c1.file info1 v1 hs1 hz1 hc1 hcr1 hm1
  have hH1 := hH1 hwindow
  obtain ⟨info2, v2b, hs2, hz2, hc2, hm2, hr2, hcr2⟩ :=
    Upload_ok_inv d cfg c2.now c2.s (afterUpload d cfg c1 w) c2.req c2.file r2 h2
  have hvv : v2b = v2 := by
    rw [← hr2, hv2] at hm2
    injection hm2 with h
    exact h.symm
  subst hvv
  obtain ⟨_, _, hF2, _, _, hH2⟩ := Upload_ok d cfg c2.now c2.s (afterUpload d cfg c1 w) c2.req
    c2.file info2 v2b hs2 hz2 hc2 hcr2 hm2
  have hH2 := hH2 hwindow
  have hW1 : (afterUpload d cfg c1 w).hashes (chunksHashKey c1.req.UploadId) =
      hsetFields (w.hashes (chunksHashKey c1.req.UploadId)) (fmtD c1.req.Chunk) v1 := by
    unfold afterUpload
    rw [hH1]
    simp
  have hW2 : (afterUpload d cfg c2 (afterUpload d cfg c1 w)).hashes (chunksHashKey c1.req.UploadId) =
      (fmtD c1.req.Chunk, v2b) ::
        (w.hashes (chunksHashKey c1.req.UploadId)).filter
          (fun e => decide (e.1 ≠ fmtD c1.req.Chunk)) := by
    show (Upload d cfg c2.now c2.s (afterUpload d cfg c1 w) c2.req c2.file).2.2.hashes _ = _
    rw [hH2, hid, hidx]
    simp only [if_true]
    rw [hW1, hsetFields_twice]
  refine ⟨?_, ?_, ?_⟩
  · rw [hW2]
    exact filter_field_hset _ _ _
  · rw [hW2, hW1]
    simp [hsetFields]
  · intro hcheck
    have hFile : (afterUpload d cfg c2 (afterUpload d cfg c1 w)).fs (callPath c2) =
        some c2.file.content := by
      show (Upload d cfg c2.now c2.s (afterUpload d cfg c1 w) c2.req c2.file).2.2.fs _ = _
      rw [hF2]
      simp only [callPath, if_true]
      rw [(stagedBytes_unchecked cfg (uploadReceiver c2.s c2.req) c2.file hcheck).1]
    refine ⟨hFile, ?_⟩
    intro startInfo sD nowD chunks resp hv2ne hrt hkeyed hstart hchunks hdone hroot hext hparse
      hnoalias
    have hresolve : chunkFilePath d sD r2 = callPath c2 := by
      rw [hr2]
      exact chunkFilePath_callRecord d cfg sD c2 hroot hext hparse
    have hperm := getChunks_perm_decoded d _ _ chunks hchunks
    have hdec : decodedValues d
        ((afterUpload d cfg c2 (afterUpload d cfg c1 w)).hashes (chunksHashKey c1.req.UploadId)) =
        r2 :: decodedValues d ((w.hashes (chunksHashKey c1.req.UploadId)).filter
          (fun e => decide (e.1 ≠ fmtD c1.req.Chunk))) := by
      rw [hW2]
      simp [decodedValues, List.filter_cons, hv2ne, hrt]
    rw [hdec] at hperm
    have hmem : r2 ∈ chunks := hperm.mem_iff.mpr (List.mem_cons_self _ _)
    obtain ⟨pre, post, hsplit⟩ := List.append_of_mem hmem
    have hrest : (pre ++ post).Perm (decodedValues d
        ((w.hashes (chunksHashKey c1.req.UploadId)).filter
          (fun e => decide (e.1 ≠ fmtD c1.req.Chunk)))) := by
      rw [hsplit] at hperm
      exact (List.perm_middle.symm.trans hperm).cons_inv
    refine ⟨pre, post, hsplit, ?_, ?_⟩
    · intro c hc hci
      have hc2 := hrest.mem_iff.mp hc
      obtain ⟨e, he, _, hu⟩ := (mem_decodedValues d _ c).mp hc2
      obtain ⟨he1, he2⟩ := List.mem_filter.mp he
      have hk := hkeyed e he1 c hu
      rw [hci] at hk
      simp only [decide_eq_true_eq] at he2
      exact he2 hk
    · rw [(Done_fs_of_ok d cfg nowD sD _ _ startInfo chunks resp hstart hchunks hdone hnoalias).2,
        hsplit, List.flatMap_append, List.flatMap_cons, hresolve, hFile]
      simp [List.append_assoc]

/-- C5 at chunk 0 of a session of one chunk, uploaded with the byte 1 and then with the byte 2:
one field, the second record, and a destination that holds the byte 2. -/
theorem reupload_last_wins_witness :
    (Upload refDeps refConfig 0 (refStorage "U0") (afterUpload refDeps refConfig firstUpload
        (startedWorld 1)) secondUpload.req secondUpload.file).1 = .ok secondRecord ∧
      ((afterUpload refDeps refConfig secondUpload (afterUpload refDeps refConfig firstUpload
          (startedWorld 1))).hashes (chunksHashKey "S1")).filter
          (fun e => decide (e.1 = fmtD 0)) =
        [(fmtD 0, "S1\n0\n\n10m0s\n/tmp/U0?v=0&where=multi_upload")] ∧
      (afterUpload refDeps refConfig secondUpload (afterUpload refDeps refConfig firstUpload
          (startedWorld 1))).fs (callPath secondUpload) = some [2] ∧
      (∃ pre post, [secondRecord] = pre ++ secondRecord :: post ∧
        (∀ c ∈ pre ++ post, c.Chunk ≠ 0) ∧
        (Done refDeps refConfig 0 (refStorage "S1") (afterUpload refDeps refConfig secondUpload
            (afterUpload refDeps refConfig firstUpload (startedWorld 1))) "S1").2.2.fs
          (destPath (refStorage "S1") { Filename := "a.png", Chunks := 1, Type_ := 11 }) =
            some (pre.flatMap (fun c =>
                ((afterUpload refDeps refConfig secondUpload (afterUpload refDeps refConfig
                  firstUpload (startedWorld 1))).fs
                  (chunkFilePath refDeps (refStorage "S1") c)).getD []) ++
              [2] ++
              post.flatMap (fun c =>
                ((afterUpload refDeps refConfig secondUpload (afterUpload refDeps refConfig
                  firstUpload (startedWorld 1))).fs
                  (chunkFilePath refDeps (refStorage "S1") c)).getD []))) ∧
      (Done refDeps refConfig 0 (refStorage "S1") (afterUpload refDeps refConfig secondUpload
          (afterUpload refDeps refConfig firstUpload (startedWorld 1))) "S1").2.2.fs
        "/up/tmp/S1.png" = some [2] :=
  have h := reupload_last_wins refDeps refConfig firstUpload secondUpload (startedWorld 1)
    { UploadId := "S1", Chunk := 0, ContentMd5 := "", Validity := "10m0s",
      DownloadPath := "/tmp/U0?v=0&where=multi_upload" }
    secondRecord "S1\n0\n\n10m0s\n/tmp/U0?v=0&where=multi_upload"
    rfl rfl (by rfl) (by rfl) (by rfl) (by decide)
  ⟨by rfl, h.1, (h.2.2 (Or.inl rfl)).1,
    (h.2.2 (Or.inl rfl)).2 { Filename := "a.png", Chunks := 1, Type_ := 11 } (refStorage "S1") 0
      [secondRecord]
      { UploadId := "S1", DownloadPath := "/tmp/S1.png?v=0&where=multi_upload",
        Validity := "10m0s" }
      (by decide) (by rfl)
      (by
        intro e he
        have h0 : (startedWorld 1).hashes (chunksHashKey firstUpload.req.UploadId) = [] := by rfl
        rw [h0] at he
        simp at he)
      (by rfl) (by rfl) (by rfl) rfl (by decide) ⟨_, by rfl, by decide⟩
      (by
        intro c hc
        rw [List.mem_singleton.mp hc]
        decide),
    by rfl⟩

/-- C5 fails when the staged file is the destination of `Done`: chunk 0 is uploaded with the
byte 1 and then with the byte 2 by the receiver `S1` under the name `c.png`; both uploads
succeed, the staged file `/up/tmp/S1.png` holds the byte 2, `Done` succeeds, and the
destination, the same file, holds no byte: the bytes of the second upload are not merged. -/
theorem reupload_alias_counterexample :
    (Upload refDeps refConfig 0 (refStorage "S1") (startedWorld 1) (aliasUpload 1).req
        (aliasUpload 1).file).1 =
      .ok { UploadId := "S1", Chunk := 0, ContentMd5 := "", Validity := "10m0s",
            DownloadPath := "/tmp/S1.png?v=0&where=multi_upload" } ∧
    (Upload refDeps refConfig 0 (refStorage "S1")
        (afterUpload refDeps refConfig (aliasUpload 1) (startedWorld 1)) (aliasUpload 2).req
        (aliasUpload 2).file).1 =
      .ok { UploadId := "S1", Chunk := 0, ContentMd5 := "", Validity := "10m0s",
            DownloadPath := "/tmp/S1.png?v=0&where=multi_upload" } ∧
    (afterUpload refDeps refConfig (aliasUpload 2)
        (afterUpload refDeps refConfig (aliasUpload 1) (startedWorld 1))).fs "/up/tmp/S1.png" =
      some [2] ∧
    (Done refDeps refConfig 0 (refStorage "S1") (afterUpload refDeps refConfig (aliasUpload 2)
        (afterUpload refDeps refConfig (aliasUpload 1) (startedWorld 1))) "S1").1 =
      .ok { UploadId := "S1", DownloadPath := "/tmp/S1.png?v=0&where=multi_upload",
            Validity := "10m0s" } ∧
    (Done refDeps refConfig 0 (refStorage "S1") (afterUpload refDeps refConfig (aliasUpload 2)
        (afterUpload refDeps refConfig (aliasUpload 1) (startedWorld 1))) "S1").2.2.fs
      "/up/tmp/S1.png" = some [] :=
  ⟨by rfl, by rfl, by rfl, by rfl, by rfl⟩

/-! ## The delay queue -/

theorem foldl_RemoveAll_frame (l : List String) :
    ∀ w : World, (l.foldl World.RemoveAll w).queue = w.queue ∧
      (l.foldl World.RemoveAll w).kv = w.kv ∧
      (l.foldl World.RemoveAll w).hashes = w.hashes ∧
      (l.foldl World.RemoveAll w).hashTTL = w.hashTTL ∧
      ∀ q, (l.foldl World.RemoveAll w).fs q =
        if l.any (fun p => coveredBy p q) = true then none else w.fs q := by
  induction l with
  | nil => intro w; simp
  | cons p l ih =>
    intro w
    obtain ⟨h1, h2, h3, h4, h5⟩ := ih (w.RemoveAll p)
    refine ⟨h1, h2, h3, h4, ?_⟩
    intro q
    rw [List.foldl_cons, h5 q]
    simp only [World.RemoveAll, List.any_cons]
    by_cases hc : coveredBy p q = true
    · simp [hc]
    · simp [hc]

theorem mem_zrangeByScore (q : List (String × Int)) (lo hi : Int) (p : String) :
    p ∈ zrangeByScore q lo hi ↔ ∃ sc, (p, sc) ∈ q ∧ lo ≤ sc ∧ sc ≤ hi := by
  unfold zrangeByScore
  rw [List.mem_map]
  constructor
  · rintro ⟨e, he, hp⟩
    have he2 := (List.perm_insertionSort zsetLE _).mem_iff.mp he
    obtain ⟨hq, hr⟩ := List.mem_filter.mp he2
    simp only [decide_eq_true_eq] at hr
    refine ⟨e.2, ?_, hr⟩
    rw [← hp]
    exact hq
  · rintro ⟨sc, hq, hr⟩
    refine ⟨(p, sc), ?_, rfl⟩
    apply (List.perm_insertionSort zsetLE _).mem_iff.mpr
    exact List.mem_filter.mpr ⟨hq, by simpa using hr⟩

theorem tick_queue (now : Int) (w : World) :
    (StorageDelayJob.tick now w).2.queue = zremRangeByScore w.queue (-1) (now / 1000000000) := by
  unfold StorageDelayJob.tick
  exact (foldl_RemoveAll_frame _ _).1

theorem mem_tick (now : Int) (w : World) (p : String) :
    p ∈ (StorageDelayJob.tick now w).1 ↔
      ∃ sc, (p, sc) ∈ w.queue ∧ -1 ≤ sc ∧ sc ≤ now / 1000000000 :=
  mem_zrangeByScore w.queue (-1) (now / 1000000000) p

theorem mem_zadd (q : List (String × Int)) (member : String) (score : Int) (e : String × Int) :
    e ∈ zaddMembers q member score ↔ e = (member, score) ∨ (e ∈ q ∧ e.1 ≠ member) := by
  simp [zaddMembers, List.mem_filter]

/-- An entry that every step spares stays in the queue and is never given to `os.RemoveAll`. -/
theorem runQueueOps_spared (cfg : Config) (path : String) (due : Int) (ops : List QueueOp) :
    ∀ w : World, (∀ op ∈ ops, QueueOp.sparing path due op) →
      (path, due) ∈ w.queue → (∀ sc, (path, sc) ∈ w.queue → sc = due) →
      path ∉ (runQueueOps cfg ops w).1 ∧ (path, due) ∈ (runQueueOps cfg ops w).2.queue ∧
        ∀ sc, (path, sc) ∈ (runQueueOps cfg ops w).2.queue → sc = due := by
  induction ops with
  | nil => intro w _ hin huniq; exact ⟨by simp [runQueueOps], hin, huniq⟩
  | cons op rest ih =>
    intro w hops hin huniq
    have hop := hops op (List.mem_cons_self op rest)
    have hstep : path ∉ (op.run cfg w).1 ∧ (path, due) ∈ (op.run cfg w).2.queue ∧
        ∀ sc, (path, sc) ∈ (op.run cfg w).2.queue → sc = due := by
      cases op with
      | tick now =>
        simp only [QueueOp.sparing] at hop
        simp only [QueueOp.run]
        refine ⟨?_, ?_, ?_⟩
        · rw [mem_tick]
          rintro ⟨sc, hsc, _, hle⟩
          rw [huniq sc hsc] at hle
          omega
        · rw [tick_queue]
          exact List.mem_filter.mpr ⟨hin, by simp; omega⟩
        · intro sc hsc
          rw [tick_queue] at hsc
          exact huniq sc (List.mem_filter.mp hsc).1
      | add filePath now =>
        simp only [QueueOp.sparing] at hop
        simp only [QueueOp.run, StorageDelayJob.Add]
        refine ⟨by simp, ?_, ?_⟩
        · exact (mem_zadd _ _ _ _).mpr (Or.inr ⟨hin, fun h => hop h.symm⟩)
        · intro sc hsc
          rcases (mem_zadd _ _ _ _).mp hsc with h | h
          · injection h with h1 _
            exact absurd h1.symm hop
          · exact huniq sc h.1
      | remove filePath =>
        simp only [QueueOp.sparing] at hop
        simp only [QueueOp.run, StorageDelayJob.Remove]
        refine ⟨by simp, ?_, ?_⟩
        · exact List.mem_filter.mpr ⟨hin, by simpa using fun h => hop h.symm⟩
        · intro sc hsc
          exact huniq sc (List.mem_filter.mp hsc).1
    obtain ⟨h1, h2, h3⟩ := hstep
    obtain ⟨i1, i2, i3⟩ := ih (op.run cfg w).2
      (fun o ho => hops o (List.mem_cons_of_mem op ho)) h2 h3
    refine ⟨?_, i2, i3⟩
    simp only [runQueueOps, List.mem_append]
    rintro (h | h)
    · exact h1 h
    · exact i1 h

/-- A path without an entry is not given to `os.RemoveAll` and gets no entry, as long as `Add`
is not called for it. -/
theorem runQueueOps_absent (cfg : Config) (path : String) (ops : List QueueOp) :
    ∀ w : World, (∀ op ∈ ops, QueueOp.notAdding path op) →
      (∀ sc, (path, sc) ∉ w.queue) →
      path ∉ (runQueueOps cfg ops w).1 ∧ ∀ sc, (path, sc) ∉ (runQueueOps cfg ops w).2.queue := by
  induction ops with
  | nil => intro w _ hno; exact ⟨by simp [runQueueOps], hno⟩
  | cons op rest ih =>
    intro w hops hno
    have hop := hops op (List.mem_cons_self op rest)
    have hstep : path ∉ (op.run cfg w).1 ∧ ∀ sc, (path, sc) ∉ (op.run cfg w).2.queue := by
      cases op with
      | tick now =>
        simp only [QueueOp.run]
        refine ⟨?_, ?_⟩
        · rw [mem_tick]
          rintro ⟨sc, hsc, _⟩
          exact hno sc hsc
        · intro sc hsc
          rw [tick_queue] at hsc
          exact hno sc (List.mem_filter.mp hsc).1
      | add filePath now =>
        simp only [QueueOp.notAdding] at hop
        simp only [QueueOp.run, StorageDelayJob.Add]
        refine ⟨by simp, ?_⟩
        intro sc hsc
        rcases (mem_zadd _ _ _ _).mp hsc with h | h
        · injection h with h1 _
          exact hop h1.symm
        · exact hno sc h.1
      | remove filePath =>
        simp only [QueueOp.run, StorageDelayJob.Remove]
        refine ⟨by simp, ?_⟩
        intro sc hsc
        exact hno sc (List.mem_filter.mp hsc).1
    obtain ⟨h1, h2⟩ := hstep
    obtain ⟨i1, i2⟩ := ih (op.run cfg w).2 (fun o ho => hops o (List.mem_cons_of_mem op ho)) h2
    refine ⟨?_, i2⟩
    simp only [runQueueOps, List.mem_append]
    rintro (h | h)
    · exact h1 h
    · exact i1 h

/-- The files after a sequence of steps on the queue: those at or below a path given to
`os.RemoveAll` are gone, the others are as they were. -/
theorem runQueueOps_fs (cfg : Config) (ops : List QueueOp) :
    ∀ (w : World) (q : String), (runQueueOps cfg ops w).2.fs q =
      if (runQueueOps cfg ops w).1.any (fun p => coveredBy p q) = true then none else w.fs q := by
  induction ops with
  | nil => intro w q; simp [runQueueOps]
  | cons op rest ih =>
    intro w q
    have hstep : (op.run cfg w).2.fs q =
        if (op.run cfg w).1.any (fun p => coveredBy p q) = true then none else w.fs q := by
      cases op with
      | tick now =>
        simp only [QueueOp.run]
        unfold StorageDelayJob.tick
        exact (foldl_RemoveAll_frame _ _).2.2.2.2 q
      | add filePath now => simp [QueueOp.run, StorageDelayJob.Add]
      | remove filePath => simp [QueueOp.run, StorageDelayJob.Remove]
    simp only [runQueueOps]
    rw [ih (op.run cfg w).2 q, hstep]
    by_cases h1 : (op.run cfg w).1.any (fun p => coveredBy p q) = true
    · simp [List.any_append, h1]
    · simp [List.any_append, h1]

/-- A file is kept by a sequence of steps that gives to `os.RemoveAll` neither its path nor a
path above it. -/
theorem runQueueOps_keeps_file (cfg : Config) (ops : List QueueOp) (w : World) (path : String)
    (hnot : path ∉ (runQueueOps cfg ops w).1)
    (habove : ∀ p ∈ (runQueueOps cfg ops w).1, startsWith (p ++ "/").data path.data = false) :
    (runQueueOps cfg ops w).2.fs path = w.fs path := by
  rw [runQueueOps_fs]
  have : (runQueueOps cfg ops w).1.any (fun p => coveredBy p path) = false := by
    rw [List.any_eq_false]
    intro p hp
    have hne : ¬ path = p := fun h => hnot (h ▸ hp)
    have hab := habove p hp
    simp only [coveredBy, hne, hab, decide_False, Bool.or_self, Bool.and_false]
    exact Bool.false_ne_true
  rw [this]
  simp

theorem filter_key_cons {β : Type} (m : List (String × β)) (f : String) (v : β) :
    ((f, v) :: m.filter (fun e => decide (e.1 ≠ f))).filter (fun e => decide (e.1 = f)) =
      [(f, v)] := by
  simp only [List.filter_cons, decide_True, if_true, List.filter_filter]
  congr 1
  apply List.filter_eq_nil_iff.mpr
  intro e _
  by_cases h : e.1 = f <;> simp [h]

theorem filter_other_cons {β : Type} (m : List (String × β)) (f : String) (v : β) :
    ((f, v) :: m.filter (fun e => decide (e.1 ≠ f))).filter (fun e => decide (e.1 ≠ f)) =
      m.filter (fun e => decide (e.1 ≠ f)) := by
  simp [List.filter_cons, List.filter_filter]

/-- C11, amended: one round of the background loop at time `now` gives to `os.RemoveAll`, and
removes from the queue, exactly the entries whose due time lies between -1 and the Unix second
of `now`, both included; every other entry stays in the queue unchanged (also one due before
-1); the files at and below the paths given to `os.RemoveAll` are gone and no other file is
touched.  Hence an entry added at time `t` is due at the Unix second of `t` plus the retention
window, and is neither given to `os.RemoveAll` nor removed from the queue by rounds that run
in an earlier Unix second (with calls of `Add` and `Remove` for other paths in between), and
its file is kept unless a path above it is given to `os.RemoveAll`; a round in the due second
itself removes it, which can be up to one second before the window has elapsed. -/
theorem tick_removes_due (cfg : Config) (now : Int) (w : World) (path : String) (t : Int)
    (ops : List QueueOp) :
    (∀ p, p ∈ (StorageDelayJob.tick now w).1 ↔
      ∃ sc, (p, sc) ∈ w.queue ∧ -1 ≤ sc ∧ sc ≤ now / 1000000000) ∧
    (StorageDelayJob.tick now w).2.queue =
      w.queue.filter (fun e => decide (e.2 < -1 ∨ now / 1000000000 < e.2)) ∧
    (∀ q, (StorageDelayJob.tick now w).2.fs q =
      if (StorageDelayJob.tick now w).1.any (fun p => coveredBy p q) = true then none
      else w.fs q) ∧
    ((∀ op ∈ ops, QueueOp.sparing path ((t + delayDuration cfg) / 1000000000) op) →
      path ∉ (runQueueOps cfg ops (StorageDelayJob.Add cfg t w path)).1 ∧
      (path, (t + delayDuration cfg) / 1000000000) ∈
        (runQueueOps cfg ops (StorageDelayJob.Add cfg t w path)).2.queue ∧
      ((∀ p ∈ (runQueueOps cfg ops (StorageDelayJob.Add cfg t w path)).1,
          startsWith (p ++ "/").data path.data = false) →
        (runQueueOps cfg ops (StorageDelayJob.Add cfg t w path)).2.fs path = w.fs path)) := by
  refine ⟨mem_tick now w, ?_, ?_, ?_⟩
  · rw [tick_queue]
    unfold zremRangeByScore
    apply List.filter_congr
    intro e _
    by_cases h1 : -1 ≤ e.2 <;> by_cases h2 : e.2 ≤ now / 1000000000 <;> simp [h1, h2] <;> omega
  · intro q
    unfold StorageDelayJob.tick
    exact (foldl_RemoveAll_frame _ _).2.2.2.2 q
  · intro hops
    have h := runQueueOps_spared cfg path ((t + delayDuration cfg) / 1000000000) ops
      (StorageDelayJob.Add cfg t w path) hops
      ((mem_zadd _ _ _ _).mpr (Or.inl rfl))
      (by
        intro sc hsc
        rcases (mem_zadd _ _ _ _).mp hsc with h | h
        · injection h
        · exact absurd rfl h.2)
    exact ⟨h.1, h.2.1, fun habove =>
      runQueueOps_keeps_file cfg ops (StorageDelayJob.Add cfg t w path) path h.1 habove⟩

/-- C11 for an entry added at time 0 with the default window of ten minutes: rounds at 5 and
at 599 seconds, with an `Add` for another path in between, leave it in the queue. -/
theorem tick_removes_due_witness :
    "/up/tmp/S1" ∉ (runQueueOps refConfig
        [QueueOp.tick 5000000000, QueueOp.add "/up/tmp/S2" 6000000000, QueueOp.tick 599000000000]
        (StorageDelayJob.Add refConfig 0 emptyWorld "/up/tmp/S1")).1 ∧
      ("/up/tmp/S1", (0 + delayDuration refConfig) / 1000000000) ∈
        (runQueueOps refConfig
          [QueueOp.tick 5000000000, QueueOp.add "/up/tmp/S2" 6000000000, QueueOp.tick 599000000000]
          (StorageDelayJob.Add refConfig 0 emptyWorld "/up/tmp/S1")).2.queue :=
  (tick_removes_due refConfig 0 emptyWorld "/up/tmp/S1" 0
    [QueueOp.tick 5000000000, QueueOp.add "/up/tmp/S2" 6000000000, QueueOp.tick 599000000000]).2.2.2
    (by
      intro op hop
      simp only [List.mem_cons, List.mem_singleton, List.not_mem_nil, or_false] at hop
      rcases hop with h | h | h <;> subst h <;> simp only [QueueOp.sparing] <;> decide)
    |> fun h => ⟨h.1, h.2.1⟩

/-- C11 fails as stated in two places.  The queue holds `/old`, due at -5; `/up/tmp/S1` is
added at 10.9 seconds with a window of one second, so it is due at the Unix second 11.  The
round at 11.0 seconds runs 0.1 seconds after the `Add`, before the window has elapsed, and
gives `/up/tmp/S1` to `os.RemoveAll`; `/old`, whose due time is not after `now`, stays in the
queue, because the range read and removed starts at -1. -/
theorem tick_early_counterexample :
    (11000000000 : Int) < 10900000000 + delayDuration oneSecondConfig ∧
      (StorageDelayJob.Add oneSecondConfig 10900000000 oldEntryWorld "/up/tmp/S1").queue =
        [("/up/tmp/S1", 11), ("/old", -5)] ∧
      (StorageDelayJob.tick 11000000000
          (StorageDelayJob.Add oneSecondConfig 10900000000 oldEntryWorld "/up/tmp/S1")).1 =
        ["/up/tmp/S1"] ∧
      (-5 : Int) ≤ 11000000000 / 1000000000 ∧
      (StorageDelayJob.tick 11000000000
          (StorageDelayJob.Add oneSecondConfig 10900000000 oldEntryWorld "/up/tmp/S1")).2.queue =
        [("/old", -5)] :=
  ⟨by decide, by decide, by decide, by decide, by decide⟩

/-- C12: `StorageDelayJob.Add(path)` at time `now` leaves the queue with exactly one entry for
the path, due at the Unix second of `now` plus the retention window, whether or not the path
had an entry before; the entries of all other paths are as they were, and nothing but the
queue changes. -/
theorem Add_one_entry (cfg : Config) (now : Int) (w : World) (path : String) :
    (StorageDelayJob.Add cfg now w path).queue.filter (fun e => decide (e.1 = path)) =
        [(path, (now + delayDuration cfg) / 1000000000)] ∧
      (StorageDelayJob.Add cfg now w path).queue.filter (fun e => decide (e.1 ≠ path)) =
        w.queue.filter (fun e => decide (e.1 ≠ path)) ∧
      (StorageDelayJob.Add cfg now w path).fs = w.fs ∧
      (StorageDelayJob.Add cfg now w path).kv = w.kv ∧
      (StorageDelayJob.Add cfg now w path).hashes = w.hashes ∧
      (StorageDelayJob.Add cfg now w path).hashTTL = w.hashTTL :=
  ⟨filter_key_cons _ _ _, filter_other_cons _ _ _, rfl, rfl, rfl, rfl⟩

/-- C13: `StorageDelayJob.Remove(path)` is a total function without an error result; after it
the queue holds no entry for the path, the entries of all other paths are as they were and
nothing but the queue changes; when the path had no entry the world is as it was; and no later
round of the background loop gives the path to `os.RemoveAll`, whatever the rounds and the
calls of `Remove` and of `Add` for other paths that follow, as long as `Add` is not called for
the path again; its file is kept unless a path above it is given to `os.RemoveAll`. -/
theorem Remove_cancels (cfg : Config) (w : World) (path : String) (ops : List QueueOp) :
    (∀ sc, (path, sc) ∉ (StorageDelayJob.Remove w path).queue) ∧
      (StorageDelayJob.Remove w path).queue.filter (fun e => decide (e.1 ≠ path)) =
        w.queue.filter (fun e => decide (e.1 ≠ path)) ∧
      ((∀ sc, (path, sc) ∉ w.queue) → StorageDelayJob.Remove w path = w) ∧
      ((StorageDelayJob.Remove w path).fs = w.fs ∧ (StorageDelayJob.Remove w path).kv = w.kv ∧
        (StorageDelayJob.Remove w path).hashes = w.hashes) ∧
      ((∀ op ∈ ops, QueueOp.notAdding path op) →
        path ∉ (runQueueOps cfg ops (StorageDelayJob.Remove w path)).1 ∧
        ((∀ p ∈ (runQueueOps cfg ops (StorageDelayJob.Remove w path)).1,
            startsWith (p ++ "/").data path.data = false) →
          (runQueueOps cfg ops (StorageDelayJob.Remove w path)).2.fs path = w.fs path)) := by
  have hno : ∀ sc, (path, sc) ∉ (StorageDelayJob.Remove w path).queue := by
    intro sc hsc
    have := (List.mem_filter.mp hsc).2
    simp at this
  refine ⟨hno, ?_, ?_, ⟨rfl, rfl, rfl⟩, ?_⟩
  · simp [StorageDelayJob.Remove, List.filter_filter]
  · intro habs
    have hq : w.queue.filter (fun e => decide (e.1 ≠ path)) = w.queue := by
      apply List.filter_eq_self.mpr
      intro e he
      simp only [ne_eq, decide_eq_true_eq]
      intro h
      exact habs e.2 (by rw [← h]; exact he)
    unfold StorageDelayJob.Remove
    rw [hq]
  · intro hops
    have h := (runQueueOps_absent cfg path ops _ hops hno).1
    exact ⟨h, fun habove =>
      runQueueOps_keeps_file cfg ops (StorageDelayJob.Remove w path) path h habove⟩

/-- C13 for an entry added at time 0 and removed before it is due: the round at 700 seconds,
after the due time, does not give the path to `os.RemoveAll`. -/
theorem Remove_cancels_witness :
    (StorageDelayJob.Add refConfig 0 emptyWorld "/up/tmp/S1").queue = [("/up/tmp/S1", 600)] ∧
      "/up/tmp/S1" ∉ (runQueueOps refConfig [QueueOp.tick 700000000000]
        (StorageDelayJob.Remove (StorageDelayJob.Add refConfig 0 emptyWorld "/up/tmp/S1")
          "/up/tmp/S1")).1 :=
  ⟨by decide,
    (Remove_cancels refConfig (StorageDelayJob.Add refConfig 0 emptyWorld "/up/tmp/S1")
      "/up/tmp/S1" [QueueOp.tick 700000000000]).2.2.2.2
      (by
        intro op hop
        rw [List.mem_singleton.mp hop]
        trivial) |>.1⟩

/-! ## The expiration of the chunk hash -/

theorem Create_frame (w w1 : World) (p : String) (h : w.Create p = some w1) :
    w1.kv = w.kv ∧ w1.hashes = w.hashes ∧ w1.hashTTL = w.hashTTL ∧ w1.queue = w.queue ∧
      w1.dirs = w.dirs := by
  unfold World.Create at h
  split at h
  · injection h with h
    subst h
    exact ⟨rfl, rfl, rfl, rfl, rfl⟩
  · cases h

theorem upload_frame (cfg : Config) (now : Int) (s : MultipartStorage) (w : World)
    (file : FileHeader) :
    (upload cfg now s w file).2.kv = w.kv ∧ (upload cfg now s w file).2.hashes = w.hashes ∧
      (upload cfg now s w file).2.hashTTL = w.hashTTL := by
  obtain ⟨_, hk, hh, ht, _, _, _⟩ := withDirFor_frame w (fullPath s file.Filename)
  unfold upload
  cases sizeValid cfg s file with
  | error e => exact ⟨rfl, rfl, rfl⟩
  | ok u =>
    simp only [uploadFullPathByName_eq]
    cases hc : (withDirFor w (fullPath s file.Filename)).Create (fullPath s file.Filename) with
    | none => exact ⟨hk, hh, ht⟩
    | some w1 =>
      obtain ⟨c1, c2, c3, _, _⟩ := Create_frame _ w1 _ hc
      simp only
      rcases contentValid cfg s file.Open with ⟨r, f2⟩
      cases r <;> exact ⟨c1.trans hk, c2.trans hh, c3.trans ht⟩

theorem formatSec_nonpos (dur : Int) (h : dur ≤ 0) : formatSec dur ≤ 0 := by
  unfold formatSec
  rw [if_neg (by omega)]
  obtain ⟨m, hm⟩ : ∃ m : Int, dur = -m ∧ 0 ≤ m := ⟨-dur, by omega, by omega⟩
  rw [hm.1, Int.neg_tdiv]
  have := Int.tdiv_nonneg hm.2 (by decide : (0 : Int) ≤ 1000000000)
  omega

theorem formatSec_whole (dur : Int) (h : 0 < dur) (hw : dur % 1000000000 = 0) :
    formatSec dur * 1000000000 = dur := by
  unfold formatSec
  rw [if_neg (by omega), Int.tdiv_eq_ediv (by omega) (by decide)]
  omega

theorem setChunk_kv (d : Deps) (cfg : Config) (w : World) (c : MultipartUploadChunkInfo) :
    (setChunk d cfg w c).2.kv = w.kv := by
  cases hv : d.marshalChunk c with
  | none => simp [setChunk, hv]
  | some v => exact (setChunk_ok d cfg w c v hv).2.1

/-- What `setChunk` does to the expiration of the hash it writes. -/
theorem setChunk_hashTTL (d : Deps) (cfg : Config) (w : World) (c : MultipartUploadChunkInfo)
    (v : String) (hv : d.marshalChunk c = some v) :
    (setChunk d cfg w c).2.hashTTL = fun k =>
      if k = chunksHashKey c.UploadId ∧ w.hashTTL (chunksHashKey c.UploadId) = none ∧
          0 < formatSec (delayDuration cfg) then
        some (formatSec (delayDuration cfg) * 1000000000)
      else w.hashTTL k := by
  have hne : (w.HSet (chunksHashKey c.UploadId) (fmtD c.Chunk) v).hashes (chunksHashKey c.UploadId) ≠
      [] := by
    simp [World.HSet, hsetFields]
  unfold setChunk
  simp only [hv]
  cases ht : w.hashTTL (chunksHashKey c.UploadId) with
  | none =>
    have httl : (w.HSet (chunksHashKey c.UploadId) (fmtD c.Chunk) v).TTL
        (chunksHashKey c.UploadId) = -1 := by
      unfold World.TTL
      rw [if_neg hne]
      have : (w.HSet (chunksHashKey c.UploadId) (fmtD c.Chunk) v).hashTTL
          (chunksHashKey c.UploadId) = none := ht
      rw [this]
    rw [if_pos httl]
    unfold World.Expire
    rw [if_neg hne]
    by_cases hs : formatSec (delayDuration cfg) ≤ 0
    · rw [if_pos hs]
      have hs2 : ¬ 0 < formatSec (delayDuration cfg) := by omega
      funext k
      by_cases hk : k = chunksHashKey c.UploadId
      · simp [hk, World.HSet, hs2, ht]
      · simp [hk, World.HSet]
    · rw [if_neg hs]
      have hs2 : 0 < formatSec (delayDuration cfg) := by omega
      funext k
      by_cases hk : k = chunksHashKey c.UploadId
      · simp [hk, World.HSet, hs2]
      · simp [hk, World.HSet]
  | some t =>
    have httl : (w.HSet (chunksHashKey c.UploadId) (fmtD c.Chunk) v).TTL
        (chunksHashKey c.UploadId) ≠ -1 := by
      unfold World.TTL
      rw [if_neg hne]
      have : (w.HSet (chunksHashKey c.UploadId) (fmtD c.Chunk) v).hashTTL
          (chunksHashKey c.UploadId) = some t := ht
      rw [this]
      simp only
      split <;> omega
    rw [if_neg httl]
    funext k
    simp [World.HSet]

/-- The hash after `setChunk` of a record that marshals, when it had no expiration and the
delay duration is not positive: the key is gone. -/
theorem setChunk_deletes (d : Deps) (cfg : Config) (w : World) (c : MultipartUploadChunkInfo)
    (v : String) (hv : d.marshalChunk c = some v)
    (ht : w.hashTTL (chunksHashKey c.UploadId) = none) (hwindow : delayDuration cfg ≤ 0) :
    (setChunk d cfg w c).2.hashes (chunksHashKey c.UploadId) = [] := by
  have hne : (w.HSet (chunksHashKey c.UploadId) (fmtD c.Chunk) v).hashes (chunksHashKey c.UploadId) ≠
      [] := by
    simp [World.HSet, hsetFields]
  have httl : (w.HSet (chunksHashKey c.UploadId) (fmtD c.Chunk) v).TTL
      (chunksHashKey c.UploadId) = -1 := by
    unfold World.TTL
    rw [if_neg hne]
    have : (w.HSet (chunksHashKey c.UploadId) (fmtD c.Chunk) v).hashTTL
        (chunksHashKey c.UploadId) = none := ht
    rw [this]
  unfold setChunk
  simp only [hv]
  rw [if_pos httl]
  unfold World.Expire
  rw [if_neg hne, if_pos (formatSec_nonpos _ hwindow)]
  simp

theorem setChunk_keeps_ttl (d : Deps) (cfg : Config) (w : World) (c : MultipartUploadChunkInfo)
    (k : String) (t : Int) (h : w.hashTTL k = some t) :
    (setChunk d cfg w c).2.hashTTL k = some t := by
  cases hv : d.marshalChunk c with
  | none => simp [setChunk, hv, h]
  | some v =>
    rw [setChunk_hashTTL d cfg w c v hv]
    simp only
    by_cases hk : k = chunksHashKey c.UploadId
    · rw [← hk, h]
      simp [h]
    · simp [hk, h]

theorem Upload_frame (d : Deps) (cfg : Config) (now : Int) (s : MultipartStorage) (w : World)
    (req : MultipartUploadReq) (file : FileHeader) :
    (Upload d cfg now s w req file).2.2.kv = w.kv ∧
      ∀ k t, w.hashTTL k = some t → (Upload d cfg now s w req file).2.2.hashTTL k = some t := by
  unfold Upload
  cases getStartInfo d w req.UploadId with
  | error e => exact ⟨rfl, fun _ _ h => h⟩
  | ok info =>
    simp only
    have hf := upload_frame cfg now { s with contentMD5 := req.ContentMd5, size := req.Size } w file
    revert hf
    rcases upload cfg now { s with contentMD5 := req.ContentMd5, size := req.Size } w file
      with ⟨r, w1⟩
    intro hf
    obtain ⟨hkv, _, httl⟩ := hf
    simp only at hkv httl
    cases r with
    | error e => exact ⟨hkv, fun k t h => by simpa [httl] using h⟩
    | ok downloadPath =>
      simp only
      have hs1 := setChunk_kv d cfg w1
        { UploadId := req.UploadId, Chunk := req.Chunk, ContentMd5 := req.ContentMd5,
          Validity := d.durationString (delayDuration cfg), DownloadPath := downloadPath }
      have hs2 := fun k t h => setChunk_keeps_ttl d cfg w1
        { UploadId := req.UploadId, Chunk := req.Chunk, ContentMd5 := req.ContentMd5,
          Validity := d.durationString (delayDuration cfg), DownloadPath := downloadPath } k t h
      revert hs1 hs2
      rcases setChunk d cfg w1
        { UploadId := req.UploadId, Chunk := req.Chunk, ContentMd5 := req.ContentMd5,
          Validity := d.durationString (delayDuration cfg), DownloadPath := downloadPath }
        with ⟨r2, w2⟩
      intro hs1 hs2
      simp only at hs1 hs2
      cases r2 <;> exact ⟨hs1.trans hkv, fun k t h => hs2 k t (by rw [httl]; exact h)⟩

theorem afterUploads_keeps_ttl (d : Deps) (cfg : Config) (calls : List UploadCall) :
    ∀ (w : World) (k : String) (t : Int), w.hashTTL k = some t →
      (afterUploads d cfg calls w).hashTTL k = some t := by
  induction calls with
  | nil => intro w k t h; exact h
  | cons c rest ih =>
    intro w k t h
    exact ih _ k t ((Upload_frame d cfg c.now c.s w c.req c.file).2 k t h)

/-- C14, amended: after its write of a record that marshals, `setChunk` finds the hash of the
session without expiration (`TTL` answers -1) exactly when none is in force for it, and only
then calls `Expire` with the retention window.  With a positive window the call puts the window
in whole seconds in force (rounded towards zero, one second for a window below a second; the
window itself when it is a whole number of seconds) and the record stays stored; with a window
that is zero or negative the call deletes the hash, so the record just written is gone and no
expiration is in force.  An expiration in force already is left as it is, the expirations of
all other keys are left as they are, and once an expiration is in force on the hash no later
`Upload`, to this session or another, whatever it returns, changes it. -/
theorem setChunk_expire_once (d : Deps) (cfg : Config) (w : World)
    (c : MultipartUploadChunkInfo) (v : String) (calls : List UploadCall)
    (hv : d.marshalChunk c = some v) :
    (((w.HSet (chunksHashKey c.UploadId) (fmtD c.Chunk) v).TTL (chunksHashKey c.UploadId) = -1) ↔
        w.hashTTL (chunksHashKey c.UploadId) = none) ∧
      (w.hashTTL (chunksHashKey c.UploadId) = none → 0 < delayDuration cfg →
        (setChunk d cfg w c).2.hashTTL (chunksHashKey c.UploadId) =
            some (formatSec (delayDuration cfg) * 1000000000) ∧
          0 < formatSec (delayDuration cfg) ∧
          (delayDuration cfg % 1000000000 = 0 →
            formatSec (delayDuration cfg) * 1000000000 = delayDuration cfg) ∧
          (setChunk d cfg w c).2.hashes (chunksHashKey c.UploadId) =
            hsetFields (w.hashes (chunksHashKey c.UploadId)) (fmtD c.Chunk) v) ∧
      (w.hashTTL (chunksHashKey c.UploadId) = none → delayDuration cfg ≤ 0 →
        (setChunk d cfg w c).2.hashes (chunksHashKey c.UploadId) = [] ∧
          (setChunk d cfg w c).2.hashTTL (chunksHashKey c.UploadId) = none) ∧
      (∀ t, w.hashTTL (chunksHashKey c.UploadId) = some t →
        (setChunk d cfg w c).2.hashTTL (chunksHashKey c.UploadId) = some t) ∧
      (∀ k, k ≠ chunksHashKey c.UploadId → (setChunk d cfg w c).2.hashTTL k = w.hashTTL k) ∧
      (∀ t, (setChunk d cfg w c).2.hashTTL (chunksHashKey c.UploadId) = some t →
        (afterUploads d cfg calls (setChunk d cfg w c).2).hashTTL (chunksHashKey c.UploadId) =
          some t) := by
  have hne : (w.HSet (chunksHashKey c.UploadId) (fmtD c.Chunk) v).hashes (chunksHashKey c.UploadId) ≠
      [] := by
    simp [World.HSet, hsetFields]
  have hsame : (w.HSet (chunksHashKey c.UploadId) (fmtD c.Chunk) v).hashTTL
      (chunksHashKey c.UploadId) = w.hashTTL (chunksHashKey c.UploadId) := rfl
  refine ⟨?_, ?_, ?_, ?_, ?_, ?_⟩
  · unfold World.TTL
    rw [if_neg hne, hsame]
    cases w.hashTTL (chunksHashKey c.UploadId) with
    | none => simp
    | some t =>
      simp only
      constructor
      · intro h
        split at h <;> omega
      · intro h
        cases h
  · intro h hpos
    have hsec := formatSec_pos _ hpos
    refine ⟨?_, hsec, formatSec_whole _ hpos, ?_⟩
    · rw [setChunk_hashTTL d cfg w c v hv]
      simp [h, hsec]
    · rw [setChunk_hashes d cfg w c v hv hpos]
      simp
  · intro h hwindow
    refine ⟨setChunk_deletes d cfg w c v hv h hwindow, ?_⟩
    rw [setChunk_hashTTL d cfg w c v hv]
    have hsec := formatSec_nonpos _ hwindow
    have hs2 : ¬ 0 < formatSec (delayDuration cfg) := by omega
    simp [h, hs2]
  · intro t h
    exact setChunk_keeps_ttl d cfg w c _ t h
  · intro k hk
    rw [setChunk_hashTTL d cfg w c v hv]
    simp [hk]
  · intro t h
    exact afterUploads_keeps_ttl d cfg calls _ _ t h

/-- C14 at a session `S1` without chunks: the first record stored gives the hash the retention
window of ten minutes, and a second `Upload` leaves it. -/
theorem setChunk_expire_once_witness :
    (startedWorld 1).hashTTL (chunksHashKey "S1") = none ∧
      (setChunk refDeps refConfig (startedWorld 1) secondRecord).2.hashTTL (chunksHashKey "S1") =
        some 600000000000 ∧
      (afterUploads refDeps refConfig [firstUpload]
        (setChunk refDeps refConfig (startedWorld 1) secondRecord).2).hashTTL (chunksHashKey "S1") =
        some 600000000000 :=
  have h := setChunk_expire_once refDeps refConfig (startedWorld 1) secondRecord
    "S1\n0\n\n10m0s\n/tmp/U0?v=0&where=multi_upload" [firstUpload] rfl
  ⟨rfl, (h.2.1 rfl (by decide)).1, h.2.2.2.2.2 600000000000 (h.2.1 rfl (by decide)).1⟩

/-- C14 fails as stated in two places.  With a retention window of zero, `Upload` of chunk 0 of
the session `S1` succeeds and returns its record, and the hash of the session is gone: `Expire`
with a timeout of zero seconds deleted it, so `TTL` answers -2, `getChunks` finds no chunk, and
a second `Upload` runs `Expire` again with the same outcome.  With a window of one and a half
seconds the expiration put in force is one second, not the window. -/
theorem setChunk_window_counterexample :
    delayDuration zeroWindowConfig = 0 ∧
      (startedWorld 1).hashTTL (chunksHashKey "S1") = none ∧
      (Upload refDeps zeroWindowConfig 0 (refStorage "U0") (startedWorld 1) firstUpload.req
          firstUpload.file).1 =
        .ok { UploadId := "S1", Chunk := 0, ContentMd5 := "", Validity := "0s",
              DownloadPath := "/tmp/U0?v=0&where=multi_upload" } ∧
      (afterUpload refDeps zeroWindowConfig firstUpload (startedWorld 1)).hashes
          (chunksHashKey "S1") = [] ∧
      (afterUpload refDeps zeroWindowConfig firstUpload (startedWorld 1)).TTL
          (chunksHashKey "S1") = -2 ∧
      getChunks refDeps (afterUpload refDeps zeroWindowConfig firstUpload (startedWorld 1)) "S1" =
        .error (invalidRequest "upload 'S1' chunks redis hash not found") ∧
      (afterUpload refDeps zeroWindowConfig secondUpload
          (afterUpload refDeps zeroWindowConfig firstUpload (startedWorld 1))).TTL
          (chunksHashKey "S1") = -2 ∧
      delayDuration shortWindowConfig = 1500000000 ∧
      (afterUpload refDeps shortWindowConfig firstUpload (startedWorld 1)).TTL
          (chunksHashKey "S1") = 1000000000 :=
  ⟨by rfl, by rfl, by rfl, by rfl, by rfl, by rfl, by rfl, by rfl, by rfl⟩

/-! ## Corrupted records -/

theorem decodedValues_drop_empty (d : Deps) (m : List (String × String)) (k : String) :
    decodedValues d (m.filter (fun e => decide (e ≠ (k, "")))) = decodedValues d m := by
  unfold decodedValues
  rw [List.filter_filter]
  congr 1
  apply List.filter_congr
  intro e _
  by_cases h : e.2 = ""
  · simp [h]
  · have hne : e ≠ (k, "") := fun heq => h (by rw [heq])
    simp [h, hne]

/-- C15, amended: a field whose value is empty does not make `getChunks` or
`GetMultipartUploadChunks` fail: when every non-empty value unmarshals, the field is skipped
and the call returns, without error, the records of the remaining fields; a field whose value
is not empty and does not unmarshal makes both calls return the internal server error. -/
theorem getChunks_skips_empty (d : Deps) (w : World) (uploadId : String) (k : String) :
    ((k, "") ∈ w.hashes (chunksHashKey uploadId) →
      allDecode d (w.hashes (chunksHashKey uploadId)) →
      ∃ chunks, getChunks d w uploadId = .ok chunks ∧
        GetMultipartUploadChunks d w uploadId = .ok chunks ∧
        chunks.Perm (decodedValues d
          ((w.hashes (chunksHashKey uploadId)).filter (fun e => decide (e ≠ (k, "")))))) ∧
    ((∃ e ∈ w.hashes (chunksHashKey uploadId), e.2 ≠ "" ∧ d.unmarshalChunk e.2 = none) →
      getChunks d w uploadId = .error internalServerError ∧
        GetMultipartUploadChunks d w uploadId = .error internalServerError) := by
  constructor
  · intro hmem hall
    have hne : w.hashes (chunksHashKey uploadId) ≠ [] := List.ne_nil_of_mem hmem
    have hget := (getChunks_ok_iff d w uploadId _).mpr ⟨hne, hall, rfl⟩
    refine ⟨_, hget, hget, ?_⟩
    rw [decodedValues_drop_empty]
    exact getChunks_perm_decoded d w uploadId _ hget
  · rintro ⟨e, he, hne, hu⟩
    have hnil : w.hashes (chunksHashKey uploadId) ≠ [] := List.ne_nil_of_mem he
    have hlen : (w.hashes (chunksHashKey uploadId)).length ≠ 0 := by
      simpa [List.length_eq_zero] using hnil
    have hnot : ¬ allDecode d (d.mapRange (w.hashes (chunksHashKey uploadId))) := by
      intro hall
      exact (allDecode_perm d (d.mapRange_perm _)).mp hall e he hne hu
    have hres : getChunks d w uploadId = .error internalServerError := by
      unfold getChunks World.HGetAll
      simp only [hlen, if_false]
      cases hl : getChunksLoop d (d.mapRange (w.hashes (chunksHashKey uploadId))) [] with
      | error e2 =>
        rw [getChunksLoop_error d _ [] e2 hl]
      | ok r =>
        exact absurd ((getChunksLoop_ok_iff d _ [] r).mp hl).1 hnot
    exact ⟨hres, hres⟩

/-- C15 at a hash with one record and one empty value: the record is returned. -/
theorem getChunks_skips_empty_witness :
    ("1", "") ∈ emptyValueWorld.hashes (chunksHashKey "S1") ∧
      getChunks refDeps emptyValueWorld "S1" = .ok [oneChunkRecord] ∧
      ∃ chunks, getChunks refDeps emptyValueWorld "S1" = .ok chunks ∧
        GetMultipartUploadChunks refDeps emptyValueWorld "S1" = .ok chunks ∧
        chunks.Perm (decodedValues refDeps
          ((emptyValueWorld.hashes (chunksHashKey "S1")).filter
            (fun e => decide (e ≠ ("1", ""))))) :=
  have hfields : emptyValueWorld.hashes (chunksHashKey "S1") =
      [("0", "S1\n0\nmd5a\n10m0s\n/tmp/A?v=0&where=multi_upload"), ("1", "")] := by rfl
  have hmem : ("1", "") ∈ emptyValueWorld.hashes (chunksHashKey "S1") := by
    rw [hfields]
    simp
  ⟨hmem, by rfl,
    (getChunks_skips_empty refDeps emptyValueWorld "S1" "1").1 hmem
      (by
        intro e he
        rw [hfields] at he
        rcases List.mem_cons.mp he with h | h
        · rw [h]
          intro _
          have : refDeps.unmarshalChunk "S1\n0\nmd5a\n10m0s\n/tmp/A?v=0&where=multi_upload" =
              some oneChunkRecord := by rfl
          rw [this]
          simp
        · rw [List.mem_singleton.mp h]
          intro hne
          exact absurd rfl hne)⟩

/-- C15 fails for a value that cannot be deserialized: the hash holds one record and one
value that does not unmarshal, and both calls return the internal server error instead of the
remaining record. -/
theorem getChunks_corrupt_counterexample :
    decodedValues refDeps (corruptWorld.hashes (chunksHashKey "S1")) = [oneChunkRecord] ∧
      refDeps.unmarshalChunk "garbage" = none ∧
      getChunks refDeps corruptWorld "S1" = .error internalServerError ∧
      GetMultipartUploadChunks refDeps corruptWorld "S1" = .error internalServerError :=
  ⟨by rfl, by rfl, by rfl, by rfl⟩

/-! ## The session metadata and the receiver -/

theorem metadataKey_injective (a b : String) (h : metadataKey a = metadataKey b) : a = b := by
  unfold metadataKey at h
  have h2 := congrArg String.data h
  simp only [String.data_append] at h2
  exact String.ext (List.append_cancel_left (List.append_cancel_right h2))

/-- What `Done` leaves alone: the Redis strings and the field `contentMD5` of the receiver. -/
theorem Done_frame (d : Deps) (cfg : Config) (now : Int) (s : MultipartStorage) (w : World)
    (uploadId : String) :
    (Done d cfg now s w uploadId).2.2.kv = w.kv ∧
      (Done d cfg now s w uploadId).2.1.contentMD5 = s.contentMD5 := by
  cases hstart : getStartInfo d w uploadId with
  | error e => simp [Done, hstart]
  | ok startInfo =>
    cases hchunks : getChunks d w uploadId with
    | error e => simp [Done, hstart, hchunks]
    | ok chunks =>
      by_cases hlen : (chunks.length : Int) = startInfo.Chunks
      swap
      · simp [Done, hstart, hchunks, hlen]
      by_cases hcreate : creatable w (destPath s startInfo)
      swap
      · rw [Done_not_creatable d cfg now s w uploadId startInfo chunks hstart hchunks hlen hcreate]
        exact ⟨(withDirFor_frame w _).2.1, rfl⟩
      rw [Done_unfold d cfg now s w uploadId startInfo chunks hstart hchunks hlen hcreate]
      have hf := mergeChunks_frame d (destPath s startInfo) chunks
        { s with resourceType := startInfo.Type_ } (createdAt w (destPath s startInfo)) []
      rw [(createdAt_frame w (destPath s startInfo)).1] at hf
      revert hf
      rcases mergeChunks d (destPath s startInfo) chunks
        { s with resourceType := startInfo.Type_ } (createdAt w (destPath s startInfo)) []
        with ⟨r, s2, w2, h2⟩
      intro hf
      obtain ⟨_, hkv, _, _, _, _, _, hmd5, _, _⟩ := hf
      simp only at hkv hmd5
      have hkv2 : w2.kv = w.kv := hkv
      have hmd52 : s2.contentMD5 = s.contentMD5 := hmd5
      cases r with
      | error e => exact ⟨hkv2, hmd52⟩
      | ok u =>
        simp only
        cases contentMD5Valid cfg s2 (md5Hex h2) <;> exact ⟨hkv2, hmd52⟩

theorem Start_other_session (d : Deps) (cfg : Config) (s : MultipartStorage) (w : World)
    (req : MultipartUploadStartReq) (uploadId : String) (h : s.resourceId ≠ uploadId) :
    getStartInfo d (Start d cfg s w req).2 uploadId = getStartInfo d w uploadId := by
  have hkey : metadataKey uploadId ≠ metadataKey s.resourceId :=
    fun hk => h (metadataKey_injective _ _ hk).symm
  unfold Start setStart
  cases d.marshalStart req with
  | none => rfl
  | some v =>
    simp only [getStartInfo, World.Get, World.Set, hkey, if_false]

theorem runSessionOps_startInfo (d : Deps) (cfg : Config) (uploadId : String)
    (ops : List SessionOp) :
    ∀ w : World, (∀ op ∈ ops, SessionOp.notRestarting uploadId op) →
      getStartInfo d (runSessionOps d cfg ops w) uploadId = getStartInfo d w uploadId := by
  induction ops with
  | nil => intro w _; rfl
  | cons op rest ih =>
    intro w hops
    have hop := hops op (List.mem_cons_self op rest)
    rw [runSessionOps, ih _ (fun o ho => hops o (List.mem_cons_of_mem op ho))]
    cases op with
    | start s req =>
      exact Start_other_session d cfg s w req uploadId hop
    | upload c =>
      exact getStartInfo_congr d w _ uploadId (Upload_frame d cfg c.now c.s w c.req c.file).1
    | done s uid now =>
      exact getStartInfo_congr d w _ uploadId (Done_frame d cfg now s w uid).1

/-- C16, amended: for every sequence of `Start`, `Upload` and `Done` requests in which no
`Start` runs on a receiver that carries the resource id of the session, `getStartInfo` returns
for that session id what it returned before, so the declared chunk count does not change;
`Upload` and `Done` never write the session metadata.  A further `Start` on a receiver that
carries the resource id of the session does replace the stored request, declared chunk count
included, by the new one. -/
theorem startInfo_changes_only_by_Start (d : Deps) (cfg : Config) (uploadId : String)
    (ops : List SessionOp) (w : World) (s : MultipartStorage) (req : MultipartUploadStartReq)
    (v : String) :
    ((∀ op ∈ ops, SessionOp.notRestarting uploadId op) →
      getStartInfo d (runSessionOps d cfg ops w) uploadId = getStartInfo d w uploadId) ∧
    (s.resourceId = uploadId → d.marshalStart req = some v → v ≠ "" →
      d.unmarshalStart v = some req →
      getStartInfo d (Start d cfg s w req).2 uploadId = .ok req) := by
  refine ⟨runSessionOps_startInfo d cfg uploadId ops w, ?_⟩
  intro hid hv hne hu
  simp [Start, setStart, hv, getStartInfo, World.Get, World.Set, hid, hne, hu]

/-- C16 at a session `S1` of one chunk: two uploads, a `Done` and a `Start` for another
session leave its start request as it was. -/
theorem startInfo_changes_only_by_Start_witness :
    getStartInfo refDeps (startedWorld 1) "S1" =
        .ok { Filename := "a.png", Chunks := 1, Type_ := 11 } ∧
      getStartInfo refDeps
          (runSessionOps refDeps refConfig
            [SessionOp.upload firstUpload, SessionOp.upload secondUpload,
             SessionOp.done (refStorage "S1") "S1" 0,
             SessionOp.start (refStorage "S2") { Filename := "b.png", Chunks := 7, Type_ := 11 }]
            (startedWorld 1)) "S1" =
        getStartInfo refDeps (startedWorld 1) "S1" :=
  ⟨by rfl,
    (startInfo_changes_only_by_Start refDeps refConfig "S1"
      [SessionOp.upload firstUpload, SessionOp.upload secondUpload,
       SessionOp.done (refStorage "S1") "S1" 0,
       SessionOp.start (refStorage "S2") { Filename := "b.png", Chunks := 7, Type_ := 11 }]
      (startedWorld 1) (refStorage "S1") { Filename := "a.png", Chunks := 1, Type_ := 11 }
      "a.png\n1\n11").1
      (by
        intro op hop
        simp only [List.mem_cons, List.mem_singleton, List.not_mem_nil, or_false] at hop
        rcases hop with h | h | h | h <;> subst h <;> simp only [SessionOp.notRestarting]
        decide)⟩

/-- C16 fails for a further `Start`: the session `S1` is started with two chunks, a second
`Start` on a receiver with the resource id `S1` declares five, and `getStartInfo` then
returns five for the same session id. -/
theorem restart_counterexample :
    getStartInfo refDeps (startedWorld 2) "S1" =
        .ok { Filename := "a.png", Chunks := 2, Type_ := 11 } ∧
      (Start refDeps refConfig (refStorage "S1") (startedWorld 2)
          { Filename := "a.png", Chunks := 5, Type_ := 11 }).1 = .ok { UploadId := "S1" } ∧
      getStartInfo refDeps
          (Start refDeps refConfig (refStorage "S1") (startedWorld 2)
            { Filename := "a.png", Chunks := 5, Type_ := 11 }).2 "S1" =
        .ok { Filename := "a.png", Chunks := 5, Type_ := 11 } :=
  ⟨by rfl, by rfl, by rfl⟩

theorem leading_upload_quote (x : String) :
    leading (invalidRequest ("upload '" ++ x)) = "upload '".data := by
  unfold leading invalidRequest
  simp only [String.data_append]
  rfl

theorem leading_internal : leading internalServerError = "internal".data := by
  decide

theorem leading_mismatch (c digest : String) :
    leading (checksumMismatch c digest) = "upload f".data := by
  unfold leading checksumMismatch invalidRequest
  simp only [String.data_append, String.append_assoc]
  rfl

theorem getStartInfo_error_leading (d : Deps) (w : World) (uploadId : String) (e : MErr)
    (h : getStartInfo d w uploadId = .error e) :
    leading e = "upload '".data ∨ leading e = "internal".data := by
  unfold getStartInfo at h
  cases hg : w.Get (metadataKey uploadId) with
  | none =>
    rw [hg] at h
    injection h with h
    left
    rw [← h, String.append_assoc]
    exact leading_upload_quote _
  | some v =>
    rw [hg] at h
    simp only at h
    by_cases hv : v = ""
    · rw [if_pos hv] at h
      injection h with h
      left
      rw [← h, String.append_assoc]
      exact leading_upload_quote _
    · rw [if_neg hv] at h
      cases hu : d.unmarshalStart v with
      | none =>
        rw [hu] at h
        injection h with h
        right
        rw [← h]
        exact leading_internal
      | some r =>
        rw [hu] at h
        cases h

theorem getChunks_error_leading (d : Deps) (w : World) (uploadId : String) (e : MErr)
    (h : getChunks d w uploadId = .error e) :
    leading e = "upload '".data ∨ leading e = "internal".data := by
  unfold getChunks World.HGetAll at h
  by_cases hl : (w.hashes (chunksHashKey uploadId)).length = 0
  · rw [if_pos hl] at h
    injection h with h
    left
    rw [← h, String.append_assoc]
    exact leading_upload_quote _
  · rw [if_neg hl] at h
    cases hloop : getChunksLoop d (d.mapRange (w.hashes (chunksHashKey uploadId))) [] with
    | error e2 =>
      rw [hloop] at h
      injection h with h
      right
      rw [← h, getChunksLoop_error d _ [] e2 hloop]
      exact leading_internal
    | ok r =>
      rw [hloop] at h
      cases h

theorem mergeChunks_error (d : Deps) (filePath : String) (chunks : List MultipartUploadChunkInfo) :
    ∀ (s : MultipartStorage) (w : World) (hash : Bytes) (e : MErr),
      (mergeChunks d filePath chunks s w hash).1 = .error e → e = internalServerError := by
  induction chunks with
  | nil => intro s w hash e h; simp [mergeChunks] at h
  | cons c rest ih =>
    intro s w hash e h
    cases hread : w.ReadFile (chunkFilePath d s c) with
    | none =>
      simp only [mergeChunks, hread] at h
      injection h with h
      exact h.symm
    | some b =>
      simp only [mergeChunks, hread] at h
      exact ih _ _ _ e h

/-- The errors `Done` returns on a receiver whose `contentMD5` is empty. -/
theorem Done_error_leading (d : Deps) (cfg : Config) (now : Int) (s : MultipartStorage)
    (w : World) (uploadId : String) (e : MErr) (hs : s.contentMD5 = "")
    (h : (Done d cfg now s w uploadId).1 = .error e) :
    leading e = "upload '".data ∨ leading e = "internal".data := by
  cases hstart : getStartInfo d w uploadId with
  | error e1 =>
    simp only [Done, hstart] at h
    injection h with h
    rw [← h]
    exact getStartInfo_error_leading d w uploadId e1 hstart
  | ok startInfo =>
    cases hchunks : getChunks d w uploadId with
    | error e1 =>
      simp only [Done, hstart, hchunks] at h
      injection h with h
      rw [← h]
      exact getChunks_error_leading d w uploadId e1 hchunks
    | ok chunks =>
      by_cases hlen : (chunks.length : Int) = startInfo.Chunks
      swap
      · simp only [Done, hstart, hchunks, ne_eq, hlen, not_false_eq_true, if_true] at h
        injection h with h
        left
        rw [← h]
        simp only [String.append_assoc]
        exact leading_upload_quote _
      by_cases hcreate : creatable w (destPath s startInfo)
      swap
      · rw [Done_not_creatable d cfg now s w uploadId startInfo chunks hstart hchunks hlen hcreate]
          at h
        injection h with h
        right
        rw [← h]
        exact leading_internal
      rw [Done_unfold d cfg now s w uploadId startInfo chunks hstart hchunks hlen hcreate] at h
      have hf := mergeChunks_frame d (destPath s startInfo) chunks
        { s with resourceType := startInfo.Type_ } (createdAt w (destPath s startInfo)) []
      have he := mergeChunks_error d (destPath s startInfo) chunks
        { s with resourceType := startInfo.Type_ } (createdAt w (destPath s startInfo)) []
      revert h hf he
      rcases mergeChunks d (destPath s startInfo) chunks
        { s with resourceType := startInfo.Type_ } (createdAt w (destPath s startInfo)) []
        with ⟨r, s2, w2, h2⟩
      intro h hf he
      have hmd5 : s2.contentMD5 = "" := hf.2.2.2.2.2.2.2.1.trans hs
      cases r with
      | error e1 =>
        simp only at h
        injection h with h
        right
        rw [← h, he e1 rfl]
        exact leading_internal
      | ok u =>
        simp only at h
        rw [contentMD5Valid_skip cfg s2 (md5Hex h2) (Or.inl hmd5)] at h
        cases h

/-- C17: the checksum `Done` compares the aggregate digest with is the field `contentMD5` of
the receiver; `NewMultipartStorage` leaves it empty, `Upload` assigns it from the request of
the chunk it stores, and `Done` never assigns it; so on a receiver on which `Upload` has not
been called (the field is empty) `Done` never returns the checksum-mismatch error, for every
world, hence every chunk set, and every configuration, hence either value of the content-check
toggle. -/
theorem Done_without_Upload (d : Deps) (cfg : Config) (now : Int) (s : MultipartStorage)
    (w : World) (uploadId : String) (hs : s.contentMD5 = "") :
    (∀ e c digest, (Done d cfg now s w uploadId).1 = .error e → e ≠ checksumMismatch c digest) ∧
      (Done d cfg now s w uploadId).2.1.contentMD5 = "" ∧
      (∀ now0 uuid resourceType resourceId s0,
        NewMultipartStorage cfg now0 uuid resourceType resourceId = some s0 → s0.contentMD5 = "") ∧
      (∀ now1 s1 req file info, getStartInfo d w req.UploadId = .ok info →
        (Upload d cfg now1 s1 w req file).2.1.contentMD5 = req.ContentMd5) := by
  refine ⟨?_, ?_, ?_, ?_⟩
  · intro e c digest he heq
    have hl := Done_error_leading d cfg now s w uploadId e hs he
    rw [heq, leading_mismatch] at hl
    rcases hl with h | h
    · exact absurd h (by decide)
    · exact absurd h (by decide)
  · rw [(Done_frame d cfg now s w uploadId).2]
    exact hs
  · intro now0 uuid resourceType resourceId s0 h
    unfold NewMultipartStorage at h
    split at h
    · cases h
    · injection h with h
      rw [← h]
  · intro now1 s1 req file info hstart
    unfold Upload
    rw [hstart]
    simp only
    rcases upload cfg now1 { s1 with contentMD5 := req.ContentMd5, size := req.Size } w file
      with ⟨r, w1⟩
    cases r with
    | error e => rfl
    | ok p =>
      simp only
      rcases setChunk d cfg w1
        { UploadId := req.UploadId, Chunk := req.Chunk, ContentMd5 := req.ContentMd5,
          Validity := d.durationString (delayDuration cfg), DownloadPath := p } with ⟨r2, w2⟩
      cases r2 <;> rfl

/-- C17 at a fresh receiver with content checking enabled: `Done` on the session of one chunk
succeeds although the digest of the checksum texts is not the checksum of any session. -/
theorem Done_without_Upload_witness :
    NewMultipartStorage contentCheckConfig 0 "uuid" 11 "S1" = some (refStorage "S1") ∧
      (refStorage "S1").contentMD5 = "" ∧
      (Done refDeps contentCheckConfig 0 (refStorage "S1") oneChunkWorld "S1").1 =
        .ok { UploadId := "S1", DownloadPath := "/tmp/S1.png?v=0&where=multi_upload",
              Validity := "10m0s" } ∧
      ∀ e c digest,
        (Done refDeps contentCheckConfig 0 (refStorage "S1") oneChunkWorld "S1").1 = .error e →
          e ≠ checksumMismatch c digest :=
  ⟨by rfl, rfl, by rfl,
    (Done_without_Upload refDeps contentCheckConfig 0 (refStorage "S1") oneChunkWorld "S1" rfl).1⟩

end MultiUpload
